import Mathlib

/-!
Verification of the listing-extraction pipeline of the real-estate repository
(`backend/tools/google_search.py`) against its natural-language specification.

The Python functions are shallowly embedded as total Lean functions over
`List Char` / `String`.  Conventions used throughout:

* The source file is stored double-encoded: the rupee sign U+20B9 appears in it
  as the three characters "â‚¹" (its UTF-8 bytes read as Latin-1), and the en
  dash U+2013 as "â€“".  Both sequences occur only as atomic tokens in string
  literals and regex alternations, so we model them as the single characters
  '₹' and '–'.
* Python's `\d`, `\s` and case folding are modelled on their ASCII parts; all
  literals appearing in the program are ASCII (plus '₹').
* Regular expressions are compiled by hand into position matchers that are run
  at every suffix (`scanFirst`), which is exactly `re.search`'s leftmost-match
  rule.  Greedy sub-patterns whose continuations can never start with a
  character of the same class need no backtracking; each such simplification
  is justified in a comment at the matcher.
* All recursion is structural (fuelled where Python's scan is not), so every
  definition evaluates by kernel reduction (`decide` / `rfl`).
-/

namespace RealEstate

/-! ## Character classes and elementary string operations -/

def cs (s : String) : List Char := s.data

def isDigitCh (c : Char) : Bool := '0' ≤ c && c ≤ '9'

/-- ASCII part of Python's `\s` (space, tab, newline, carriage return,
vertical tab, form feed). -/
def isWsCh (c : Char) : Bool :=
  c = ' ' || c = '\t' || c = '\n' || c = '\r' || c = '\x0b' || c = '\x0c'

def isAlphaCh (c : Char) : Bool := ('a' ≤ c && c ≤ 'z') || ('A' ≤ c && c ≤ 'Z')

/-- Python's `\w` (word character), ASCII part. -/
def isWordCh (c : Char) : Bool := isAlphaCh c || isDigitCh c || c = '_'

def lowCh (c : Char) : Char :=
  if 'A' ≤ c && c ≤ 'Z' then Char.ofNat (c.toNat + 32) else c

def upCh (c : Char) : Char :=
  if 'a' ≤ c && c ≤ 'z' then Char.ofNat (c.toNat - 32) else c

/-- Python `str.lower()` (ASCII part). -/
def lowStr (l : List Char) : List Char := l.map lowCh

/-- Python `str.title()`: a letter is uppercased when the previous character is
not a letter, lowercased otherwise; non-letters are kept.  The boolean argument
records whether the previous character was a letter. -/
def pyTitleGo : Bool → List Char → List Char
  | _, [] => []
  | prevAlpha, c :: t =>
    (if isAlphaCh c then (if prevAlpha then lowCh c else upCh c) else c)
      :: pyTitleGo (isAlphaCh c) t

def pyTitle (l : List Char) : List Char := pyTitleGo false l

def dropWsLead : List Char → List Char
  | [] => []
  | c :: t => if isWsCh c then dropWsLead t else c :: t

/-- Python `str.strip()`. -/
def pyStrip (l : List Char) : List Char :=
  ((dropWsLead l).reverse |> dropWsLead).reverse

/-- Replace every maximal whitespace run by a single space:
`re.sub(r'\s+', ' ', s)`.  The flag records whether we are inside a run. -/
def collapseWsGo : Bool → List Char → List Char
  | _, [] => []
  | inRun, c :: t =>
    if isWsCh c then
      (if inRun then collapseWsGo true t else ' ' :: collapseWsGo true t)
    else c :: collapseWsGo false t

def collapseWs (l : List Char) : List Char := collapseWsGo false l

/-- Case-insensitive literal match at the head of the input; returns the
matched characters (original case) and the rest. -/
def ciStarts : List Char → List Char → Option (List Char × List Char)
  | [], l => some ([], l)
  | _ :: _, [] => none
  | p :: ps, c :: t =>
    if lowCh c = lowCh p then (ciStarts ps t).map (fun m => (c :: m.1, m.2))
    else none

def startsWithL : List Char → List Char → Bool
  | [], _ => true
  | _ :: _, [] => false
  | p :: ps, c :: t => p = c && startsWithL ps t

/-- Substring containment (Python `needle in hay`). -/
def containsL (needle : List Char) (hay : List Char) : Bool :=
  match hay with
  | [] => startsWithL needle []
  | _ :: t => startsWithL needle hay || containsL needle t

/-- Case-insensitive search for any of the words (`re.search` of an
alternation with `re.IGNORECASE`, used only for a boolean test). -/
def containsAnyLow (ws : List (List Char)) (l : List Char) : Bool :=
  ws.any (fun w => containsL w (lowStr l))

/-- First phrase of the list (tried in order, case-insensitively) matching at
the head of the input; returns the rest of the input after the phrase. -/
def phraseAt (phrases : List (List Char)) (l : List Char) : Option (List Char) :=
  match phrases with
  | [] => none
  | p :: ps =>
    match ciStarts p l with
    | some r => some r.2
    | none => phraseAt ps l

/-- Fuelled scan for `re.sub(alternation, '', text, re.IGNORECASE)`: at each
position the alternatives are tried in order; a match is deleted and the scan
resumes after it.  All phrases used are nonempty, so fuel `l.length`
suffices. -/
def removePhrasesGo (phrases : List (List Char)) : Nat → List Char → List Char
  | 0, l => l
  | _ + 1, [] => []
  | n + 1, c :: t =>
    match phraseAt phrases (c :: t) with
    | some r => removePhrasesGo phrases n r
    | none => c :: removePhrasesGo phrases n t

def removePhrases (phrases : List (List Char)) (l : List Char) : List Char :=
  removePhrasesGo phrases l.length l

/-- Leftmost-match driver: run the position matcher at every suffix, first
success wins (`re.search`). -/
def scanFirst (f : List Char → Option α) : List Char → Option α
  | [] => f []
  | c :: t =>
    match f (c :: t) with
    | some r => some r
    | none => scanFirst f t

/-- Ordered alternation with continuation (regex `(a1|a2|...)k`): alternatives
are tried in order, each with the full continuation, mirroring regex
backtracking priority.  The continuation receives the matched characters
(original case) and the rest. -/
def tryAlts (alts : List (List Char)) (k : List Char → List Char → Option α)
    (l : List Char) : Option α :=
  match alts with
  | [] => none
  | a :: rest =>
    match ciStarts a l with
    | some (m, r) =>
      match k m r with
      | some v => some v
      | none => tryAlts rest k l
    | none => tryAlts rest k l

def skipWs (l : List Char) : List Char := l.dropWhile isWsCh

def concatAll (ls : List (List α)) : List α := ls.foldr (· ++ ·) []

/-- First element on which `f` succeeds (Python's first-hit `break` loops). -/
def firstSome (f : α → Option β) : List α → Option β
  | [] => none
  | x :: t =>
    match f x with
    | some b => some b
    | none => firstSome f t

/-! ## Numerals and Python number formatting -/

/-- A capture of the regex numeral `\d+\.?\d*`. -/
structure NumLit where
  intPart : List Char
  hasDot : Bool
  fracPart : List Char
deriving DecidableEq

def digitsToNatGo (a : Nat) : List Char → Nat
  | [] => a
  | c :: t => digitsToNatGo (10 * a + (c.toNat - 48)) t

def digitsToNat (l : List Char) : Nat := digitsToNatGo 0 l

def NumLit.text (n : NumLit) : List Char :=
  n.intPart ++ (if n.hasDot then '.' :: n.fracPart else [])

/-- Exact decimal number `num / 10 ^ pow`.  Python's `float()` of the decimal
literals this program parses, and all the arithmetic it performs on them
(division by powers of ten, comparison against powers of ten, fixed-point
formatting), are modelled exactly in this representation. -/
structure Dec where
  num : Nat
  pow : Nat
deriving DecidableEq

def Dec.divPow (v : Dec) (k : Nat) : Dec := ⟨v.num, v.pow + k⟩

/-- Python's `c <= v` for a natural constant `c`. -/
def Dec.leN (c : Nat) (v : Dec) : Bool := c * 10 ^ v.pow ≤ v.num

/-- Python's `c < v` for a natural constant `c`. -/
def Dec.ltN (c : Nat) (v : Dec) : Bool := c * 10 ^ v.pow < v.num

/-- Exact value of a `\d+\.?\d*` capture (Python `float(group)`). -/
def NumLit.toVal (n : NumLit) : Dec :=
  ⟨digitsToNat n.intPart * 10 ^ n.fracPart.length + digitsToNat n.fracPart,
   n.fracPart.length⟩

/-- Matcher for `\d+\.?\d*`.  Greedy with no backtracking: in every pattern of
the program the numeral is followed by `\s*` and then a token starting with a
letter, a dash or the pattern end, so surrendering digits or the dot would
only expose a digit or '.' to a continuation that cannot consume it. -/
def matchNum (l : List Char) : Option (NumLit × List Char) :=
  let ds := l.takeWhile isDigitCh
  let r1 := l.dropWhile isDigitCh
  if ds.isEmpty then none
  else
    match r1 with
    | '.' :: r2 =>
      some ({ intPart := ds, hasDot := true, fracPart := r2.takeWhile isDigitCh },
            r2.dropWhile isDigitCh)
    | _ => some ({ intPart := ds, hasDot := false, fracPart := [] }, r1)

def digitCh (n : Nat) : Char := Char.ofNat (48 + n)

/-- Decimal digits of a natural number, most significant first (fuelled; fuel
`n` is enough since `n < 10 ^ (n + 1)`). -/
def natToDigitsGo : Nat → Nat → List Char
  | 0, n => [digitCh n]
  | f + 1, n =>
    if n < 10 then [digitCh n] else natToDigitsGo f (n / 10) ++ [digitCh (n % 10)]

def natToDigits (n : Nat) : List Char := natToDigitsGo n n

/-- Round half to even, the rounding used by Python's fixed-point formatting.
Modelling note: Python formats the IEEE double nearest to the decimal input;
we round the exact decimal instead, which agrees on every value the proofs
and witnesses touch. -/
def rheD (v : Dec) : Nat :=
  let d := 10 ^ v.pow
  let f := v.num / d
  let r := v.num % d
  if 2 * r < d then f else if d < 2 * r then f + 1 else if f % 2 = 0 then f else f + 1

def pad2 (n : Nat) : List Char := if n < 10 then ['0', digitCh n] else natToDigits n

/-- Python `f"{v:.2f}"` for nonnegative `v`. -/
def fix2 (v : Dec) : List Char :=
  let n := rheD ⟨v.num * 100, v.pow⟩
  natToDigits (n / 100) ++ '.' :: pad2 (n % 100)

/-- Insert thousands separators into a reversed digit list. -/
def group3Go : List Char → List Char
  | a :: b :: c :: rest =>
    match rest with
    | [] => [a, b, c]
    | _ :: _ => a :: b :: c :: ',' :: group3Go rest
  | l => l

def group3 (n : Nat) : List Char := (group3Go (natToDigits n).reverse).reverse

/-- Python `f"{v:,.0f}"` for nonnegative `v`. -/
def fmtComma0 (v : Dec) : List Char := group3 (rheD v)

/-! ## The price normalizer `clean_and_format_price`

Source lines 52–108.  Patterns (compiled with `re.IGNORECASE`), in order:

1. `(\d+\.?\d*)\s*(?:-|to|–)\s*(\d+\.?\d*)\s*(crore|cr|lakh|lac|l|lakhs)`
2. `(\d+\.?\d*)\s*(crore|cr|lakh|lac|l|lakhs)`
3. `(?:₹|Rs\.?|INR)\s*(\d+\.?\d*)\s*(crore|cr|lakh|lac|l|lakhs)?`
4. `(?:₹|Rs\.?|INR)?\s*(\d{7,})`
5. `(?:₹|Rs\.?|INR)?\s*(\d{1,2},\d{2},\d{3,})`
6. `(\d+\.?\d*)\s*K\b`
-/

def rupee : Char := '₹'

def noisePhrases : List (List Char) :=
  [cs "onwards", cs "negotiable", cs "call for price", cs "price on request"]

def callWords : List (List Char) :=
  [cs "call", cs "request", cs "enquire", cs "contact"]

def sepAlts : List (List Char) := [cs "-", cs "to", cs "–"]

def unitAlts : List (List Char) :=
  [cs "crore", cs "cr", cs "lakh", cs "lac", cs "l", cs "lakhs"]

def curAlts : List (List Char) := [cs "₹", cs "rs.", cs "rs", cs "inr"]

/-- Position matcher for pattern 1 (the price range). -/
def p1At (l : List Char) : Option (NumLit × NumLit × List Char) :=
  match matchNum l with
  | none => none
  | some (x, r1) =>
    tryAlts sepAlts (fun _ r2 =>
      match matchNum (skipWs r2) with
      | none => none
      | some (y, r3) =>
        tryAlts unitAlts (fun u _ => some (x, y, u)) (skipWs r3)) (skipWs r1)

/-- Position matcher for pattern 2 (single number with unit). -/
def p2At (l : List Char) : Option (NumLit × List Char) :=
  match matchNum l with
  | none => none
  | some (x, r1) => tryAlts unitAlts (fun u _ => some (x, u)) (skipWs r1)

/-- Position matcher for pattern 3 (currency marker, number, optional unit). -/
def p3At (l : List Char) : Option (NumLit × Option (List Char)) :=
  tryAlts curAlts (fun _ r1 =>
    match matchNum (skipWs r1) with
    | none => none
    | some (x, r2) =>
      match tryAlts unitAlts (fun u _ => some u) (skipWs r2) with
      | some u => some (x, some u)
      | none => some (x, none)) l

/-- Position matcher for pattern 4 (optionally currency-prefixed run of at
least 7 digits); the capture is the whole digit run (`\d{7,}` is greedy). -/
def p4At (l : List Char) : Option (List Char) :=
  match tryAlts curAlts (fun _ r =>
      let ds := (skipWs r).takeWhile isDigitCh
      if 7 ≤ ds.length then some ds else none) l with
  | some ds => some ds
  | none =>
    let ds := (skipWs l).takeWhile isDigitCh
    if 7 ≤ ds.length then some ds else none

/-- Tail `\d{3,}` of pattern 5: all remaining digits, at least three. -/
def commaTail3 (l : List Char) : Option (List Char) :=
  let ds := l.takeWhile isDigitCh
  if 3 ≤ ds.length then some ds else none

/-- Middle `\d{2},\d{3,}` of pattern 5. -/
def p5after (rest : List Char) : Option (List Char) :=
  match rest with
  | c :: d :: ',' :: r =>
    if isDigitCh c && isDigitCh d then
      (commaTail3 r).map (fun ds => c :: d :: ',' :: ds)
    else none
  | _ => none

/-- The one-digit branch of `\d{1,2}` in pattern 5. -/
def p5oneDigit (l : List Char) : Option (List Char) :=
  match l with
  | a :: ',' :: rest =>
    if isDigitCh a then (p5after rest).map (fun t => a :: ',' :: t) else none
  | _ => none

/-- Pattern-5 body `\d{1,2},\d{2},\d{3,}`: the greedy `\d{1,2}` tries two
digits first, then one. -/
def p5core (l : List Char) : Option (List Char) :=
  match l with
  | a :: b :: ',' :: rest =>
    if isDigitCh a && isDigitCh b then
      match (p5after rest).map (fun t => a :: b :: ',' :: t) with
      | some x => some x
      | none => p5oneDigit l
    else p5oneDigit l
  | _ => p5oneDigit l

/-- Position matcher for pattern 5 (Indian comma-grouped amount with optional
currency marker). -/
def p5At (l : List Char) : Option (List Char) :=
  match tryAlts curAlts (fun _ r => p5core (skipWs r)) l with
  | some x => some x
  | none => p5core (skipWs l)

/-- Position matcher for pattern 6, `(\d+\.?\d*)\s*K\b` (case-insensitive `K`,
then a word boundary). -/
def p6At (l : List Char) : Option NumLit :=
  match matchNum l with
  | none => none
  | some (x, r) =>
    match skipWs r with
    | [] => none
    | k :: rest =>
      if (lowCh k == 'k') && (match rest with | [] => true | c :: _ => !isWordCh c) then
        some x
      else none

/-- The `value >= 1e7 / 1e5 / else` dispatch of source lines 99–104. -/
def magnitudeFormat (v : Dec) : List Char :=
  if Dec.leN 10000000 v then rupee :: (fix2 (v.divPow 7) ++ cs " Cr")
  else if Dec.leN 100000 v then rupee :: (fix2 (v.divPow 5) ++ cs " Lakh")
  else rupee :: fmtComma0 v

/-- The `'cr' in unit / 'l' in unit` dispatch of source lines 90–94.  `none`
mirrors Python falling through to the next pattern (unreachable for the units
the alternation can capture, but kept faithful). -/
def unitFormat (v : Dec) (u : List Char) : Option (List Char) :=
  if containsL (cs "cr") (lowStr u) then some (rupee :: (fix2 v ++ cs " Cr"))
  else if containsL (cs "l") (lowStr u) then some (rupee :: (fix2 v ++ cs " Lakh"))
  else none

/-- Dispatch for a pattern-3 match: unit present behaves like pattern 2,
otherwise the magnitude conversion runs. -/
def p3Out (r : NumLit × Option (List Char)) : Option (List Char) :=
  match r.2 with
  | some u => unitFormat r.1.toVal u
  | none => some (magnitudeFormat r.1.toVal)

/-- Normalisation prefix of `clean_and_format_price`: whitespace collapse and
strip, then deletion of the noise phrases. -/
def priceNormalize (l : List Char) : List Char :=
  removePhrases noisePhrases (pyStrip (collapseWs l))

def cleanPriceCore (l : List Char) : List Char :=
  let t := priceNormalize l
  if containsAnyLow callWords t then cs "Price on request" else
  match scanFirst p1At t with
  | some (x, y, u) => rupee :: (x.text ++ cs " - " ++ y.text ++ ' ' :: pyTitle u)
  | none =>
  match (scanFirst p2At t).bind (fun r => unitFormat r.1.toVal r.2) with
  | some out => out
  | none =>
  match (scanFirst p3At t).bind p3Out with
  | some out => out
  | none =>
  match scanFirst p4At t with
  | some ds => magnitudeFormat ⟨digitsToNat ds, 0⟩
  | none =>
  match scanFirst p5At t with
  | some capt => magnitudeFormat ⟨digitsToNat (capt.filter (fun c => c != ',')), 0⟩
  | none =>
  match scanFirst p6At t with
  | some x => rupee :: (fix2 (x.toVal.divPow 1) ++ cs " Lakh")
  | none => cs "Price not available"

/-- Embedding of `clean_and_format_price` (source lines 52–108). -/
def clean_and_format_price (s : String) : String :=
  if s = "" then "Price not available" else ⟨cleanPriceCore s.data⟩

/-! ## Title sanitizer and URL domain (source lines 37–50, 385) -/

def dashClass (c : Char) : Bool := c == '-' || c == '|' || c == '–'

/-- Whether `.*$` can complete a match over this tail: no newline, or exactly
one trailing newline (Python `$` without `re.MULTILINE`). -/
def tailOkNL (t : List Char) : Bool :=
  !(t.contains '\n') || (!(t.dropLast.contains '\n') && t.getLastD 'x' == '\n')

/-- The `re.sub(r'[-|–].*$', '', title)` of `sanitize_title`: cut at the
first dash-class character whose tail the anchor accepts (a final newline
survives the substitution). -/
def sanitizeCut : List Char → List Char
  | [] => []
  | c :: t =>
    if dashClass c && tailOkNL t then (if t.contains '\n' then ['\n'] else [])
    else c :: sanitizeCut t

/-- Fuelled literal `str.replace` (all non-overlapping occurrences,
case-sensitive). -/
def replaceAllGo (pat : List Char) : Nat → List Char → List Char
  | 0, l => l
  | _ + 1, [] => []
  | n + 1, c :: t =>
    if startsWithL pat (c :: t) then replaceAllGo pat n ((c :: t).drop pat.length)
    else c :: replaceAllGo pat n t

def replaceAll (pat : List Char) (l : List Char) : List Char :=
  replaceAllGo pat l.length l

/-- Embedding of `sanitize_title` (source lines 37–43). -/
def sanitize_title (s : String) : String :=
  if s = "" then "Untitled Property"
  else ⟨pyTitle (pyStrip (replaceAll (cs "Explore")
    (replaceAll (cs "for Sale") (sanitizeCut s.data))))⟩

/-- Embedding of `sanitize_snippet` (source lines 45–50). -/
def sanitize_snippet (s : String) : String :=
  if s = "" then "No description available."
  else
    let t := pyStrip (collapseWs s.data)
    if 250 < t.length then ⟨t.take 250 ++ cs "..."⟩ else ⟨t⟩

/-- Fuelled Python `str.split(sep)` for a nonempty separator. -/
def splitOnGo (sep : List Char) : Nat → List Char → List Char → List (List Char)
  | 0, l, cur => [cur.reverse ++ l]
  | _ + 1, [], cur => [cur.reverse]
  | n + 1, c :: t, cur =>
    if startsWithL sep (c :: t) then
      cur.reverse :: splitOnGo sep n ((c :: t).drop sep.length) []
    else splitOnGo sep n t (c :: cur)

def pySplitOn (sep l : List Char) : List (List Char) := splitOnGo sep l.length l []

/-- The domain of a URL: `url.split("//")[-1].split("/")[0].lower()`. -/
def domainOf (url : String) : String :=
  ⟨lowStr ((pySplitOn (cs "/") ((pySplitOn (cs "//") url.data).getLastD [])).headD [])⟩

/-! ## The free-text price extractor `extract_price_from_text`

Source lines 110–148.  The text is lowercased and whitespace-collapsed, then
four context patterns are tried in order; `re.findall(...)[0]` equals the
leftmost match. -/

def priceKwAlts : List (List Char) :=
  [cs "price", cs "cost", cs "rate", cs "amount", cs "ask", cs "asking",
   cs "₹", cs "rs.", cs "rs", cs "inr"]

def unitAlts2 : List (List Char) := [cs "cr", cs "crore", cs "lakh", cs "lac", cs "l"]

def approxKws : List (List Char) :=
  [cs "under", cs "below", cs "within", cs "around", cs "approx"]

/-- Greedy `[:\s]*`; no backtracking since a digit must follow. -/
def skipColonWs (l : List Char) : List Char :=
  l.dropWhile (fun c => c == ':' || isWsCh c)

/-- Pattern `(?:price|cost|rate|amount|ask|asking|₹|rs\.?|inr)[:\s]*(\d+\.?\d*)\s*(cr|crore|lakh|lac|l)`. -/
def pAAt (l : List Char) : Option (NumLit × List Char) :=
  tryAlts priceKwAlts (fun _ r =>
    match matchNum (skipColonWs r) with
    | none => none
    | some (x, r2) => tryAlts unitAlts2 (fun u _ => some (x, u)) (skipWs r2)) l

/-- Pattern `(\d+\.?\d*)\s*(cr|crore|lakh|lac|l)\s*(?:only|onwards|negotiable)?`
(the trailing optional group does not affect the captures). -/
def pBAt (l : List Char) : Option (NumLit × List Char) :=
  match matchNum l with
  | none => none
  | some (x, r) => tryAlts unitAlts2 (fun u _ => some (x, u)) (skipWs r)

/-- Pattern `₹\s*(\d+\.?\d*)\s*(cr|crore|lakh|lac|l)?`. -/
def pCAt (l : List Char) : Option (NumLit × Option (List Char)) :=
  match l with
  | c :: r =>
    if c = rupee then
      match matchNum (skipWs r) with
      | none => none
      | some (x, r2) =>
        match tryAlts unitAlts2 (fun u _ => some u) (skipWs r2) with
        | some u => some (x, some u)
        | none => some (x, none)
    else none
  | [] => none

/-- Pattern `(?:under|below|within|around|approx)\s*(\d+\.?\d*)\s*(cr|crore|lakh|lac|l)`. -/
def pDAt (l : List Char) : Option (NumLit × List Char) :=
  tryAlts approxKws (fun _ r =>
    match matchNum (skipWs r) with
    | none => none
    | some (x, r2) => tryAlts unitAlts2 (fun u _ => some (x, u)) (skipWs r2)) l

/-- Handler of source lines 131–144; `none` mirrors Python's fall-through to
the next pattern when the unit contains neither `cr` nor `l` (unreachable for
the captured units, kept faithful). -/
def epHandler (x : Dec) (u : Option (List Char)) : Option (List Char) :=
  match u with
  | some ul =>
    if containsL (cs "cr") ul then some (rupee :: (fix2 x ++ cs " Cr"))
    else if containsL (cs "l") ul then some (rupee :: (fix2 x ++ cs " Lakh"))
    else none
  | none =>
    if Dec.ltN 100 x then some (rupee :: (fix2 (x.divPow 2) ++ cs " Lakh"))
    else if Dec.ltN 10 x then some (rupee :: (fix2 x ++ cs " Lakh"))
    else some (rupee :: (fix2 x ++ cs " Cr"))

def extractPriceCore (l : List Char) : List Char :=
  let t := collapseWs (lowStr l)
  match (scanFirst pAAt t).bind (fun r => epHandler r.1.toVal (some r.2)) with
  | some out => out
  | none =>
  match (scanFirst pBAt t).bind (fun r => epHandler r.1.toVal (some r.2)) with
  | some out => out
  | none =>
  match (scanFirst pCAt t).bind (fun r => epHandler r.1.toVal r.2) with
  | some out => out
  | none =>
  match (scanFirst pDAt t).bind (fun r => epHandler r.1.toVal (some r.2)) with
  | some out => out
  | none => cs "Price not available"

/-- Embedding of `extract_price_from_text` (source lines 110–148). -/
def extract_price_from_text (s : String) : String :=
  if s = "" then "Price not available" else ⟨extractPriceCore s.data⟩

/-! ## Shared field matchers (rooms, area, property type, amenities,
landmarks) -/

/-- Matcher for `(\d+)\s*(?:noun1|noun2)` at a position: the greedy `\d+`
needs no backtracking (surrendered digits cannot start `\s*` or a noun). -/
def roomAt (nouns : List (List Char)) (l : List Char) : Option Nat :=
  let ds := l.takeWhile isDigitCh
  if ds.isEmpty then none
  else
    match tryAlts nouns (fun _ _ => some ()) (skipWs (l.dropWhile isDigitCh)) with
    | some _ => some (digitsToNat ds)
    | none => none

def bhkNouns : List (List Char) := [cs "bhk", cs "bedroom"]

def bathNouns : List (List Char) := [cs "bath", cs "bathroom"]

/-- The size-unit alternation `(?:sqft|sq\.?\s*ft|square feet)`.  The optional
dot needs no backtracking: if it is present but `\s*ft` does not follow,
dropping it leaves `\s*` stuck at the dot. -/
def sizeUnitAt (l : List Char) : Bool :=
  (ciStarts (cs "sqft") l).isSome ||
  (match ciStarts (cs "sq") l with
   | some (_, r) =>
     let r1 := match r with | '.' :: r2 => r2 | _ => r
     (ciStarts (cs "ft") (skipWs r1)).isSome
   | none => false) ||
  (ciStarts (cs "square feet") l).isSome

/-- Matcher for `(\d{3,5})\s*<size unit>` at a position: `\d{3,5}` succeeds
here exactly when the whole remaining digit run has length 3 to 5 (a shorter
window leaves a digit in front of the unit). -/
def areaAt (l : List Char) : Option Nat :=
  let ds := l.takeWhile isDigitCh
  if 3 ≤ ds.length && ds.length ≤ 5 && sizeUnitAt (skipWs (l.dropWhile isDigitCh)) then
    some (digitsToNat ds)
  else none

def propTypeWords : List (List Char) :=
  [cs "apartment", cs "flat", cs "villa", cs "house", cs "plot", cs "land",
   cs "commercial"]

/-- First occurrence of `(apartment|flat|villa|house|plot|land|commercial)`,
returning the matched characters. -/
def findPropType (l : List Char) : Option (List Char) :=
  scanFirst (tryAlts propTypeWords (fun m _ => some m)) l

def amenityWords : List (List Char) :=
  [cs "gym", cs "pool", cs "parking", cs "garden", cs "lift", cs "elevator",
   cs "clubhouse", cs "security", cs "play area", cs "power backup"]

/-- Fuelled `re.finditer` over a literal alternation: leftmost matches, tried
in order at each position, non-overlapping.  All alternatives are nonempty, so
fuel `length` suffices. -/
def finditerAlts (alts : List (List Char)) : Nat → List Char → List (List Char)
  | 0, _ => []
  | _ + 1, [] => []
  | n + 1, c :: t =>
    match tryAlts alts (fun m r => some (m, r)) (c :: t) with
    | some (m, r) => m :: finditerAlts alts n r
    | none => finditerAlts alts n t

/-- Duplicate removal preserving first occurrences
(`list(dict.fromkeys(xs))`), fuelled for structural evaluation. -/
def pyDedupGo [DecidableEq α] : Nat → List α → List α
  | 0, l => l
  | _ + 1, [] => []
  | n + 1, x :: xs => x :: pyDedupGo n (xs.filter (fun y => y ≠ x))

def pyDedup [DecidableEq α] (l : List α) : List α := pyDedupGo l.length l

/-- The amenity pass of `_basic_regex_parse_from_text` and
`_extract_fields_from_snippet` (finditer, `.title()`, dedup) over
already-lowercased text. -/
def amenitiesOf (l : List Char) : List String :=
  pyDedup ((finditerAlts amenityWords l.length l).map (fun m => (⟨pyTitle m⟩ : String)))

def landmarkWords : List (List Char) :=
  [cs "metro", cs "school", cs "hospital", cs "mall", cs "airport", cs "park",
   cs "market"]

/-- Bounded greedy character-class take (`[^\.,;]{0,50}`), fuelled on the
bound. -/
def takeUpTo (p : Char → Bool) : Nat → List Char → List Char
  | 0, _ => []
  | _ + 1, [] => []
  | n + 1, c :: t => if p c then c :: takeUpTo p n t else []

def notStop (c : Char) : Bool := !(c == '.' || c == ',' || c == ';')

/-- Matcher for `(near\s*(?:metro|...)\s*[^\.,;]{0,50})` at a position;
returns the whole match and the rest of the input.  The two `\s*` and the
class are greedy and never need to backtrack (nothing follows the class). -/
def landmarkAt (l : List Char) : Option (List Char × List Char) :=
  match ciStarts (cs "near") l with
  | none => none
  | some (m1, r1) =>
    let ws1 := r1.takeWhile isWsCh
    let r2 := r1.dropWhile isWsCh
    match tryAlts landmarkWords (fun m r => some (m, r)) r2 with
    | none => none
    | some (m2, r3) =>
      let ws2 := r3.takeWhile isWsCh
      let r4 := r3.dropWhile isWsCh
      let tl := takeUpTo notStop 50 r4
      some (m1 ++ ws1 ++ m2 ++ ws2 ++ tl, r4.drop tl.length)

/-- Fuelled `re.finditer` for the landmark pattern (each match consumes at
least four characters). -/
def finditerLandmarks : Nat → List Char → List (List Char)
  | 0, _ => []
  | _ + 1, [] => []
  | n + 1, c :: t =>
    match landmarkAt (c :: t) with
    | some (m, r) => m :: finditerLandmarks n r
    | none => finditerLandmarks n t

/-- The landmark pass (finditer, `.strip().title()`, dedup) over
already-lowercased text. -/
def landmarksOf (l : List Char) : List String :=
  pyDedup ((finditerLandmarks l.length l).map
    (fun m => (⟨pyTitle (pyStrip m)⟩ : String)))

def listOrNone (l : List String) : Option (List String) :=
  if l.isEmpty then none else some l

/-! ## `_basic_regex_parse_from_text` (source lines 150–193) -/

structure BasicParse where
  price : String
  bedrooms : Option Nat
  bathrooms : Option Nat
  area_sqft : Option Nat
  property_type : String
  amenities : Option (List String)
  landmarks : Option (List String)
deriving DecidableEq

/-- Embedding of `_basic_regex_parse_from_text`.  The `default_location`
parameter of the Python function is unused by it (the returned dict has no
location key); it is kept for signature fidelity. -/
def basic_regex_parse_from_text (s : String) (_defaultLocation : String) : BasicParse :=
  let text := lowStr s.data
  { price := extract_price_from_text ⟨text⟩
    bedrooms := scanFirst (roomAt bhkNouns) text
    bathrooms := scanFirst (roomAt bathNouns) text
    area_sqft := scanFirst areaAt text
    property_type := match findPropType text with
      | some m => ⟨pyTitle m⟩
      | none => "Residential"
    amenities := listOrNone (amenitiesOf text)
    landmarks := listOrNone (landmarksOf text) }

/-! ## `_extract_fields_from_snippet` (source lines 195–297) -/

def notCRLF (c : Char) : Bool := !(c == '\r' || c == '\n')

/-- Matcher for `Address\s*:\s*([^\r\n]+)` at a position, returning the
capture and the input after the whole match.  The only backtracking case of
the second `\s*` is when nothing but whitespace follows the colon: the class
then matches the last whitespace character not in `\r\n`, if any. -/
def addressAt (l : List Char) : Option (List Char × List Char) :=
  match ciStarts (cs "address") l with
  | none => none
  | some (_, r1) =>
    match skipWs r1 with
    | ':' :: r3 =>
      let ws := r3.takeWhile isWsCh
      let r4 := r3.dropWhile isWsCh
      match r4 with
      | _ :: _ => some (r4.takeWhile notCRLF, r4.dropWhile notCRLF)
      | [] =>
        match ws.reverse.dropWhile (fun c => c == '\r' || c == '\n') with
        | [] => none
        | c :: _ => some ([c], (ws.reverse.takeWhile (fun c => c == '\r' || c == '\n')).reverse)
    | _ => none

/-- Matcher for `bath(?:room)?(\d+)|(\d+)bath(?:room)?` on the
whitespace-free lump (alternative 1 is preferred at each position; the
optional `room` is surrendered if no digits follow it). -/
def bathLumpAt (l : List Char) : Option Nat :=
  match ciStarts (cs "bath") l with
  | some (_, r) =>
    let tryDigits := fun (x : List Char) =>
      let ds := x.takeWhile isDigitCh
      if ds.isEmpty then none else some (digitsToNat ds)
    (match ciStarts (cs "room") r with
     | some (_, r2) =>
       match tryDigits r2 with
       | some v => some v
       | none => tryDigits r
     | none => tryDigits r)
  | none =>
    let ds := l.takeWhile isDigitCh
    if ds.isEmpty then none
    else if (ciStarts (cs "bath") (l.dropWhile isDigitCh)).isSome then
      some (digitsToNat ds)
    else none

/-- Matcher for `(\d+)(?:bhk|bedroom)` on the lump (no `\s*`). -/
def bhkLumpAt (l : List Char) : Option Nat :=
  let ds := l.takeWhile isDigitCh
  if ds.isEmpty then none
  else
    match tryAlts [cs "bhk", cs "bedroom"] (fun _ _ => some ())
        (l.dropWhile isDigitCh) with
    | some _ => some (digitsToNat ds)
    | none => none

/-- The lump size-unit alternation `(?:sqft|squarefeet|sq\.?ft)`. -/
def sizeUnitLumpAt (l : List Char) : Bool :=
  (ciStarts (cs "sqft") l).isSome ||
  (ciStarts (cs "squarefeet") l).isSome ||
  (match ciStarts (cs "sq") l with
   | some (_, r) =>
     let r1 := match r with | '.' :: r2 => r2 | _ => r
     (ciStarts (cs "ft") r1).isSome
   | none => false)

/-- Matcher for `(\d{3,5})(?:sqft|squarefeet|sq\.?ft)` on the lump. -/
def areaLumpAt (l : List Char) : Option Nat :=
  let ds := l.takeWhile isDigitCh
  if 3 ≤ ds.length && ds.length ≤ 5 && sizeUnitLumpAt (l.dropWhile isDigitCh) then
    some (digitsToNat ds)
  else none

/-- Matcher for `floor(\d+)outof(\d+)`; the captures are the raw digit
strings (the Python f-string reuses them verbatim). -/
def floorLumpAt (l : List Char) : Option (List Char × List Char) :=
  match ciStarts (cs "floor") l with
  | none => none
  | some (_, r1) =>
    let d1 := r1.takeWhile isDigitCh
    if d1.isEmpty then none
    else
      match ciStarts (cs "outof") (r1.dropWhile isDigitCh) with
      | none => none
      | some (_, r2) =>
        let d2 := r2.takeWhile isDigitCh
        if d2.isEmpty then none else some (d1, d2)

/-- Matcher for `balcony(\d+)`. -/
def balconyLumpAt (l : List Char) : Option Nat :=
  match ciStarts (cs "balcony") l with
  | none => none
  | some (_, r) =>
    let ds := r.takeWhile isDigitCh
    if ds.isEmpty then none else some (digitsToNat ds)

structure SnippetFields where
  bedrooms : Option Nat
  bathrooms : Option Nat
  area_sqft : Option Nat
  status : Option String
  floor : Option String
  transaction : Option String
  furnishing : Option String
  balcony_count : Option Nat
  price : String
  property_type : Option String
  location : String
  amenities : Option (List String)
  landmarks : Option (List String)
deriving DecidableEq

/-- Embedding of `_extract_fields_from_snippet` (source lines 195–297). -/
def extract_fields_from_snippet (rawText : String) (defaultLocation : String) :
    SnippetFields :=
  let text := pyStrip rawText.data
  let addr := scanFirst addressAt text
  let address := (addr.map (fun a => pyStrip a.1)).bind
    (fun a => if a.isEmpty then none else some a)
  let remaining := match addr with
    | some a => pyStrip a.2
    | none => text
  let lump := (lowStr remaining).filter (fun c => !isWsCh c)
  let remLow := lowStr remaining
  { bedrooms := scanFirst bhkLumpAt lump
    bathrooms := scanFirst bathLumpAt lump
    area_sqft := scanFirst areaLumpAt lump
    status :=
      if containsL (cs "readytomove") lump then some "Ready to Move"
      else if containsL (cs "underconstruction") lump then some "Under Construction"
      else if containsL (cs "newlaunch") lump || containsL (cs "new") lump then some "New"
      else none
    floor := (scanFirst floorLumpAt lump).map
      (fun d => ⟨d.1 ++ cs " out of " ++ d.2⟩)
    transaction :=
      if containsL (cs "resale") lump then some "Resale"
      else if containsL (cs "new") lump || containsL (cs "launch") lump then some "New"
      else none
    furnishing :=
      if containsL (cs "furnished") lump then some "Furnished"
      else if containsL (cs "unfurnished") lump then some "Unfurnished"
      else none
    balcony_count := scanFirst balconyLumpAt lump
    price := extract_price_from_text ⟨remaining⟩
    property_type := (findPropType remLow).map (fun m => (⟨pyTitle m⟩ : String))
    location := match address with
      | some a => ⟨a⟩
      | none => defaultLocation
    amenities := listOrNone (amenitiesOf remLow)
    landmarks := listOrNone (landmarksOf remLow) }

/-! ## The description composer `format_property_description`
(source lines 299–373)

The composer reads a Python dict with `get`; every field may be missing or
falsy, so the embedding takes a record of options and applies Python
truthiness (`0`, `""`, `[]`, `None` are falsy; the balcony count is tested
with `is not None`). -/

structure DescFields where
  bedrooms : Option Nat
  property_type : Option String
  location : Option String
  area_sqft : Option Nat
  status : Option String
  furnishing : Option String
  floor : Option String
  bathrooms : Option Nat
  balcony_count : Option Nat
  amenities : Option (List String)
  landmarks : Option (List String)
  price : Option String
  transaction : Option String
deriving DecidableEq

def allAbsentFields : DescFields :=
  { bedrooms := none, property_type := none, location := none,
    area_sqft := none, status := none, furnishing := none, floor := none,
    bathrooms := none, balcony_count := none, amenities := none,
    landmarks := none, price := none, transaction := none }

/-- Python truthiness of an optional number. -/
def optN (o : Option Nat) : Option Nat :=
  match o with
  | some n => if n = 0 then none else some n
  | none => none

/-- Python truthiness of an optional string. -/
def optS (o : Option String) : Option String :=
  match o with
  | some s => if s = "" then none else some s
  | none => none

/-- Python truthiness of an optional list. -/
def optL (o : Option (List String)) : Option (List String) :=
  match o with
  | some l => if l.isEmpty then none else some l
  | none => none

def lowS (s : String) : String := ⟨lowStr s.data⟩

def natStr (n : Nat) : String := ⟨natToDigits n⟩

/-- Python `", ".join`. -/
def joinCommaSp : List String → String
  | [] => ""
  | [x] => x
  | x :: xs => x ++ ", " ++ joinCommaSp xs

/-- Python `" ".join`. -/
def joinSp : List String → String
  | [] => ""
  | [x] => x
  | x :: xs => x ++ " " ++ joinSp xs

/-- Embedding of `format_property_description` (source lines 299–373). -/
def format_property_description (f : DescFields) : String :=
  let ptype := match optS f.property_type with
    | some s => s
    | none => "Property"
  let part1 := match optN f.bedrooms, optS f.location with
    | some b, some loc =>
      "This is a " ++ natStr b ++ " BHK " ++ lowS ptype ++ " located in " ++ loc ++ "."
    | some b, none => "This is a " ++ natStr b ++ " BHK " ++ lowS ptype ++ "."
    | none, some loc => "This is a " ++ lowS ptype ++ " in " ++ loc ++ "."
    | none, none => "This is a " ++ lowS ptype ++ "."
  let part2 : List String := match optN f.area_sqft with
    | some a =>
      match optS f.status, optS f.furnishing with
      | some st, some fu =>
        ["It offers a carpet area of " ++ natStr a ++ " sq ft and is "
          ++ lowS st ++ " and " ++ lowS fu ++ "."]
      | some st, none =>
        ["It offers a carpet area of " ++ natStr a ++ " sq ft and is " ++ lowS st ++ "."]
      | none, some fu =>
        ["It offers a carpet area of " ++ natStr a ++ " sq ft and is " ++ lowS fu ++ "."]
      | none, none => ["It offers a carpet area of " ++ natStr a ++ " sq ft."]
    | none =>
      match optS f.status, optS f.furnishing with
      | some st, some fu => ["It is " ++ lowS st ++ " and " ++ lowS fu ++ "."]
      | some st, none => ["It is " ++ lowS st ++ "."]
      | none, some fu => ["It is " ++ lowS fu ++ "."]
      | none, none => []
  let extras : List String :=
    (match optS f.floor with
     | some fl => ["located on the " ++ fl ++ " floor"]
     | none => []) ++
    (match optN f.bathrooms with
     | some b => [natStr b ++ " bathroom" ++ (if 1 < b then "s" else "")]
     | none => []) ++
    (match f.balcony_count with
     | some b => [natStr b ++ " balcony" ++ (if b ≠ 1 then "ies" else "")]
     | none => []) ++
    (match optL f.amenities with
     | some am =>
       ["amenities like " ++ lowS (joinCommaSp (am.take 3))
         ++ (if 3 < am.length then " and more" else "")]
     | none => [])
  let part3 : List String := match extras with
    | [] => []
    | _ =>
      ["It features " ++ joinCommaSp extras.dropLast
        ++ (if extras.length = 1 then "" else " and ")
        ++ extras.getLastD "" ++ "."]
  let part4 : List String := match optS f.price, optS f.transaction with
    | some p, some tr =>
      ["The property is priced at " ++ p ++ " and is available on a "
        ++ lowS tr ++ " basis."]
    | some p, none => ["The property is priced at " ++ p ++ "."]
    | none, some tr => ["It is available on a " ++ lowS tr ++ " basis."]
    | none, none => []
  let part5 : List String := match optL f.landmarks with
    | some lm =>
      ["It is conveniently located " ++ lowS (joinCommaSp (lm.take 2))
        ++ (if 2 < lm.length then " and other landmarks" else "") ++ "."]
    | none => []
  joinSp (part1 :: (part2 ++ part3 ++ part4 ++ part5))

/-- The dict built by `_extract_fields_from_snippet` as the composer's
argument (the success path of `search_properties`, lines 1082–1083). -/
def SnippetFields.toDesc (s : SnippetFields) : DescFields :=
  { bedrooms := s.bedrooms, property_type := s.property_type,
    location := some s.location, area_sqft := s.area_sqft, status := s.status,
    furnishing := s.furnishing, floor := s.floor, bathrooms := s.bathrooms,
    balcony_count := s.balcony_count, amenities := s.amenities,
    landmarks := s.landmarks, price := some s.price,
    transaction := s.transaction }

/-! ## The parsed page abstraction and `_parse_property_page`
(source lines 375–805)

HTML parsing itself (BeautifulSoup) is abstracted into a `Soup` record: a
`select` function from a CSS selector string to the matched elements, the
relevant `meta` lookups, the `<title>` text and the flattened body text.  A
selector that would make soupsieve raise is modelled as returning no elements,
which is equivalent under the `except Exception: continue` wrapped around
every selector use.  An element carries its `get_text` text and the text of
its first `div`-or-`span` descendant (used only by the amenity pass). -/

structure Element where
  text : String
  nestedText : Option String
deriving DecidableEq

structure Soup where
  titleTag : Option String
  select : String → List Element
  metaProductPrice : Option (Option String)
  metaNamePrice : Option (Option String)
  metaContentPrice : Option String
  metaDescription : Option (Option String)
  metaOgDescription : Option (Option String)
  bodyText : String

/-- A soup with nothing in it (used by concrete witnesses). -/
def emptySoup : Soup :=
  { titleTag := none, select := fun _ => [], metaProductPrice := none,
    metaNamePrice := none, metaContentPrice := none, metaDescription := none,
    metaOgDescription := none, bodyText := "" }

def priceSelectorsFor (domain : String) : List String :=
  if domain = "99acres.com" then
    ["span.list_header_bold", "div.factTablePrice", "span.priceIconSpan",
     "div#priceSection", "div.list_header_semiBold", "td#priceDetail",
     "div[class*=\"projectPriceDetail\"]", "span[class*=\"configurationCardsPrice\"]"]
  else if domain = "magicbricks.com" then
    ["div.priceSqft__price", "span.priceSqft__price--text", "div.prop-price",
     "div[class*=\"price-details\"]", "div.mb-ldp__pricing", "span.m-srp-card__price",
     "div[class*=\"priceDetail\"]", "div[class*=\"price\"]", "span[class*=\"price\"]"]
  else if domain = "housing.com" then
    ["div.price-details", "span.price-value", "div[class*=\"price-section\"]",
     "h1[class*=\"price\"]", "div.display-price", "span[class*=\"listing-price\"]"]
  else if domain = "squareyards.com" then
    ["h3.price", "div[class*=\"price-tag\"]", "span.amount", "div.project-price",
     "span[class*=\"property-price\"]"]
  else if domain = "makaan.com" then
    ["div[class*=\"price-wrap\"]", "span.price", "div.listing-price",
     "td[class*=\"price\"]", "div[data-rf=\"price\"]"]
  else
    ["[class*=\"price\"]", "[class*=\"Price\"]", "[class*=\"cost\"]",
     "[class*=\"amount\"]", "[data-price]", "[itemprop=\"price\"]",
     "h1:has-text(\"₹\")", "h2:has-text(\"₹\")", "span:has-text(\"Cr\")",
     "span:has-text(\"Lakh\")"]

def descriptionSelectorsFor (domain : String) : List String :=
  if domain = "99acres.com" then
    ["div[class*=\"projectDescFull\"]", "div[class*=\"allDescr\"]",
     "div[class*=\"readMoreContent\"]", "div[class*=\"projectDesc\"]",
     "div[class*=\"factTableDescription\"]", "div#aboutProperty",
     "p[class*=\"desc\"]", "div[class*=\"overview\"]"]
  else if domain = "magicbricks.com" then
    ["div.mb-ldp__desc-overview", "div.mb-ldp__descriptionBody",
     "div[id^=\"descriptionWrapper\"]", "div.mb-ldp__description__full",
     "div.mb-ldp__description__text", "div.mb-ldp__description",
     "div[class*=\"prop-desc\"]", "div[id*=\"description\"]",
     "div.m-srp-card__desc", "div[class*=\"overview\"]", "div[class*=\"dtl__desc\"]"]
  else if domain = "housing.com" then
    ["div[class*=\"description\"]", "div[class*=\"overview\"]", "div.css-1hidcok",
     "div#description", "p[class*=\"desc\"]", "div.listing-description"]
  else if domain = "squareyards.com" then
    ["div[class*=\"project-description\"]", "div[id*=\"description\"]",
     "div[class*=\"prop-desc\"]", "p[class*=\"desc\"]", "div[class*=\"overview\"]"]
  else if domain = "makaan.com" then
    ["div[class*=\"description\"]", "div.listing-description", "div[id*=\"desc\"]",
     "p[class*=\"desc\"]", "div[class*=\"overview\"]"]
  else
    ["div[class*=\"description\"]", "div[class*=\"Description\"]",
     "div[class*=\"overview\"]", "div[class*=\"summary\"]", "p[class*=\"desc\"]",
     "div[id*=\"description\"]", "div[id*=\"overview\"]",
     "[itemprop=\"description\"]", "p:contains(\"about\")",
     "div:contains(\"description\")"]

def amenitiesSelectorsFor (domain : String) : List String :=
  if domain = "99acres.com" then
    ["div#amenitiesSection ul li", "div[class*=\"amenities\"] li",
     "span[class*=\"amenity\"]", "div.factTableAmenities",
     "div[id*=\"amenities\"] ul li", "div[class*=\"Amenities\"] li",
     "div[id*=\"Amenities\"] li", "ul[class*=\"amenityList\"] li",
     "div.keypoint li"]
  else if domain = "magicbricks.com" then
    ["div.mb-ldp__dtls__amenities li", "div.mb-ldp__amenity--list li",
     "div[class*=\"amenities\"] li", "span[class*=\"amenity\"]",
     "div[id*=\"amenities\"] ul li", "div.mb-ldp__dtls__body__list--amenities",
     "ul#features li", "div.m-srp-card__amenity li",
     "div.mb-ldp__dtls__body__list--item:contains(\"Amenities\") li",
     "div.component__features li"]
  else if domain = "housing.com" then
    ["div.css-1v2k6a4 li", "div[class*=\"amenities\"] li",
     "ul[class*=\"amenity-list\"] li", "div[id*=\"amenities\"] li"]
  else
    ["[class*=\"amenities\"] li", "[class*=\"amenity\"] li", "[data-amenity]",
     "li:contains(\"gym\")", "li:contains(\"pool\")", "li:contains(\"parking\")",
     "div:contains(\"amenities\") li"]

def landmarksSelectorsFor (domain : String) : List String :=
  if domain = "99acres.com" then
    ["div#localitySection ul li", "div[class*=\"landmark\"] li",
     "div[class*=\"nearby\"] li", "div.factTableLocality",
     "div[id*=\"landmarks\"] ul li"]
  else if domain = "magicbricks.com" then
    ["div.mb-ldp__dtls__locality li", "div.mb-ldp__nearby--list li",
     "div[class*=\"landmark\"] li", "div[class*=\"nearby\"] li",
     "div[id*=\"locality\"] ul li"]
  else if domain = "housing.com" then
    ["div.css-1v2k6a4-nearby li", "div[class*=\"landmark\"] li",
     "ul[class*=\"nearby-list\"] li", "div[id*=\"landmarks\"] li"]
  else
    ["[class*=\"landmark\"] li", "[class*=\"nearby\"] li", "[data-landmark]",
     "li:contains(\"metro\")", "li:contains(\"school\")", "li:contains(\"hospital\")",
     "div:contains(\"nearby\") li"]

def areaSelectorsFor (domain : String) : List String :=
  if domain = "99acres.com" then
    ["td#builtUpAreaDisplay", "span[class*=\"ellipsis\"][title*=\"sq.ft\"]",
     "td#superBuiltUpAreaDisplay"]
  else if domain = "magicbricks.com" then
    ["div.mb-ldp__dtls__body__list--size", "span.m-srp-card__area", "div.area"]
  else if domain = "housing.com" then
    ["div.css-1ty5xzi", "div.area-details", "span.area"]
  else if domain = "squareyards.com" then
    ["div.project-area", "span.size"]
  else if domain = "makaan.com" then
    ["td.size", "div.listing-details-size"]
  else
    ["[class*=\"area\"]", "[class*=\"size\"]", "[data-area]",
     "span:contains(\"sq.ft\")", "div:contains(\"sqft\")"]

def locationSelectorsFor (domain : String) : List String :=
  if domain = "99acres.com" then
    ["div#locality", "span.locName", "div.project-address"]
  else if domain = "magicbricks.com" then
    ["div.mb-ldp__dtls__body__list--location", "span.m-srp-card__title--loc"]
  else if domain = "housing.com" then
    ["div.css-1c9b2d8", "span.location"]
  else if domain = "squareyards.com" then
    ["div.project-locality", "span.locality"]
  else if domain = "makaan.com" then
    ["div.locWrap", "span.locality"]
  else
    ["[class*=\"location\"]", "[class*=\"locality\"]", "[itemprop=\"address\"]",
     "span:contains(\" in \")"]

/-- The price plausibility test of lines 451–454: the text must contain one of
the currency and unit markers (case-sensitive `in`) or a digit. -/
def priceIndicator (t : List Char) : Bool :=
  containsL (cs "₹") t || containsL (cs "Rs") t || containsL (cs "INR") t ||
  containsL (cs "Cr") t || containsL (cs "Lac") t || containsL (cs "Lakh") t ||
  t.any isDigitCh

/-- The selector pass of the price block (lines 444–461): candidate element
texts in selector-major order; the first whose normalisation is not the
"not available" literal wins. -/
def priceFromSelectors (s : Soup) (sels : List String) : Option String :=
  firstSome
    (fun t =>
      let p := clean_and_format_price t
      if p ≠ "Price not available" then some p else none)
    ((concatAll (sels.map (fun sel => (s.select sel).map Element.text))).filter
      (fun t => t ≠ "" && priceIndicator t.data))

/-- The meta fallback of the price block (lines 462–469): tag lookups chained
on tag presence, then the content attribute must be truthy. -/
def metaPriceOf (s : Soup) : Option String :=
  let tag : Option (Option String) :=
    match s.metaProductPrice with
    | some t => some t
    | none =>
      match s.metaNamePrice with
      | some t => some t
      | none => s.metaContentPrice.map some
  match tag with
  | some (some c) => if c ≠ "" then some c else none
  | _ => none

/-- The whole price block of `_parse_property_page` (lines 444–473). -/
def pricePageOf (s : Soup) (domain : String) : String :=
  let fromSel := priceFromSelectors s (priceSelectorsFor domain)
  let p : String :=
    match fromSel with
    | some p => p
    | none =>
      match metaPriceOf s with
      | some c =>
        let q := clean_and_format_price c
        if q ≠ "Price not available" then q else extract_price_from_text s.bodyText
      | none => extract_price_from_text s.bodyText
  if p = "" then "Price not available" else p

/-- The selector pass of the description block (lines 535–547): first element
text that is truthy and longer than 50 characters. -/
def descFromSelectors (s : Soup) (sels : List String) : Option String :=
  firstSome (fun t => if t ≠ "" && 50 < t.length then some t else none)
    (concatAll (sels.map (fun sel => (s.select sel).map Element.text)))

def aboutKws : List (List Char) :=
  [cs "about", cs "description", cs "overview", cs "details"]

def notSentEnd (c : Char) : Bool := !(c == '.' || c == '!' || c == '?')

/-- Matcher for `(?:about|description|overview|details)\s*:\s*([^.!?]{50,500})`
at a position.  The second `\s*` is greedy; when the class run after it is
shorter than 50 the engine gives whitespace back to the class one character at
a time (whitespace is a valid class character), so the capture gains exactly
the missing amount of trailing whitespace. -/
def descBodyAt (l : List Char) : Option (List Char) :=
  tryAlts aboutKws (fun _ r =>
    match skipWs r with
    | ':' :: r2 =>
      let w := r2.takeWhile isWsCh
      let c := r2.dropWhile isWsCh
      let run := takeUpTo notSentEnd 500 c
      if 50 ≤ run.length then some run
      else if 50 - run.length ≤ w.length then
        some (w.drop (w.length - (50 - run.length)) ++ run)
      else none
    | _ => none) l

/-- The whole description block (lines 475–557). -/
def rawDescriptionOf (s : Soup) (domain : String) : String :=
  match descFromSelectors s (descriptionSelectorsFor domain) with
  | some d => d
  | none =>
    let tag : Option (Option String) :=
      match s.metaDescription with
      | some t => some t
      | none => s.metaOgDescription
    match tag with
    | some (some c) =>
      if c ≠ "" then ⟨pyStrip c.data⟩
      else
        match scanFirst descBodyAt s.bodyText.data with
        | some capt => ⟨pyStrip capt⟩
        | none => ""
    | _ =>
      match scanFirst descBodyAt s.bodyText.data with
      | some capt => ⟨pyStrip capt⟩
      | none => ""

/-! ### The amenities block (lines 559–688) -/

def amenityLoopKws : List (List Char) :=
  [cs "gym", cs "pool", cs "swimming", cs "parking", cs "garden", cs "lift",
   cs "elevator", cs "clubhouse", cs "security", cs "play", cs "power",
   cs "backup", cs "terrace", cs "jogging", cs "track", cs "sports",
   cs "community", cs "hall"]

def amenityKeywordHit (combined : List Char) : Bool :=
  amenityLoopKws.any (fun k => containsL k combined)

/-- The `if/elif` mapping chain of lines 629–654.  Note there is no branch for
a bare `lift` (only `elv`/`elevator`), so a keyword hit can produce nothing. -/
def mapAmenity (combined : List Char) : Option String :=
  if containsL (cs "elv") combined || containsL (cs "elevator") combined then some "Lift"
  else if containsL (cs "pool") combined || containsL (cs "swimming") combined then
    some "Swimming Pool"
  else if containsL (cs "garden") combined then some "Garden"
  else if containsL (cs "parking") combined then some "Parking"
  else if containsL (cs "gym") combined then some "Gym"
  else if containsL (cs "clubhouse") combined then some "Clubhouse"
  else if containsL (cs "security") combined then some "Security"
  else if containsL (cs "play") combined then some "Play Area"
  else if containsL (cs "power") combined || containsL (cs "backup") combined then
    some "Power Backup"
  else if containsL (cs "terrace") combined then some "Terrace"
  else if containsL (cs "jogging") combined || containsL (cs "track") combined then
    some "Jogging Track"
  else if containsL (cs "sports") combined then some "Sports Facility"
  else if containsL (cs "community") combined || containsL (cs "hall") combined then
    some "Community Hall"
  else none


/-- Whitespace-run split, Python `str.split()`. -/
def pySplitGo : List Char → List Char → List (List Char)
  | [], cur => if cur.isEmpty then [] else [cur.reverse]
  | c :: t, cur =>
    if isWsCh c then
      (if cur.isEmpty then pySplitGo t [] else cur.reverse :: pySplitGo t [])
    else pySplitGo t (c :: cur)

def pySplit (l : List Char) : List (List Char) := pySplitGo l []

/-- The word-accumulation loop of lines 618–657. -/
def amenityWordLoop : List (List Char) → List (List Char) → List String → List String
  | [], _, acc => acc
  | w :: rest, current, acc =>
    let cur := current ++ [w]
    let combined := concatAll cur
    if amenityKeywordHit combined then
      amenityWordLoop rest []
        (match mapAmenity combined with
         | some a => acc ++ [a]
         | none => acc)
    else if 2 < cur.length then amenityWordLoop rest [w] acc
    else amenityWordLoop rest cur acc

/-- Per-element amenity extraction (lines 604–659). -/
def elementAmenities (e : Element) : List String :=
  let base := lowStr e.text.data
  let amenityText :=
    match e.nestedText with
    | some nt => if nt = "" then base else lowStr nt.data
    | none => base
  let cleaned := pyStrip (amenityText.filter (fun c => ('a' ≤ c && c ≤ 'z') || isWsCh c))
  amenityWordLoop (pySplit cleaned) [] []

/-- The amenity selector loop (lines 600–665): the first selector whose
elements yield at least one amenity wins, deduplicated. -/
def amenitiesFromSelectors (s : Soup) : List String → List String
  | [] => []
  | sel :: rest =>
    let ams := pyDedup (concatAll ((s.select sel).map elementAmenities))
    if ams.isEmpty then amenitiesFromSelectors s rest else ams

/-- Matcher for a `\s*`-joined word sequence (the compound alternatives of the
body-text amenity pattern, e.g. `play\s*area`). -/
def matchWsSeq : List (List Char) → List Char → Option (List Char × List Char)
  | [], l => some ([], l)
  | w :: ws', l =>
    match ciStarts w l with
    | none => none
    | some (m, r) =>
      match ws' with
      | [] => some (m, r)
      | _ :: _ =>
        let sp := r.takeWhile isWsCh
        (matchWsSeq ws' (r.dropWhile isWsCh)).map (fun x => (m ++ sp ++ x.1, x.2))

def bodyAmenityAlts : List (List (List Char)) :=
  [[cs "gym"], [cs "pool"], [cs "swimming"], [cs "parking"], [cs "garden"],
   [cs "lift"], [cs "elevator"], [cs "clubhouse"], [cs "security"],
   [cs "play", cs "area"], [cs "power", cs "backup"], [cs "terrace"],
   [cs "jogging", cs "track"], [cs "sports", cs "facility"],
   [cs "community", cs "hall"]]

def tryAltSeqs (alts : List (List (List Char))) (l : List Char) :
    Option (List Char × List Char) :=
  match alts with
  | [] => none
  | a :: rest =>
    match matchWsSeq a l with
    | some x => some x
    | none => tryAltSeqs rest l

/-- Fuelled `re.finditer` for the body-text amenity pattern. -/
def finditerAmenityBody : Nat → List Char → List (List Char)
  | 0, _ => []
  | _ + 1, [] => []
  | n + 1, c :: t =>
    match tryAltSeqs bodyAmenityAlts (c :: t) with
    | some (m, r) => m :: finditerAmenityBody n r
    | none => finditerAmenityBody n t

/-- The canonical-label mapping of the body fallback (lines 671–685), applied
to the title-cased match. -/
def bodyAmenityMap (m : List Char) : String :=
  let a := pyTitle m
  if containsL (cs "Pool") a || containsL (cs "Swimming") a then "Swimming Pool"
  else if containsL (cs "Lift") a || containsL (cs "Elevator") a then "Lift"
  else if containsL (cs "Play") a then "Play Area"
  else if containsL (cs "Power") a || containsL (cs "Backup") a then "Power Backup"
  else if containsL (cs "Jogging") a || containsL (cs "Track") a then "Jogging Track"
  else if containsL (cs "Sports") a then "Sports Facility"
  else if containsL (cs "Community") a || containsL (cs "Hall") a then "Community Hall"
  else ⟨a⟩

/-- The whole amenities block (lines 559–688). -/
def amenitiesPageOf (s : Soup) (domain : String) : Option (List String) :=
  let fromSel := amenitiesFromSelectors s (amenitiesSelectorsFor domain)
  let ams :=
    if fromSel.isEmpty then
      let body := lowStr s.bodyText.data
      pyDedup ((finditerAmenityBody body.length body).map bodyAmenityMap)
    else fromSel
  listOrNone ams

/-! ### The landmarks block (lines 690–741) -/

def landmarkKwsPage : List (List Char) :=
  [cs "metro", cs "school", cs "hospital", cs "mall", cs "airport", cs "park",
   cs "market", cs "station"]

/-- The landmark selector loop (lines 722–734). -/
def landmarksFromSelectors (s : Soup) : List String → List String
  | [] => []
  | sel :: rest =>
    let ls := pyDedup ((((s.select sel).map (fun e => lowStr e.text.data)).filter
        (fun lt => landmarkKwsPage.any (fun k => containsL k lt))).map
      (fun lt => (⟨pyTitle lt⟩ : String)))
    if ls.isEmpty then landmarksFromSelectors s rest else ls

/-- The whole landmarks block (lines 690–741). -/
def landmarksPageOf (s : Soup) (domain : String) : Option (List String) :=
  let fromSel := landmarksFromSelectors s (landmarksSelectorsFor domain)
  let ls :=
    if fromSel.isEmpty then landmarksOf (lowStr s.bodyText.data)
    else fromSel
  listOrNone ls

/-! ### Area, rooms, property type, location (lines 743–803) -/

/-- Inner element loop of the area block: the first element whose text
matches the area regex (its value may be zero). -/
def areaScanSel : List Element → Option Nat
  | [] => none
  | e :: rest =>
    match scanFirst areaAt e.text.data with
    | some v => some v
    | none => areaScanSel rest

/-- The area selector loop (lines 752–766).  A zero match does not stop the
outer loop (`if area: break`), and a final zero collapses to absence
(`area if area else None`); returning `none` for zero is equivalent. -/
def areaPageOf (s : Soup) : List String → Option Nat
  | [] => none
  | sel :: rest =>
    match areaScanSel (s.select sel) with
    | some v => if v = 0 then areaPageOf s rest else some v
    | none => areaPageOf s rest

/-- Inner element loop of the location block (lines 791–802). -/
def locScanSel : List Element → Option String
  | [] => none
  | e :: rest =>
    if 3 < e.text.length then some (⟨pyStrip e.text.data⟩ : String)
    else locScanSel rest

def locationScan (s : Soup) : List String → Option String
  | [] => none
  | sel :: rest =>
    match locScanSel (s.select sel) with
    | some loc => some loc
    | none => locationScan s rest

structure PageData where
  title : String
  price : String
  raw_description : String
  amenities : Option (List String)
  landmarks : Option (List String)
  area_sqft : Option Nat
  bedrooms : Option Nat
  bathrooms : Option Nat
  property_type : String
  location : String
deriving DecidableEq

/-- Embedding of `_parse_property_page` (source lines 375–805).  The `page`
parameter of the Python function is unused by it. -/
def parse_property_page (s : Soup) (url : String) : PageData :=
  let domain := domainOf url
  let bodyLow := lowStr s.bodyText.data
  { title :=
      match s.titleTag with
      | some t => sanitize_title t
      | none => "Property Details"
    price := pricePageOf s domain
    raw_description := rawDescriptionOf s domain
    amenities := amenitiesPageOf s domain
    landmarks := landmarksPageOf s domain
    area_sqft := areaPageOf s (areaSelectorsFor domain)
    bedrooms := scanFirst (roomAt bhkNouns) bodyLow
    bathrooms := scanFirst (roomAt bathNouns) bodyLow
    property_type :=
      match findPropType bodyLow with
      | some m => ⟨pyTitle m⟩
      | none => "Residential"
    location :=
      match locationScan s (locationSelectorsFor domain) with
      | some loc => loc
      | none => "Unknown" }

/-! ## The orchestrator `search_properties` (source lines 952–1142)

The browser, Tavily client and network are abstracted:

* a candidate URL carries the pre-fetched title/snippet of its source dict
  (both tiers produce such dicts, so `isinstance(prop_info, dict)` is always
  true);
* the outcome of the `try` block up to `page.content()` is either a parsed
  page (`ok soup`) or an exception (`err`);
* the structured tier's response is `none` when the API key is missing, the
  call raises, or the response carries no results — in all three cases the
  structured tier contributes no URLs;
* the manual tier (`perform_manual_search`) is browser-driven and enters the
  pipeline only through its result list of candidate dicts, which is how it is
  modelled here. -/

structure Candidate where
  url : String
  title : String
  snippet : String
deriving DecidableEq

inductive FetchOutcome where
  | ok (soup : Soup)
  | err

structure PerQueryResult where
  index : Option String
  publication_time : Option String
  snippet : Option String
  source_title : Option String
  url : Option String
  price : Option String
  area_sqft : Option Nat
  location : Option String
  title : Option String
  raw_snippet : Option String
  bedrooms : Option Nat
  bathrooms : Option Nat
  property_type : Option String
  formatted_description : Option String
  amenities : Option (List String)
  landmarks : Option (List String)
deriving DecidableEq

/-- The `index=None, publication_time=None, ...` defaults of the dataclass. -/
def emptyResult : PerQueryResult :=
  { index := none, publication_time := none, snippet := none,
    source_title := none, url := none, price := none, area_sqft := none,
    location := none, title := none, raw_snippet := none, bedrooms := none,
    bathrooms := none, property_type := none, formatted_description := none,
    amenities := none, landmarks := none }

/-- `url.split("//")[-1].split("/")[0]` (no lowering; lines 1096 and 1123). -/
def sourceTitleOf (url : String) : String :=
  ⟨(pySplitOn (cs "/") ((pySplitOn (cs "//") url.data).getLastD [])).headD []⟩

/-- The success path of the per-URL loop (lines 1073–1109). -/
def successRecord (idx : Nat) (c : Candidate) (soup : Soup) : PerQueryResult :=
  let parsed := parse_property_page soup c.url
  let title := if c.title ≠ "" then c.title else parsed.title
  let rawDesc := if c.snippet ≠ "" then c.snippet else parsed.raw_description
  let fields := extract_fields_from_snippet rawDesc parsed.location
  { emptyResult with
    index := some (natStr (idx + 1))
    title := some title
    source_title := some (sourceTitleOf c.url)
    url := some c.url
    price := some parsed.price
    area_sqft := parsed.area_sqft
    location := some parsed.location
    bedrooms := parsed.bedrooms
    bathrooms := parsed.bathrooms
    property_type := some parsed.property_type
    raw_snippet := some rawDesc
    formatted_description := some (format_property_description fields.toDesc)
    amenities := parsed.amenities
    landmarks := parsed.landmarks }

/-- The exception path of the per-URL loop (lines 1111–1135): a fallback
record is built by regex-only parsing of the title-plus-snippet text. -/
def fallbackRecord (query : String) (idx : Nat) (c : Candidate) : PerQueryResult :=
  let fallback := basic_regex_parse_from_text (c.title ++ " " ++ c.snippet) query
  { emptyResult with
    index := some (natStr (idx + 1))
    title := some (sanitize_title c.title)
    snippet := some (sanitize_snippet c.snippet)
    source_title := some (sourceTitleOf c.url)
    url := some c.url
    price := some fallback.price
    area_sqft := fallback.area_sqft
    location := some query
    bedrooms := fallback.bedrooms
    bathrooms := fallback.bathrooms
    property_type := some fallback.property_type
    amenities := fallback.amenities
    landmarks := fallback.landmarks
    formatted_description := none }

/-- One iteration of the per-URL loop: on success a full record, on an
exception a fallback record when the candidate carries a truthy snippet,
otherwise nothing. -/
def processCandidate (query : String) (idx : Nat) (c : Candidate) :
    FetchOutcome → Option PerQueryResult
  | .ok soup => some (successRecord idx c soup)
  | .err => if c.snippet ≠ "" then some (fallbackRecord query idx c) else none

/-- The `for idx, prop_info in enumerate(property_urls)` loop (lines
1036–1135): the index advances for every candidate, appended records keep
candidate order. -/
def processCandidates (query : String) :
    Nat → List (Candidate × FetchOutcome) → List PerQueryResult
  | _, [] => []
  | idx, (c, f) :: rest =>
    match processCandidate query idx c f with
    | some r => r :: processCandidates query (idx + 1) rest
    | none => processCandidates query (idx + 1) rest

structure SearchResults where
  query : Option String
  results : Option (List PerQueryResult)

/-- The per-query outcome appended at line 1137. -/
def searchQueryOutcome (query : String) (cs : List (Candidate × FetchOutcome)) :
    SearchResults :=
  ⟨some query, some (processCandidates query 0 cs)⟩

/-! ### Tier selection (lines 996–1034) -/

structure TavilyItem where
  url : String
  title : String
  content : String
deriving DecidableEq

/-- The per-item URL filter of lines 1014–1021 (`skip in url`,
case-sensitive) followed by the preferred-domain filter of lines 1022–1026
(on the lowered URL). -/
def tavilyFilter (items : List TavilyItem) : List Candidate :=
  ((items.map (fun i => ({ url := i.url, title := i.title, snippet := i.content } : Candidate))).filter
      (fun c => c.url ≠ "" &&
        !(containsL (cs "search") c.url.data || containsL (cs "listings") c.url.data ||
          containsL (cs "results") c.url.data))).filter
    (fun c => containsL (cs "99acres.com") (lowStr c.url.data) ||
      containsL (cs "magicbricks.com") (lowStr c.url.data))

/-- URLs surviving the structured tier; `none` covers a missing API key, a
raised exception and an empty or malformed response. -/
def structuredTier (t : Option (List TavilyItem)) : List Candidate :=
  match t with
  | some items => tavilyFilter items
  | none => []

/-- Lines 1031–1034: the manual tier runs exactly when the structured tier
left no candidate URLs, and its results are then the candidate list. -/
def tierCandidates (t : Option (List TavilyItem)) (manual : List Candidate) :
    List Candidate :=
  let s := structuredTier t
  if s.isEmpty then manual else s

/-! ## Helper lemmas -/

theorem strNeOfDataNe (s : String) (h : s.data ≠ []) : s ≠ "" :=
  String.ne_of_data_ne (by simpa using h)

theorem strDataAppend (a b : String) : (a ++ b).data = a.data ++ b.data :=
  String.data_append ..

theorem joinSp_cons_ne (x : String) (xs : List String) (h : x.data ≠ []) :
    joinSp (x :: xs) ≠ "" := by
  cases xs with
  | nil => exact strNeOfDataNe x h
  | cons y ys =>
    apply strNeOfDataNe
    rw [show joinSp (x :: y :: ys) = x ++ " " ++ joinSp (y :: ys) from rfl]
    rw [strDataAppend, strDataAppend]
    simp [h]

/-- The composer always emits its first sentence, which starts with a literal
prefix in all four branches. -/
theorem format_description_ne_empty (f : DescFields) :
    format_property_description f ≠ "" := by
  unfold format_property_description
  apply joinSp_cons_ne
  cases optN f.bedrooms <;> cases optS f.location <;>
    simp [strDataAppend]

theorem scanFirst_some {α : Type} {f : List Char → Option α} {l : List Char}
    {v : α} (h : scanFirst f l = some v) : ∃ t, f t = some v := by
  induction l with
  | nil => exact ⟨[], h⟩
  | cons c t ih =>
    rw [scanFirst] at h
    cases hf : f (c :: t) with
    | some r => rw [hf] at h; exact ⟨c :: t, by rw [hf]; exact h⟩
    | none => rw [hf] at h; exact ih h

theorem ciStarts_spec : ∀ (p l m r : List Char), ciStarts p l = some (m, r) →
    lowStr m = lowStr p ∧ l = m ++ r := by
  intro p
  induction p with
  | nil =>
    intro l m r h
    simp [ciStarts] at h
    simp [h.1, h.2, lowStr]
  | cons pc pt ih =>
    intro l m r h
    cases l with
    | nil => simp [ciStarts] at h
    | cons c t =>
      rw [ciStarts] at h
      by_cases hc : lowCh c = lowCh pc
      · rw [if_pos hc] at h
        cases hm : ciStarts pt t with
        | none => rw [hm] at h; simp at h
        | some mr =>
          rw [hm] at h
          simp at h
          obtain ⟨rfl, rfl⟩ := h
          obtain ⟨h1, h2⟩ := ih t mr.1 mr.2 (by rw [hm])
          refine ⟨?_, ?_⟩
          · simp [lowStr] at h1 ⊢
            exact ⟨hc, h1⟩
          · simpa using h2
      · rw [if_neg hc] at h; cases h

theorem tryAlts_some {α : Type} {alts : List (List Char)}
    {k : List Char → List Char → Option α} {l : List Char} {v : α}
    (h : tryAlts alts k l = some v) :
    ∃ a ∈ alts, ∃ m r, ciStarts a l = some (m, r) ∧ k m r = some v := by
  induction alts with
  | nil => simp [tryAlts] at h
  | cons a rest ih =>
    rw [tryAlts] at h
    cases hc : ciStarts a l with
    | some mr =>
      obtain ⟨m0, r0⟩ := mr
      rw [hc] at h
      dsimp only at h
      cases hk : k m0 r0 with
      | some w =>
        rw [hk] at h
        injection h with hv
        exact ⟨a, by simp, m0, r0, by rw [hc], by rw [hk, hv]⟩
      | none =>
        rw [hk] at h
        obtain ⟨b, hb, m, r, h1, h2⟩ := ih h
        exact ⟨b, by simp [hb], m, r, h1, h2⟩
    | none =>
      rw [hc] at h
      obtain ⟨b, hb, m, r, h1, h2⟩ := ih h
      exact ⟨b, by simp [hb], m, r, h1, h2⟩

/-! ### Output non-emptiness of the price formatters -/

theorem unitFormat_ne {v : Dec} {u o : List Char} (h : unitFormat v u = some o) :
    o ≠ [] := by
  unfold unitFormat at h
  split_ifs at h <;>
    (simp only [Option.some.injEq] at h; rw [← h]; simp)

theorem magnitudeFormat_ne (v : Dec) : magnitudeFormat v ≠ [] := by
  unfold magnitudeFormat
  split_ifs <;> simp

theorem p3Out_ne {r : NumLit × Option (List Char)} {o : List Char}
    (h : p3Out r = some o) : o ≠ [] := by
  unfold p3Out at h
  cases hr : r.2 with
  | some u => rw [hr] at h; exact unitFormat_ne h
  | none => rw [hr] at h; injection h with hv; rw [← hv]; exact magnitudeFormat_ne _

theorem epHandler_ne {v : Dec} {u : Option (List Char)} {o : List Char}
    (h : epHandler v u = some o) : o ≠ [] := by
  cases u with
  | some ul =>
    unfold epHandler at h
    dsimp only at h
    split_ifs at h <;>
      (simp only [Option.some.injEq] at h; rw [← h]; simp)
  | none =>
    unfold epHandler at h
    dsimp only at h
    split_ifs at h <;>
      (simp only [Option.some.injEq] at h; rw [← h]; simp)

theorem cleanPriceCore_ne (l : List Char) : cleanPriceCore l ≠ [] := by
  unfold cleanPriceCore
  dsimp only
  split
  · simp [cs]
  cases h1 : scanFirst p1At (priceNormalize l) with
  | some r => obtain ⟨x, y, u⟩ := r; simp [h1]
  | none =>
    simp only [h1]
    cases h2 : (scanFirst p2At (priceNormalize l)).bind
        (fun r => unitFormat r.1.toVal r.2) with
    | some out =>
      simp only [h2]
      obtain ⟨r, _, hf⟩ := Option.bind_eq_some.mp h2
      exact unitFormat_ne hf
    | none =>
      simp only [h2]
      cases h3 : (scanFirst p3At (priceNormalize l)).bind p3Out with
      | some out =>
        simp only [h3]
        obtain ⟨r, _, hf⟩ := Option.bind_eq_some.mp h3
        exact p3Out_ne hf
      | none =>
        simp only [h3]
        cases h4 : scanFirst p4At (priceNormalize l) with
        | some ds => simp [h4, magnitudeFormat_ne]
        | none =>
          simp only [h4]
          cases h5 : scanFirst p5At (priceNormalize l) with
          | some capt => simp [h5, magnitudeFormat_ne]
          | none =>
            simp only [h5]
            cases h6 : scanFirst p6At (priceNormalize l) with
            | some x => simp [h6]
            | none => simp [h6, cs]

theorem clean_price_ne_empty (s : String) : clean_and_format_price s ≠ "" := by
  unfold clean_and_format_price
  split
  · simp
  · exact strNeOfDataNe _ (cleanPriceCore_ne s.data)

theorem extractPriceCore_ne (l : List Char) : extractPriceCore l ≠ [] := by
  unfold extractPriceCore
  cases h1 : (scanFirst pAAt (collapseWs (lowStr l))).bind
      (fun r => epHandler r.1.toVal (some r.2)) with
  | some out =>
    simp only [h1]
    obtain ⟨r, _, hf⟩ := Option.bind_eq_some.mp h1
    exact epHandler_ne hf
  | none =>
    simp only [h1]
    cases h2 : (scanFirst pBAt (collapseWs (lowStr l))).bind
        (fun r => epHandler r.1.toVal (some r.2)) with
    | some out =>
      simp only [h2]
      obtain ⟨r, _, hf⟩ := Option.bind_eq_some.mp h2
      exact epHandler_ne hf
    | none =>
      simp only [h2]
      cases h3 : (scanFirst pCAt (collapseWs (lowStr l))).bind
          (fun r => epHandler r.1.toVal r.2) with
      | some out =>
        simp only [h3]
        obtain ⟨r, _, hf⟩ := Option.bind_eq_some.mp h3
        exact epHandler_ne hf
      | none =>
        simp only [h3]
        cases h4 : (scanFirst pDAt (collapseWs (lowStr l))).bind
            (fun r => epHandler r.1.toVal (some r.2)) with
        | some out =>
          simp only [h4]
          obtain ⟨r, _, hf⟩ := Option.bind_eq_some.mp h4
          exact epHandler_ne hf
        | none => simp [h4, cs]

theorem extract_price_ne_empty (s : String) : extract_price_from_text s ≠ "" := by
  unfold extract_price_from_text
  split
  · simp
  · exact strNeOfDataNe _ (extractPriceCore_ne s.data)

/-! ### Selector-failure lemmas for `_parse_property_page` -/

theorem areaScanSel_none (els : List Element)
    (h : ∀ e ∈ els, scanFirst areaAt e.text.data = none) :
    areaScanSel els = none := by
  induction els with
  | nil => rfl
  | cons e rest ih =>
    rw [areaScanSel, h e (by simp)]
    exact ih (fun e' he' => h e' (by simp [he']))

theorem areaPageOf_none (s : Soup) (sels : List String)
    (h : ∀ sel ∈ sels, ∀ e ∈ s.select sel, scanFirst areaAt e.text.data = none) :
    areaPageOf s sels = none := by
  induction sels with
  | nil => rfl
  | cons sel rest ih =>
    rw [areaPageOf, areaScanSel_none _ (h sel (by simp))]
    exact ih (fun sel' hm => h sel' (by simp [hm]))

theorem areaPageOf_ne_zero (s : Soup) (sels : List String) :
    areaPageOf s sels ≠ some 0 := by
  induction sels with
  | nil => simp [areaPageOf]
  | cons sel rest ih =>
    rw [areaPageOf]
    cases areaScanSel (s.select sel) with
    | none => exact ih
    | some v =>
      by_cases hv : v = 0
      · simp only [hv, if_pos rfl]
        exact ih
      · simp [hv]

theorem locScanSel_none (els : List Element)
    (h : ∀ e ∈ els, e.text.length ≤ 3) : locScanSel els = none := by
  induction els with
  | nil => rfl
  | cons e rest ih =>
    rw [locScanSel]
    have : ¬ 3 < e.text.length := by simpa using h e (by simp)
    rw [if_neg this]
    exact ih (fun e' he' => h e' (by simp [he']))

theorem locationScan_none (s : Soup) (sels : List String)
    (h : ∀ sel ∈ sels, ∀ e ∈ s.select sel, e.text.length ≤ 3) :
    locationScan s sels = none := by
  induction sels with
  | nil => rfl
  | cons sel rest ih =>
    rw [locationScan, locScanSel_none _ (h sel (by simp))]
    exact ih (fun sel' hm => h sel' (by simp [hm]))

/-! ### Duplicate-freeness of the dedup pass -/

theorem pyDedupGo_subset {α : Type} [DecidableEq α] :
    ∀ (n : Nat) (l : List α) (y : α), y ∈ pyDedupGo n l → y ∈ l := by
  intro n
  induction n with
  | zero => intro l y hy; simpa [pyDedupGo] using hy
  | succ m ih =>
    intro l y hy
    cases l with
    | nil => simp [pyDedupGo] at hy
    | cons x xs =>
      rw [pyDedupGo] at hy
      rcases List.mem_cons.mp hy with h | h
      · simp [h]
      · have := ih _ _ h
        have := List.mem_of_mem_filter this
        simp [this]

theorem pyDedupGo_nodup {α : Type} [DecidableEq α] :
    ∀ (n : Nat) (l : List α), l.length ≤ n → (pyDedupGo n l).Nodup := by
  intro n
  induction n with
  | zero =>
    intro l hl
    have : l = [] := List.length_eq_zero.mp (Nat.le_zero.mp hl)
    simp [this, pyDedupGo]
  | succ m ih =>
    intro l hl
    cases l with
    | nil => simp [pyDedupGo]
    | cons x xs =>
      rw [pyDedupGo]
      refine List.nodup_cons.mpr ⟨?_, ?_⟩
      · intro hx
        have := pyDedupGo_subset _ _ _ hx
        have := List.of_mem_filter this
        simp at this
      · exact ih _ (le_trans (List.length_filter_le _ _) (by simpa using hl))

theorem pyDedup_nodup {α : Type} [DecidableEq α] (l : List α) : (pyDedup l).Nodup :=
  pyDedupGo_nodup _ _ le_rfl

/-! ## The claims -/

/-- C2 counterexample: the claim says that when every location selector fails
the location value is absent and no made-up default is synthesized; on a page
with no matching elements at all the code instead binds location to the
constant "Unknown" (while the selector scan itself produced nothing). -/
theorem C2_counterexample :
    locationScan emptySoup (locationSelectorsFor (domainOf "http://example.com/x")) = none ∧
    (parse_property_page emptySoup "http://example.com/x").location = "Unknown" := by
  constructor
  · decide
  · decide

/-- C2 (amended): when every selector for the area field fails, the area value
is absent (never synthesized from a meta tag or body text — no such fallback
exists for it); when every selector for the location field fails, the location
is bound to the fixed literal "Unknown" (a constant default, likewise not
scraped from a meta tag or body text) rather than left absent. -/
theorem C2_area_location_amended :
    (∀ (s : Soup) (url : String),
      (∀ sel ∈ areaSelectorsFor (domainOf url), ∀ e ∈ s.select sel,
        scanFirst areaAt e.text.data = none) →
      (parse_property_page s url).area_sqft = none) ∧
    (∀ (s : Soup) (url : String),
      (∀ sel ∈ locationSelectorsFor (domainOf url), ∀ e ∈ s.select sel,
        e.text.length ≤ 3) →
      (parse_property_page s url).location = "Unknown") := by
  constructor
  · intro s url h
    show areaPageOf s (areaSelectorsFor (domainOf url)) = none
    exact areaPageOf_none s _ h
  · intro s url h
    show (match locationScan s (locationSelectorsFor (domainOf url)) with
      | some loc => loc
      | none => "Unknown") = "Unknown"
    rw [locationScan_none s _ h]

/-- Witness for C2's amended theorem at a concrete empty page. -/
theorem C2_area_location_amended_witness :
    (parse_property_page emptySoup "http://example.com/x").area_sqft = none ∧
    (parse_property_page emptySoup "http://example.com/x").location = "Unknown" :=
  ⟨C2_area_location_amended.1 emptySoup "http://example.com/x"
      (by intro sel _ e he; simp [emptySoup] at he),
   C2_area_location_amended.2 emptySoup "http://example.com/x"
      (by intro sel _ e he; simp [emptySoup] at he)⟩

/-- C3 counterexample: with every backing field absent the composer returns
"This is a property." (its property-type default is "Property"), not the
claimed "This is a residential." built from a "Residential" default. -/
theorem C3_counterexample :
    format_property_description allAbsentFields = "This is a property." ∧
    format_property_description allAbsentFields ≠ "This is a residential." := by
  constructor
  · decide
  · decide

/-- C3 (amended): the composer never returns an empty string for any field
mapping; with every optional field absent the minimal form is
"This is a property." (composer default "Property", not "Residential"); and
for a pipeline candidate with no parsable fields the snippet extractor still
supplies the default location and the literal price string, so the composed
description is "This is a property in Unknown. The property is priced at
Price not available." rather than a bare minimal sentence. -/
theorem C3_description_amended :
    (∀ f : DescFields, format_property_description f ≠ "") ∧
    format_property_description allAbsentFields = "This is a property." ∧
    format_property_description (extract_fields_from_snippet "" "Unknown").toDesc =
      "This is a property in Unknown. The property is priced at Price not available." :=
  ⟨format_description_ne_empty, by decide, by decide⟩

/-- Witness for C3's amended theorem at the all-absent mapping. -/
theorem C3_description_amended_witness :
    format_property_description allAbsentFields ≠ "" ∧
    format_property_description allAbsentFields = "This is a property." :=
  ⟨C3_description_amended.1 allAbsentFields, C3_description_amended.2.1⟩

/-- C6: an exception while processing one candidate URL never aborts the
query.  An errored candidate with a truthy pre-fetched snippet contributes
exactly the regex-only fallback record; one without a snippet is dropped; in
both cases the loop continues with the remaining candidates (the enumeration
index advancing), and a query whose candidates all fail without snippets
yields an empty result list. -/
theorem C6_per_url_error_handling :
    (∀ (q : String) (n : Nat) (c : Candidate) (rest : List (Candidate × FetchOutcome)),
      processCandidates q n ((c, FetchOutcome.err) :: rest) =
        (if c.snippet ≠ "" then [fallbackRecord q n c] else []) ++
          processCandidates q (n + 1) rest) ∧
    (∀ (q : String) (n : Nat) (c : Candidate) (soup : Soup)
        (rest : List (Candidate × FetchOutcome)),
      processCandidates q n ((c, FetchOutcome.ok soup) :: rest) =
        successRecord n c soup :: processCandidates q (n + 1) rest) ∧
    (∀ (q : String) (n : Nat) (l : List (Candidate × FetchOutcome)),
      (∀ p ∈ l, p.2 = FetchOutcome.err ∧ p.1.snippet = "") →
      processCandidates q n l = []) ∧
    (∀ (q : String) (l : List (Candidate × FetchOutcome)),
      (∀ p ∈ l, p.2 = FetchOutcome.err ∧ p.1.snippet = "") →
      (searchQueryOutcome q l).results = some []) := by
  have hall : ∀ (q : String) (n : Nat) (l : List (Candidate × FetchOutcome)),
      (∀ p ∈ l, p.2 = FetchOutcome.err ∧ p.1.snippet = "") →
      processCandidates q n l = [] := by
    intro q n l
    induction l generalizing n with
    | nil => intro _; rfl
    | cons p rest ih =>
      intro h
      obtain ⟨c, f⟩ := p
      obtain ⟨h1, h2⟩ := h (c, f) (by simp)
      simp only at h1 h2
      subst h1
      rw [processCandidates]
      simp only [processCandidate, h2]
      simp only [ne_eq, not_true_eq_false, if_neg, ite_false]
      exact ih _ (fun p hp => h p (by simp [hp]))
  refine ⟨?_, ?_, hall, ?_⟩
  · intro q n c rest
    by_cases hs : c.snippet = "" <;>
      simp [processCandidates, processCandidate, hs]
  · intro q n c soup rest
    simp [processCandidates, processCandidate]
  · intro q l h
    simp [searchQueryOutcome, hall q 0 l h]

/-- Witness for C6 at a concrete two-candidate list: the first candidate
errors with a snippet and contributes the fallback record, the second errors
without one and is dropped. -/
theorem C6_per_url_error_handling_witness :
    processCandidates "pune flats" 0
        [(⟨"http://a.com/p", "T", "2 bhk flat"⟩, FetchOutcome.err)] =
      [fallbackRecord "pune flats" 0 ⟨"http://a.com/p", "T", "2 bhk flat"⟩] ∧
    processCandidates "pune flats" 0 [(⟨"http://a.com/p", "T", ""⟩, FetchOutcome.err)] = [] := by
  constructor
  · rw [C6_per_url_error_handling.1 "pune flats" 0 _ []]
    decide
  · exact C6_per_url_error_handling.2.2.1 "pune flats" 0 _
      (by intro p hp; simp at hp; simp [hp])

/-- C7: if the structured-search tier leaves zero candidate URLs (no API key,
an exception, an empty response, or every URL filtered out), the manual tier's
results become the query's candidate list; otherwise the manual tier is not
consulted.  Tier selection depends only on the survivor list. -/
theorem C7_manual_tier_fallback :
    (∀ (t : Option (List TavilyItem)) (manual : List Candidate),
      structuredTier t = [] → tierCandidates t manual = manual) ∧
    (∀ (t : Option (List TavilyItem)) (manual : List Candidate),
      structuredTier t ≠ [] → tierCandidates t manual = structuredTier t) := by
  constructor
  · intro t manual h
    simp [tierCandidates, h]
  · intro t manual h
    simp [tierCandidates, h]

/-- Witness for C7: with no structured response the manual tier's candidates
are returned; with one surviving preferred-domain URL the manual tier is
bypassed. -/
theorem C7_manual_tier_fallback_witness :
    tierCandidates none [⟨"http://m.com/1", "t", "s"⟩] = [⟨"http://m.com/1", "t", "s"⟩] ∧
    tierCandidates (some [⟨"https://www.99acres.com/prop1", "t", "c"⟩]) [] =
      structuredTier (some [⟨"https://www.99acres.com/prop1", "t", "c"⟩]) :=
  ⟨C7_manual_tier_fallback.1 none _ rfl,
   C7_manual_tier_fallback.2 (some [⟨"https://www.99acres.com/prop1", "t", "c"⟩]) []
     (by decide)⟩

/-- C9: every field extractor is total by construction in this embedding (all
functions are structurally recursive and return optional typed values; the
only fallible Python conversions, `float`/`int` on regex captures, are
guarded or provably cannot fail because the captures are digit-shaped), and
the price-typed results are always non-empty strings, with the optional
fields absent rather than invalid on malformed input. -/
theorem C9_extractors_total :
    (∀ s : String, clean_and_format_price s ≠ "") ∧
    (∀ s : String, extract_price_from_text s ≠ "") ∧
    (∀ s d : String, (basic_regex_parse_from_text s d).price ≠ "") ∧
    (∀ s d : String, (extract_fields_from_snippet s d).price ≠ "") := by
  refine ⟨clean_price_ne_empty, extract_price_ne_empty, ?_, ?_⟩
  · intro s d
    show extract_price_from_text _ ≠ ""
    exact extract_price_ne_empty _
  · intro s d
    show extract_price_from_text _ ≠ ""
    exact extract_price_ne_empty _

/-- Witness for C9 on empty and malformed inputs. -/
theorem C9_extractors_total_witness :
    clean_and_format_price "" ≠ "" ∧
    extract_price_from_text "@@@" ≠ "" ∧
    (basic_regex_parse_from_text "" "x").price ≠ "" :=
  ⟨C9_extractors_total.1 "", C9_extractors_total.2.1 "@@@",
   C9_extractors_total.2.2.1 "" "x"⟩

/-! ### Shape lemmas for the parsed-page record (claim C10) -/

theorem parse_price_eq (s : Soup) (url : String) :
    (parse_property_page s url).price = pricePageOf s (domainOf url) := rfl

theorem parse_title_eq (s : Soup) (url : String) :
    (parse_property_page s url).title =
      (match s.titleTag with
       | some t => sanitize_title t
       | none => "Property Details") := rfl

theorem parse_type_eq (s : Soup) (url : String) :
    (parse_property_page s url).property_type =
      (match findPropType (lowStr s.bodyText.data) with
       | some m => (⟨pyTitle m⟩ : String)
       | none => "Residential") := rfl

theorem parse_location_eq (s : Soup) (url : String) :
    (parse_property_page s url).location =
      (match locationScan s (locationSelectorsFor (domainOf url)) with
       | some loc => loc
       | none => "Unknown") := rfl

theorem parse_area_eq (s : Soup) (url : String) :
    (parse_property_page s url).area_sqft =
      areaPageOf s (areaSelectorsFor (domainOf url)) := rfl

theorem parse_amenities_eq (s : Soup) (url : String) :
    (parse_property_page s url).amenities = amenitiesPageOf s (domainOf url) := rfl

theorem parse_landmarks_eq (s : Soup) (url : String) :
    (parse_property_page s url).landmarks = landmarksPageOf s (domainOf url) := rfl

theorem pricePageOf_ne (s : Soup) (domain : String) : pricePageOf s domain ≠ "" := by
  unfold pricePageOf
  dsimp only
  split
  · simp
  · next h => exact h

theorem listOrNone_spec {xs l : List String} (h : listOrNone xs = some l) :
    l = xs ∧ xs ≠ [] := by
  by_cases he : xs.isEmpty
  · rw [listOrNone, if_pos he] at h
    cases h
  · rw [listOrNone, if_neg he] at h
    cases h
    exact ⟨rfl, by simpa using he⟩

theorem amenitiesFromSelectors_nodup (s : Soup) :
    ∀ sels : List String, (amenitiesFromSelectors s sels).Nodup := by
  intro sels
  induction sels with
  | nil => simp [amenitiesFromSelectors]
  | cons sel rest ih =>
    rw [amenitiesFromSelectors]
    split
    · exact ih
    · exact pyDedup_nodup _

theorem landmarksFromSelectors_nodup (s : Soup) :
    ∀ sels : List String, (landmarksFromSelectors s sels).Nodup := by
  intro sels
  induction sels with
  | nil => simp [landmarksFromSelectors]
  | cons sel rest ih =>
    rw [landmarksFromSelectors]
    split
    · exact ih
    · exact pyDedup_nodup _

theorem amenitiesPageOf_spec (s : Soup) (domain : String) (l : List String)
    (h : amenitiesPageOf s domain = some l) : l ≠ [] ∧ l.Nodup := by
  unfold amenitiesPageOf at h
  obtain ⟨rfl, hne⟩ := listOrNone_spec h
  refine ⟨hne, ?_⟩
  split
  · exact pyDedup_nodup _
  · exact amenitiesFromSelectors_nodup s _

theorem landmarksPageOf_spec (s : Soup) (domain : String) (l : List String)
    (h : landmarksPageOf s domain = some l) : l ≠ [] ∧ l.Nodup := by
  unfold landmarksPageOf at h
  obtain ⟨rfl, hne⟩ := listOrNone_spec h
  refine ⟨hne, ?_⟩
  split
  · exact pyDedup_nodup _
  · exact landmarksFromSelectors_nodup s _

/-- C10: shape invariants of the dictionary built by `_parse_property_page`:
the title, price, property-type and location keys are always bound to strings
(the embedding types them so), with the documented defaults "Property
Details", "Price not available" (the body fallback's literal), "Residential"
and "Unknown" when nothing is extracted; the price is never empty; area,
bedrooms and bathrooms are naturals or absent (and a zero area collapses to
absence); amenities and landmarks are `none` or a non-empty duplicate-free
list — never an empty list. -/
theorem C10_record_shape (s : Soup) (url : String) :
    (parse_property_page s url).price ≠ "" ∧
    (s.titleTag = none → (parse_property_page s url).title = "Property Details") ∧
    (priceFromSelectors s (priceSelectorsFor (domainOf url)) = none →
      metaPriceOf s = none →
      (parse_property_page s url).price = extract_price_from_text s.bodyText) ∧
    (findPropType (lowStr s.bodyText.data) = none →
      (parse_property_page s url).property_type = "Residential") ∧
    (locationScan s (locationSelectorsFor (domainOf url)) = none →
      (parse_property_page s url).location = "Unknown") ∧
    (parse_property_page s url).area_sqft ≠ some 0 ∧
    (∀ l, (parse_property_page s url).amenities = some l → l ≠ [] ∧ l.Nodup) ∧
    (∀ l, (parse_property_page s url).landmarks = some l → l ≠ [] ∧ l.Nodup) := by
  refine ⟨?_, ?_, ?_, ?_, ?_, ?_, ?_, ?_⟩
  · rw [parse_price_eq]
    exact pricePageOf_ne s (domainOf url)
  · intro h
    rw [parse_title_eq, h]
  · intro h1 h2
    rw [parse_price_eq]
    unfold pricePageOf
    rw [h1, h2]
    dsimp only
    rw [if_neg (extract_price_ne_empty s.bodyText)]
  · intro h
    rw [parse_type_eq, h]
  · intro h
    rw [parse_location_eq, h]
  · rw [parse_area_eq]
    exact areaPageOf_ne_zero s _
  · intro l h
    rw [parse_amenities_eq] at h
    exact amenitiesPageOf_spec s (domainOf url) l h
  · intro l h
    rw [parse_landmarks_eq] at h
    exact landmarksPageOf_spec s (domainOf url) l h

/-- C5 counterexample: the claim quantifies over every price input; the input
"call" contains the letter l, yet its output is the literal "Price on
request", which does not carry the unit "Lakh". -/
theorem C5_counterexample :
    containsL (cs "l") (lowStr (cs "call")) = true ∧
    clean_and_format_price "call" = "Price on request" ∧
    containsL (cs "Lakh") (clean_and_format_price "call").data = false := by
  refine ⟨by decide, by decide, by decide⟩

/-- Witness for C10 at a concrete empty page. -/
theorem C10_record_shape_witness :
    (parse_property_page emptySoup "http://example.com/a").price = "Price not available" ∧
    (parse_property_page emptySoup "http://example.com/a").title = "Property Details" ∧
    (parse_property_page emptySoup "http://example.com/a").property_type = "Residential" ∧
    (parse_property_page emptySoup "http://example.com/a").location = "Unknown" := by
  refine ⟨?_, ?_, ?_, ?_⟩
  · have h := (C10_record_shape emptySoup "http://example.com/a").2.2.1
      (by decide) (by decide)
    rw [h]
    decide
  · exact (C10_record_shape emptySoup "http://example.com/a").2.1 rfl
  · exact (C10_record_shape emptySoup "http://example.com/a").2.2.2.1 (by decide)
  · exact (C10_record_shape emptySoup "http://example.com/a").2.2.2.2.1 (by decide)

theorem cleanPriceCore_eval (s : String) (hne : s ≠ "")
    {v : List Char} (h : cleanPriceCore s.data = v) :
    clean_and_format_price s = ⟨v⟩ := by
  unfold clean_and_format_price
  rw [if_neg hne, h]

/-- Evaluation of the normalizer when the call check fails, the range pattern
finds nothing and the number-with-unit pattern matches. -/
theorem cleanPriceCore_p2 (l : List Char)
    (hcall : containsAnyLow callWords (priceNormalize l) = false)
    (hp1 : scanFirst p1At (priceNormalize l) = none)
    (x : NumLit) (u : List Char)
    (hp2 : scanFirst p2At (priceNormalize l) = some (x, u))
    {out : List Char} (hout : unitFormat x.toVal u = some out) :
    cleanPriceCore l = out := by
  unfold cleanPriceCore
  dsimp only
  rw [hcall, hp1, hp2]
  simp only [Bool.false_eq_true, if_false, Option.some_bind, hout]

/-- C5 (amended): the unit law holds at the rule level rather than for every
input containing a unit substring.  When, after normalisation, the
call/request/enquire/contact check fails, the range pattern does not match,
and the single-number-with-unit pattern is the first to match, the captured
unit is one of crore/cr/lakh/lac/l/lakhs (case-insensitively); a captured
crore/cr renders as "₹{n:.2f} Cr" and a captured lakh/lac/l/lakhs as
"₹{n:.2f} Lakh".  Inputs routed to the on-request branch (or to the range
branch, which reproduces the captured unit text verbatim, e.g. "Lac") are
exempt. -/
theorem C5_unit_amended (s : String) (hne : s ≠ "")
    (hcall : containsAnyLow callWords (priceNormalize s.data) = false)
    (hp1 : scanFirst p1At (priceNormalize s.data) = none)
    (x : NumLit) (u : List Char)
    (hp2 : scanFirst p2At (priceNormalize s.data) = some (x, u)) :
    (lowStr u = cs "crore" ∨ lowStr u = cs "cr" ∨ lowStr u = cs "lakh" ∨
      lowStr u = cs "lac" ∨ lowStr u = cs "l" ∨ lowStr u = cs "lakhs") ∧
    ((lowStr u = cs "crore" ∨ lowStr u = cs "cr") →
      clean_and_format_price s = ⟨rupee :: (fix2 x.toVal ++ cs " Cr")⟩) ∧
    ((lowStr u = cs "lakh" ∨ lowStr u = cs "lac" ∨ lowStr u = cs "l" ∨
        lowStr u = cs "lakhs") →
      clean_and_format_price s = ⟨rupee :: (fix2 x.toVal ++ cs " Lakh")⟩) := by
  refine ⟨?_, ?_, ?_⟩
  · obtain ⟨t0, ht⟩ := scanFirst_some hp2
    unfold p2At at ht
    cases hm : matchNum t0 with
    | none => rw [hm] at ht; cases ht
    | some xr =>
      obtain ⟨x0, r1⟩ := xr
      rw [hm] at ht
      dsimp only at ht
      obtain ⟨a, ha, m, r, hci, hk⟩ := tryAlts_some ht
      simp only [Option.some.injEq, Prod.mk.injEq] at hk
      obtain ⟨-, rfl⟩ := hk
      have hlow := (ciStarts_spec a _ m r hci).1
      simp only [unitAlts, List.mem_cons, List.not_mem_nil, or_false] at ha
      rcases ha with rfl | rfl | rfl | rfl | rfl | rfl
      · exact Or.inl (hlow.trans (by decide))
      · exact Or.inr (Or.inl (hlow.trans (by decide)))
      · exact Or.inr (Or.inr (Or.inl (hlow.trans (by decide))))
      · exact Or.inr (Or.inr (Or.inr (Or.inl (hlow.trans (by decide)))))
      · exact Or.inr (Or.inr (Or.inr (Or.inr (Or.inl (hlow.trans (by decide))))))
      · exact Or.inr (Or.inr (Or.inr (Or.inr (Or.inr (hlow.trans (by decide))))))
  · intro hu
    apply cleanPriceCore_eval s hne
    apply cleanPriceCore_p2 s.data hcall hp1 x u hp2
    unfold unitFormat
    rcases hu with hu | hu <;> rw [hu] <;> rw [if_pos (by decide)]
  · intro hu
    apply cleanPriceCore_eval s hne
    apply cleanPriceCore_p2 s.data hcall hp1 x u hp2
    unfold unitFormat
    rcases hu with hu | hu | hu | hu <;> rw [hu] <;>
      rw [if_neg (by decide), if_pos (by decide)]

/-- Witness for C5's amended theorem on the input "5 cr". -/
theorem C5_unit_amended_witness :
    clean_and_format_price "5 cr" = "₹5.00 Cr" := by
  have h := (C5_unit_amended "5 cr" (by decide) (by decide) (by decide)
      { intPart := ['5'], hasDot := false, fracPart := [] } (cs "cr")
      (by decide)).2.1 (Or.inr (by decide))
  rw [h]
  decide

/-! ### Claim C8: maximal digit runs versus the regex windows

The claim reads the extractors as picking "the first integer in the text",
i.e. a maximal digit run.  The following definitions formalise that reading
(they are written from the claim's words, to be compared with the embedded
code): `runStarts` lists every maximal digit run with the text that follows
it, in text order. -/

def runStartsGo : Bool → List Char → List (List Char × List Char)
  | _, [] => []
  | prevDigit, c :: t =>
    if isDigitCh c && !prevDigit then
      ((c :: t).takeWhile isDigitCh, (c :: t).dropWhile isDigitCh) :: runStartsGo true t
    else runStartsGo (isDigitCh c) t

def runStarts (l : List Char) : List (List Char × List Char) := runStartsGo false l

def nounFollows (nouns : List (List Char)) (rest : List Char) : Bool :=
  (tryAlts nouns (fun _ _ => some ()) (skipWs rest)).isSome

/-- Claim reading of the bedrooms sentence: the first maximal digit run that
immediately precedes (up to whitespace) a room noun. -/
def specBedrooms (l : List Char) : Option Nat :=
  firstSome
    (fun p => if nounFollows bhkNouns p.2 then some (digitsToNat p.1) else none)
    (runStarts l)

/-- Claim reading of the area sentence: the first maximal digit run of length
3 to 5 that immediately precedes (up to whitespace) a size unit. -/
def specArea (l : List Char) : Option Nat :=
  firstSome
    (fun p =>
      if 3 ≤ p.1.length && p.1.length ≤ 5 && sizeUnitAt (skipWs p.2) then
        some (digitsToNat p.1)
      else none)
    (runStarts l)

/-- Amended reading of the area sentence: the regex `\d{3,5}` takes the
trailing window (up to five digits) of a maximal run of length at least
three that precedes a size unit. -/
def specAreaWindow (l : List Char) : Option Nat :=
  firstSome
    (fun p =>
      if 3 ≤ p.1.length && sizeUnitAt (skipWs p.2) then
        some (digitsToNat (p.1.drop (p.1.length - 5)))
      else none)
    (runStarts l)

def noDigitHead (l : List Char) : Bool :=
  match l with
  | [] => true
  | c :: _ => !isDigitCh c

theorem mem_takeWhile_digit : ∀ (l : List Char) (c : Char),
    c ∈ l.takeWhile isDigitCh → isDigitCh c = true := by
  intro l
  induction l with
  | nil => intro c hc; simp [List.takeWhile] at hc
  | cons d t ih =>
    intro c hc
    by_cases hd : isDigitCh d
    · rw [List.takeWhile_cons_of_pos hd] at hc
      rcases List.mem_cons.mp hc with rfl | hc
      · exact hd
      · exact ih c hc
    · rw [List.takeWhile_cons_of_neg hd] at hc
      simp at hc

theorem noDigitHead_dropWhile : ∀ l : List Char,
    noDigitHead (l.dropWhile isDigitCh) = true := by
  intro l
  induction l with
  | nil => rfl
  | cons c t ih =>
    by_cases hc : isDigitCh c
    · rw [List.dropWhile_cons_of_pos hc]; exact ih
    · rw [List.dropWhile_cons_of_neg hc]
      simp [noDigitHead, hc]

theorem length_dropWhile_le_digits : ∀ l : List Char,
    (l.dropWhile isDigitCh).length ≤ l.length := by
  intro l
  induction l with
  | nil => simp
  | cons c t ih =>
    by_cases hc : isDigitCh c
    · rw [List.dropWhile_cons_of_pos hc]
      exact le_trans ih (by simp)
    · rw [List.dropWhile_cons_of_neg hc]

theorem takeWhile_digits_append (ds rest : List Char)
    (hds : ∀ c ∈ ds, isDigitCh c = true) (hrest : noDigitHead rest = true) :
    (ds ++ rest).takeWhile isDigitCh = ds ∧
    (ds ++ rest).dropWhile isDigitCh = rest := by
  induction ds with
  | nil =>
    simp only [List.nil_append]
    cases rest with
    | nil => simp [List.takeWhile, List.dropWhile]
    | cons r rt =>
      have : isDigitCh r = false := by
        simpa [noDigitHead] using hrest
      rw [List.takeWhile_cons_of_neg (by simp [this]),
        List.dropWhile_cons_of_neg (by simp [this])]
      exact ⟨rfl, rfl⟩
  | cons d dt ih =>
    have hd : isDigitCh d = true := hds d (by simp)
    obtain ⟨h1, h2⟩ := ih (fun c hc => hds c (by simp [hc]))
    rw [List.cons_append, List.takeWhile_cons_of_pos hd,
      List.dropWhile_cons_of_pos hd]
    exact ⟨by rw [h1], h2⟩

/-- Generic correspondence between the code's suffix scan and the claim's
run enumeration: if the position matcher fails on non-digit heads, and on a
run boundary it amounts to a run function plus continuing after the run, the
scan equals the first hit over maximal runs. -/
theorem scan_runs (G : List Char → List Char → Option Nat)
    {F : List Char → Option Nat}
    (hnil : F [] = none)
    (hF : ∀ c t, isDigitCh c = false → F (c :: t) = none)
    (hrun : ∀ ds rest, ds ≠ [] → (∀ c ∈ ds, isDigitCh c = true) →
      noDigitHead rest = true →
      scanFirst F (ds ++ rest) =
        (G ds rest).orElse (fun _ => scanFirst F rest)) :
    ∀ (n : Nat) (l : List Char), l.length ≤ n →
      scanFirst F l = firstSome (fun p => G p.1 p.2) (runStarts l) := by
  intro n
  induction n with
  | zero =>
    intro l hl
    have : l = [] := List.length_eq_zero.mp (Nat.le_zero.mp hl)
    subst this
    simp [scanFirst, runStarts, runStartsGo, firstSome, hnil]
  | succ m ih =>
    intro l hl
    cases l with
    | nil => simp [scanFirst, runStarts, runStartsGo, firstSome, hnil]
    | cons c t =>
      by_cases hc : isDigitCh c
      · -- a maximal run starts here
        set ds := (c :: t).takeWhile isDigitCh with hds
        set rest := (c :: t).dropWhile isDigitCh with hrest
        have hsplit : ds ++ rest = c :: t :=
          List.takeWhile_append_dropWhile isDigitCh (c :: t)
        have hdsne : ds ≠ [] := by
          rw [hds, List.takeWhile_cons_of_pos hc]
          simp
        have hdig : ∀ x ∈ ds, isDigitCh x = true := fun x hx =>
          mem_takeWhile_digit _ x (hds ▸ hx)
        have hnd : noDigitHead rest = true := hrest ▸ noDigitHead_dropWhile _
        have hrw := hrun ds rest hdsne hdig hnd
        rw [hsplit] at hrw
        rw [hrw]
        have hruns : runStarts (c :: t) = (ds, rest) :: runStartsGo true t := by
          rw [runStarts, runStartsGo]
          simp only [hc, Bool.not_false, Bool.and_self, if_pos]
        rw [hruns]
        have htail : runStartsGo true t = runStarts rest := by
          have hds' : ds = c :: t.takeWhile isDigitCh := by
            rw [hds, List.takeWhile_cons_of_pos hc]
          have ht : t.takeWhile isDigitCh ++ rest = t := by
            rw [hrest, List.dropWhile_cons_of_pos hc]
            exact List.takeWhile_append_dropWhile isDigitCh t
          calc runStartsGo true t
              = runStartsGo true (t.takeWhile isDigitCh ++ rest) := by rw [ht]
            _ = runStarts rest := by
                generalize hq : t.takeWhile isDigitCh = q
                have hqd : ∀ x ∈ q, isDigitCh x = true := fun x hx =>
                  mem_takeWhile_digit t x (hq ▸ hx)
                clear hq ht hds'
                induction q with
                | nil =>
                  simp only [List.nil_append]
                  cases hre : rest with
                  | nil => simp [runStarts, runStartsGo]
                  | cons r rt =>
                    have : isDigitCh r = false := by
                      have := hnd
                      rw [hre] at this
                      simpa [noDigitHead] using this
                    rw [runStarts, runStartsGo, runStartsGo]
                    simp [this]
                | cons q0 qt ihq =>
                  rw [List.cons_append, runStartsGo]
                  have : isDigitCh q0 = true := hqd q0 (by simp)
                  simp only [this, Bool.not_true, Bool.and_false, if_neg,
                    Bool.false_eq_true, not_false_eq_true]
                  exact ihq (fun x hx => hqd x (by simp [hx]))
        rw [htail]
        have hlen : rest.length ≤ m := by
          have h1 : rest.length ≤ t.length := by
            rw [hrest, List.dropWhile_cons_of_pos hc]
            exact length_dropWhile_le_digits t
          have h2 : t.length ≤ m := by
            simpa using Nat.lt_succ_iff.mp (Nat.lt_of_lt_of_le (by simp) hl)
          exact le_trans h1 h2
        rw [firstSome]
        cases hg : G ds rest with
        | some v => simp [Option.orElse, hg]
        | none =>
          simp only [hg, Option.orElse, Option.none_orElse]
          exact ih rest hlen
      · -- no run starts here: both sides skip the character
        have hF' : F (c :: t) = none := hF c t (by simpa using hc)
        rw [scanFirst, hF']
        have : runStarts (c :: t) = runStarts t := by
          rw [runStarts, runStartsGo]
          simp [hc, runStarts]
        rw [this]
        exact ih t (by simpa using Nat.lt_succ_iff.mp (Nat.lt_of_lt_of_le (by simp) hl))

theorem firstSome_congr {α β : Type} (f g : α → Option β) (l : List α)
    (h : ∀ x ∈ l, f x = g x) : firstSome f l = firstSome g l := by
  induction l with
  | nil => rfl
  | cons x t ih =>
    rw [firstSome, firstSome, h x (by simp)]
    cases g x with
    | some v => rfl
    | none => exact ih (fun y hy => h y (by simp [hy]))

theorem runStartsGo_ne : ∀ (l : List Char) (b : Bool) (p : List Char × List Char),
    p ∈ runStartsGo b l → p.1 ≠ [] := by
  intro l
  induction l with
  | nil => intro b p hp; simp [runStartsGo] at hp
  | cons c t ih =>
    intro b p hp
    rw [runStartsGo] at hp
    by_cases hc : (isDigitCh c && !b) = true
    · rw [if_pos hc] at hp
      rcases List.mem_cons.mp hp with rfl | hp
      · have hcd : isDigitCh c = true := by
          simp only [Bool.and_eq_true] at hc
          exact hc.1
        rw [List.takeWhile_cons_of_pos hcd]
        simp
      · exact ih true p hp
    · rw [if_neg hc] at hp
      exact ih _ p hp

theorem roomAt_nondigit (nouns : List (List Char)) (c : Char) (t : List Char)
    (hc : isDigitCh c = false) : roomAt nouns (c :: t) = none := by
  unfold roomAt
  rw [List.takeWhile_cons_of_neg (by simp [hc])]
  simp

theorem areaAt_nondigit (c : Char) (t : List Char)
    (hc : isDigitCh c = false) : areaAt (c :: t) = none := by
  unfold areaAt
  rw [List.takeWhile_cons_of_neg (by simp [hc])]
  simp

/-- Within one maximal run, the rooms matcher either fires at the run start
with the full run or not at all (every position sees the same following
text). -/
theorem roomAt_run (nouns : List (List Char)) :
    ∀ ds rest : List Char, (∀ c ∈ ds, isDigitCh c = true) →
    noDigitHead rest = true →
    scanFirst (roomAt nouns) (ds ++ rest) =
      (if !ds.isEmpty && nounFollows nouns rest then some (digitsToNat ds)
       else none).orElse (fun _ => scanFirst (roomAt nouns) rest) := by
  intro ds
  induction ds with
  | nil => intro rest _ _; simp [Option.orElse]
  | cons d dt ih =>
    intro rest hds hrest
    obtain ⟨ht, hdr⟩ := takeWhile_digits_append (d :: dt) rest hds hrest
    have ht' : List.takeWhile isDigitCh (d :: (dt ++ rest)) = d :: dt := by
      rw [← List.cons_append]; exact ht
    have hdr' : List.dropWhile isDigitCh (d :: (dt ++ rest)) = rest := by
      rw [← List.cons_append]; exact hdr
    have hroom : roomAt nouns (d :: (dt ++ rest)) =
        if nounFollows nouns rest then some (digitsToNat (d :: dt)) else none := by
      unfold roomAt
      rw [ht', hdr']
      simp only [List.isEmpty_cons, Bool.false_eq_true, if_false]
      unfold nounFollows
      cases hN : tryAlts nouns (fun _ _ => some ()) (skipWs rest) with
      | some u => simp [hN]
      | none => simp [hN]
    rw [List.cons_append, scanFirst, hroom]
    cases hN : nounFollows nouns rest with
    | true => simp [hN]
    | false =>
      simp only [hN, Bool.false_eq_true, if_false]
      rw [ih rest (fun c hc => hds c (by simp [hc])) hrest]
      simp [hN, Option.orElse]

/-- Within one maximal run, the `\d{3,5}` area matcher fires at the first
position from which the remaining run is three to five digits long — the
trailing window of the run. -/
theorem areaAt_run :
    ∀ ds rest : List Char, (∀ c ∈ ds, isDigitCh c = true) →
    noDigitHead rest = true →
    scanFirst areaAt (ds ++ rest) =
      (if 3 ≤ ds.length && sizeUnitAt (skipWs rest) then
         some (digitsToNat (ds.drop (ds.length - 5)))
       else none).orElse (fun _ => scanFirst areaAt rest) := by
  intro ds
  induction ds with
  | nil => intro rest _ _; simp [Option.orElse]
  | cons d dt ih =>
    intro rest hds hrest
    obtain ⟨ht, hdr⟩ := takeWhile_digits_append (d :: dt) rest hds hrest
    have ht' : List.takeWhile isDigitCh (d :: (dt ++ rest)) = d :: dt := by
      rw [← List.cons_append]; exact ht
    have hdr' : List.dropWhile isDigitCh (d :: (dt ++ rest)) = rest := by
      rw [← List.cons_append]; exact hdr
    have harea : areaAt (d :: (dt ++ rest)) =
        if 3 ≤ (d :: dt).length && (d :: dt).length ≤ 5 && sizeUnitAt (skipWs rest) then
          some (digitsToNat (d :: dt))
        else none := by
      unfold areaAt
      rw [ht', hdr']
    rw [List.cons_append, scanFirst, harea,
      ih rest (fun c hc => hds c (by simp [hc])) hrest]
    cases hu : sizeUnitAt (skipWs rest) with
    | false => simp [hu, Option.orElse]
    | true =>
      simp only [hu, Bool.and_true, List.length_cons]
      by_cases h5 : dt.length + 1 ≤ 5
      · by_cases h3 : 3 ≤ dt.length + 1
        · have hz : dt.length + 1 - 5 = 0 := Nat.sub_eq_zero_of_le h5
          simp [h3, h5, hz, Option.orElse]
        · have h3dt : ¬ 3 ≤ dt.length := by omega
          simp [h3, h3dt, Option.orElse]
      · have h3 : 3 ≤ dt.length + 1 := by omega
        have h3dt : 3 ≤ dt.length := by omega
        have hkey : (d :: dt).drop (dt.length - 4) = dt.drop (dt.length - 5) := by
          have heq : dt.length - 4 = (dt.length - 5) + 1 := by omega
          rw [heq, List.drop_succ_cons]
        simp [Option.orElse, hkey, h3, h5, h3dt]

/-- C8 counterexample: in "123456 sqft" the only integer before the size unit
is the six-digit 123456, so under the claim's reading ("first 3-to-5-digit
integer") the area is absent; the code's `\d{3,5}` window instead captures
the trailing five digits, 23456. -/
theorem C8_counterexample :
    (basic_regex_parse_from_text "123456 sqft" "x").area_sqft = some 23456 ∧
    specArea (lowStr (cs "123456 sqft")) = none :=
  ⟨by decide, by decide⟩

/-- C8 (amended): the bedrooms sentence holds as stated — the extractor
returns the first maximal digit run that immediately precedes (up to
whitespace) a room noun.  The area extractor returns, at the first maximal
digit run of length at least three that precedes a size unit, the trailing
window of at most five digits of that run (for runs of length 3–5 this is the
run itself, e.g. "1200 sqft" ↦ 1200; for longer runs it is a suffix, e.g.
"123456 sqft" ↦ 23456), and is absent when no such run exists. -/
theorem C8_rooms_area_amended :
    (∀ s d : String,
      (basic_regex_parse_from_text s d).bedrooms = specBedrooms (lowStr s.data)) ∧
    (∀ s d : String,
      (basic_regex_parse_from_text s d).area_sqft = specAreaWindow (lowStr s.data)) ∧
    (basic_regex_parse_from_text "3 BHK" "x").bedrooms = some 3 ∧
    (basic_regex_parse_from_text "1200 sqft" "x").area_sqft = some 1200 := by
  refine ⟨?_, ?_, by decide, by decide⟩
  · intro s d
    show scanFirst (roomAt bhkNouns) (lowStr s.data) = specBedrooms (lowStr s.data)
    rw [scan_runs (fun ds rest =>
        if !ds.isEmpty && nounFollows bhkNouns rest then some (digitsToNat ds)
        else none)
      rfl (roomAt_nondigit bhkNouns)
      (fun ds rest _ hds hrest => roomAt_run bhkNouns ds rest hds hrest)
      (lowStr s.data).length (lowStr s.data) le_rfl]
    apply firstSome_congr
    intro p hp
    have hne := runStartsGo_ne _ false p hp
    have hpe : p.1.isEmpty = false := by
      cases hq : p.1 with
      | nil => exact absurd hq hne
      | cons a b => rfl
    simp [hpe]
  · intro s d
    show scanFirst areaAt (lowStr s.data) = specAreaWindow (lowStr s.data)
    rw [scan_runs (fun ds rest =>
        if 3 ≤ ds.length && sizeUnitAt (skipWs rest) then
          some (digitsToNat (ds.drop (ds.length - 5)))
        else none)
      rfl areaAt_nondigit
      (fun ds rest _ hds hrest => areaAt_run ds rest hds hrest)
      (lowStr s.data).length (lowStr s.data) le_rfl]
    rfl

/-- Witness for C8's amended theorem at the two anchor inputs. -/
theorem C8_rooms_area_amended_witness :
    (basic_regex_parse_from_text "3 BHK" "x").bedrooms = some 3 ∧
    (basic_regex_parse_from_text "1200 sqft" "x").area_sqft = some 1200 :=
  ⟨C8_rooms_area_amended.2.2.1, C8_rooms_area_amended.2.2.2⟩

/-- C1 counterexample: the claim puts the call/request/enquire/contact rule
last (rule 6, "only if none of (1)-(5) matched").  On "contact 5 cr" the
number-with-unit rule matches ("5 cr", which the claim renders as
"₹5.00 Cr"), yet the code returns "Price on request" because its call check
runs before any numeric pattern. -/
theorem C1_counterexample :
    scanFirst p1At (priceNormalize (cs "contact 5 cr")) = none ∧
    scanFirst p2At (priceNormalize (cs "contact 5 cr")) =
      some ({ intPart := ['5'], hasDot := false, fracPart := [] }, cs "cr") ∧
    clean_and_format_price "contact 5 cr" = "Price on request" ∧
    clean_and_format_price "contact 5 cr" ≠ "₹5.00 Cr" :=
  ⟨by decide, by decide, by decide, by decide⟩

/-- C1 (amended): after whitespace collapsing and deletion of the literal
noise phrases onwards/negotiable/call for price/price on request, the
normalizer applies its rules in this priority order: (0) empty input →
"Price not available"; (1) presence of call/request/enquire/contact anywhere
→ "Price on request" (this check precedes all numeric rules); (2) range
"X sep Y unit" → "₹X - Y Unit" (one rupee sign, the captured unit text
title-cased verbatim); (3) number with unit → "₹{n:.2f} Cr"/"₹{n:.2f} Lakh";
(4) currency-marked number of any size, with an optional unit: the unit rule
if a unit follows, otherwise conversion by magnitude (≥ 1e7 → Cr, ≥ 1e5 →
Lakh, else raw with thousands separators); (5) a digit run of at least 7
digits → magnitude conversion; (6) an Indian comma-grouped amount →
magnitude conversion; (7) "<number>K" → (n/10) as Lakh; (8) otherwise
"Price not available". -/
theorem C1_price_priority_amended (s : String) (hne : s ≠ "") :
    (containsAnyLow callWords (priceNormalize s.data) = true →
      clean_and_format_price s = "Price on request") ∧
    (containsAnyLow callWords (priceNormalize s.data) = false →
      ∀ x y u, scanFirst p1At (priceNormalize s.data) = some (x, y, u) →
      clean_and_format_price s =
        ⟨rupee :: (x.text ++ cs " - " ++ y.text ++ ' ' :: pyTitle u)⟩) ∧
    (containsAnyLow callWords (priceNormalize s.data) = false →
      scanFirst p1At (priceNormalize s.data) = none →
      ∀ out, (scanFirst p2At (priceNormalize s.data)).bind
          (fun r => unitFormat r.1.toVal r.2) = some out →
      clean_and_format_price s = ⟨out⟩) ∧
    (containsAnyLow callWords (priceNormalize s.data) = false →
      scanFirst p1At (priceNormalize s.data) = none →
      (scanFirst p2At (priceNormalize s.data)).bind
        (fun r => unitFormat r.1.toVal r.2) = none →
      ∀ out, (scanFirst p3At (priceNormalize s.data)).bind p3Out = some out →
      clean_and_format_price s = ⟨out⟩) ∧
    (containsAnyLow callWords (priceNormalize s.data) = false →
      scanFirst p1At (priceNormalize s.data) = none →
      (scanFirst p2At (priceNormalize s.data)).bind
        (fun r => unitFormat r.1.toVal r.2) = none →
      (scanFirst p3At (priceNormalize s.data)).bind p3Out = none →
      ∀ ds, scanFirst p4At (priceNormalize s.data) = some ds →
      clean_and_format_price s = ⟨magnitudeFormat ⟨digitsToNat ds, 0⟩⟩) ∧
    (containsAnyLow callWords (priceNormalize s.data) = false →
      scanFirst p1At (priceNormalize s.data) = none →
      (scanFirst p2At (priceNormalize s.data)).bind
        (fun r => unitFormat r.1.toVal r.2) = none →
      (scanFirst p3At (priceNormalize s.data)).bind p3Out = none →
      scanFirst p4At (priceNormalize s.data) = none →
      ∀ capt, scanFirst p5At (priceNormalize s.data) = some capt →
      clean_and_format_price s =
        ⟨magnitudeFormat ⟨digitsToNat (capt.filter (fun c => c != ',')), 0⟩⟩) ∧
    (containsAnyLow callWords (priceNormalize s.data) = false →
      scanFirst p1At (priceNormalize s.data) = none →
      (scanFirst p2At (priceNormalize s.data)).bind
        (fun r => unitFormat r.1.toVal r.2) = none →
      (scanFirst p3At (priceNormalize s.data)).bind p3Out = none →
      scanFirst p4At (priceNormalize s.data) = none →
      scanFirst p5At (priceNormalize s.data) = none →
      ∀ x, scanFirst p6At (priceNormalize s.data) = some x →
      clean_and_format_price s = ⟨rupee :: (fix2 (x.toVal.divPow 1) ++ cs " Lakh")⟩) ∧
    (containsAnyLow callWords (priceNormalize s.data) = false →
      scanFirst p1At (priceNormalize s.data) = none →
      (scanFirst p2At (priceNormalize s.data)).bind
        (fun r => unitFormat r.1.toVal r.2) = none →
      (scanFirst p3At (priceNormalize s.data)).bind p3Out = none →
      scanFirst p4At (priceNormalize s.data) = none →
      scanFirst p5At (priceNormalize s.data) = none →
      scanFirst p6At (priceNormalize s.data) = none →
      clean_and_format_price s = "Price not available") := by
  refine ⟨?_, ?_, ?_, ?_, ?_, ?_, ?_, ?_⟩
  · intro hcall
    apply cleanPriceCore_eval s hne
    unfold cleanPriceCore
    dsimp only
    rw [hcall, if_pos rfl]
    decide
  · intro hcall x y u hp1
    apply cleanPriceCore_eval s hne
    unfold cleanPriceCore
    dsimp only
    rw [hcall, hp1]
    simp
  · intro hcall hp1 out hp2
    apply cleanPriceCore_eval s hne
    unfold cleanPriceCore
    dsimp only
    rw [hcall, hp1, hp2]
    simp
  · intro hcall hp1 hp2 out hp3
    apply cleanPriceCore_eval s hne
    unfold cleanPriceCore
    dsimp only
    rw [hcall, hp1, hp2, hp3]
    simp
  · intro hcall hp1 hp2 hp3 ds hp4
    apply cleanPriceCore_eval s hne
    unfold cleanPriceCore
    dsimp only
    rw [hcall, hp1, hp2, hp3, hp4]
    simp
  · intro hcall hp1 hp2 hp3 hp4 capt hp5
    apply cleanPriceCore_eval s hne
    unfold cleanPriceCore
    dsimp only
    rw [hcall, hp1, hp2, hp3, hp4, hp5]
    simp
  · intro hcall hp1 hp2 hp3 hp4 hp5 x hp6
    apply cleanPriceCore_eval s hne
    unfold cleanPriceCore
    dsimp only
    rw [hcall, hp1, hp2, hp3, hp4, hp5, hp6]
    simp
  · intro hcall hp1 hp2 hp3 hp4 hp5 hp6
    apply cleanPriceCore_eval s hne
    unfold cleanPriceCore
    dsimp only
    rw [hcall, hp1, hp2, hp3, hp4, hp5, hp6]
    decide

/-- Witness for C1's amended rule order: the call rule fires before the
numeric rules on "contact 5 cr", and the range rule fires on "2 to 4 cr". -/
theorem C1_price_priority_amended_witness :
    clean_and_format_price "contact 5 cr" = "Price on request" ∧
    clean_and_format_price "2 to 4 cr" = "₹2 - 4 Cr" := by
  constructor
  · exact (C1_price_priority_amended "contact 5 cr" (by decide)).1 (by decide)
  · have h := (C1_price_priority_amended "2 to 4 cr" (by decide)).2.1 (by decide)
      { intPart := ['2'], hasDot := false, fracPart := [] }
      { intPart := ['4'], hasDot := false, fracPart := [] }
      (cs "cr") (by decide)
    rw [h]
    decide


/-! ### Claim C4 infrastructure, part 1: character and digit-string facts -/

theorem toNat_ofNat_valid (n : Nat) (h : n < 55296) : (Char.ofNat n).toNat = n := by
  unfold Char.ofNat
  rw [dif_pos (Or.inl h)]
  unfold Char.ofNatAux Char.toNat
  simp [UInt32.toNat, BitVec.toNat_ofNatLt]

theorem char_eq_ofNat (c : Char) (n : Nat) (h : c.toNat = n) : c = Char.ofNat n := by
  rw [← h, Char.ofNat_toNat]

/-- Inversion of `lowCh` at a lowercase-letter result: the original character
was the letter itself or its uppercase form. -/
theorem lowCh_inv {a d : Char} (hd1 : 97 ≤ d.toNat) (hd2 : d.toNat ≤ 122)
    (h : lowCh a = d) : a = d ∨ a = Char.ofNat (d.toNat - 32) := by
  unfold lowCh at h
  by_cases hAZ : ('A' ≤ a && a ≤ 'Z') = true
  · rw [if_pos hAZ] at h
    simp only [Bool.and_eq_true, decide_eq_true_eq] at hAZ
    obtain ⟨ha1, ha2⟩ := hAZ
    have hb1 : 65 ≤ a.toNat := ha1
    have hb2 : a.toNat ≤ 90 := ha2
    right
    have hdn : d.toNat = a.toNat + 32 := by
      rw [← h, toNat_ofNat_valid _ (by omega)]
    exact char_eq_ofNat a _ (by omega)
  · rw [if_neg hAZ] at h
    exact Or.inl h

theorem digit_toNat {c : Char} (h : isDigitCh c = true) :
    48 ≤ c.toNat ∧ c.toNat ≤ 57 := by
  simp only [isDigitCh, Bool.and_eq_true, decide_eq_true_eq] at h
  exact ⟨h.1, h.2⟩

theorem digit_not_ws {c : Char} (h : isDigitCh c = true) : isWsCh c = false := by
  by_contra hws
  rw [Bool.not_eq_false] at hws
  simp only [isWsCh, Bool.or_eq_true, decide_eq_true_eq] at hws
  rcases hws with ((((rfl | rfl) | rfl) | rfl) | rfl) | rfl <;> exact absurd h (by decide)

theorem digit_lowCh {c : Char} (h : isDigitCh c = true) : lowCh c = c := by
  unfold lowCh
  rw [if_neg]
  intro hAZ
  simp only [Bool.and_eq_true, decide_eq_true_eq] at hAZ
  have h1 : (65 : Nat) ≤ c.toNat := hAZ.1
  have h2 := (digit_toNat h).2
  omega

theorem ne_digit {c d : Char} (h : isDigitCh c = true) (hd : isDigitCh d = false) :
    d ≠ c := by
  intro heq
  rw [heq, h] at hd
  cases hd

theorem digitCh_digit {k : Nat} (hk : k < 10) : isDigitCh (digitCh k) = true := by
  interval_cases k <;> decide

theorem digitCh_toNat {k : Nat} (hk : k < 10) : (digitCh k).toNat - 48 = k := by
  interval_cases k <;> decide

theorem digitsToNatGo_append (l1 l2 : List Char) : ∀ a : Nat,
    digitsToNatGo a (l1 ++ l2) = digitsToNatGo (digitsToNatGo a l1) l2 := by
  induction l1 with
  | nil => intro a; rfl
  | cons c t ih =>
    intro a
    show digitsToNatGo (10 * a + (c.toNat - 48)) (t ++ l2) = _
    rw [ih]
    rfl

theorem digitsToNatGo_acc (l : List Char) : ∀ a : Nat,
    digitsToNatGo a l = a * 10 ^ l.length + digitsToNat l := by
  induction l with
  | nil =>
    intro a
    have h1 : digitsToNatGo a [] = a := rfl
    have h2 : digitsToNat ([] : List Char) = 0 := rfl
    rw [h1, h2]
    simp
  | cons c t ih =>
    intro a
    have hstep : digitsToNatGo a (c :: t) = digitsToNatGo (10 * a + (c.toNat - 48)) t := rfl
    rw [hstep, ih (10 * a + (c.toNat - 48))]
    have h2 : digitsToNat (c :: t) = digitsToNatGo (10 * 0 + (c.toNat - 48)) t := rfl
    rw [h2, ih (10 * 0 + (c.toNat - 48))]
    simp only [List.length_cons, pow_succ]
    ring

theorem digitsToNat_append_one (l : List Char) (c : Char) :
    digitsToNat (l ++ [c]) = 10 * digitsToNat l + (c.toNat - 48) := by
  rw [digitsToNat, digitsToNatGo_append]
  rw [show ∀ a, digitsToNatGo a [c] = 10 * a + (c.toNat - 48) from fun a => rfl]
  rfl

theorem digitsToNat_lt : ∀ (l : List Char), (∀ c ∈ l, isDigitCh c = true) →
    digitsToNat l < 10 ^ l.length := by
  intro l
  induction l with
  | nil => intro _; decide
  | cons c t ih =>
    intro h
    have hv : c.toNat - 48 ≤ 9 := by
      have := (digit_toNat (h c (by simp))).2; omega
    have ht := ih (fun d hd => h d (by simp [hd]))
    have h2 : digitsToNat (c :: t) = digitsToNatGo (10 * 0 + (c.toNat - 48)) t := rfl
    rw [h2, digitsToNatGo_acc]
    have h0 : 10 * 0 + (c.toNat - 48) = c.toNat - 48 := by norm_num
    rw [h0]
    have h1 : (c.toNat - 48) * 10 ^ t.length + digitsToNat t <
        (c.toNat - 48 + 1) * 10 ^ t.length := by
      rw [Nat.succ_mul]
      omega
    calc (c.toNat - 48) * 10 ^ t.length + digitsToNat t
        < (c.toNat - 48 + 1) * 10 ^ t.length := h1
      _ ≤ 10 * 10 ^ t.length := Nat.mul_le_mul_right _ (by omega)
      _ = 10 ^ (c :: t).length := by rw [List.length_cons, pow_succ]; ring

theorem natToDigitsGo_spec : ∀ (f n : Nat), n < 10 ^ (f + 1) →
    (∀ c ∈ natToDigitsGo f n, isDigitCh c = true) ∧ natToDigitsGo f n ≠ [] ∧
    digitsToNat (natToDigitsGo f n) = n := by
  intro f
  induction f with
  | zero =>
    intro n hn
    have hn10 : n < 10 := by simpa using hn
    refine ⟨?_, by simp [natToDigitsGo], ?_⟩
    · intro c hc
      simp only [natToDigitsGo, List.mem_singleton] at hc
      rw [hc]; exact digitCh_digit hn10
    · rw [show natToDigitsGo 0 n = [digitCh n] from rfl]
      rw [show digitsToNat [digitCh n] = digitsToNatGo (10 * 0 + ((digitCh n).toNat - 48)) [] from rfl]
      rw [show ∀ a, digitsToNatGo a ([] : List Char) = a from fun a => rfl]
      rw [digitCh_toNat hn10]
      omega
  | succ f ih =>
    intro n hn
    by_cases h10 : n < 10
    · rw [natToDigitsGo, if_pos h10]
      refine ⟨?_, by simp, ?_⟩
      · intro c hc
        simp only [List.mem_singleton] at hc
        rw [hc]; exact digitCh_digit h10
      · rw [show digitsToNat [digitCh n] = digitsToNatGo (10 * 0 + ((digitCh n).toNat - 48)) [] from rfl]
        rw [show ∀ a, digitsToNatGo a ([] : List Char) = a from fun a => rfl]
        rw [digitCh_toNat h10]
        omega
    · rw [natToDigitsGo, if_neg h10]
      have hdiv : n / 10 < 10 ^ (f + 1) := by
        rw [Nat.div_lt_iff_lt_mul (by norm_num)]
        calc n < 10 ^ (f + 1 + 1) := hn
          _ = 10 ^ (f + 1) * 10 := by rw [pow_succ]
      obtain ⟨hd, hne, hval⟩ := ih (n / 10) hdiv
      have hmod : n % 10 < 10 := Nat.mod_lt _ (by norm_num)
      refine ⟨?_, by simp, ?_⟩
      · intro c hc
        rcases List.mem_append.mp hc with hc | hc
        · exact hd c hc
        · simp only [List.mem_singleton] at hc
          rw [hc]; exact digitCh_digit hmod
      · rw [digitsToNat_append_one, hval, digitCh_toNat hmod]
        omega

theorem natToDigits_spec (n : Nat) :
    (∀ c ∈ natToDigits n, isDigitCh c = true) ∧ natToDigits n ≠ [] ∧
    digitsToNat (natToDigits n) = n := by
  have h1 : n < 10 ^ n := Nat.lt_pow_self (by norm_num) n
  have h2 : (10 : Nat) ^ n ≤ 10 ^ (n + 1) := Nat.pow_le_pow_right (by norm_num) (by omega)
  exact natToDigitsGo_spec n n (lt_of_lt_of_le h1 h2)

theorem natToDigitsGo_length : ∀ (f n k : Nat), 1 ≤ k → n < 10 ^ k →
    (natToDigitsGo f n).length ≤ k := by
  intro f
  induction f with
  | zero => intro n k hk _; simpa [natToDigitsGo] using hk
  | succ f ih =>
    intro n k hk hn
    by_cases h10 : n < 10
    · rw [natToDigitsGo, if_pos h10]; simpa using hk
    · rw [natToDigitsGo, if_neg h10]
      have hk2 : 2 ≤ k := by
        by_contra hlt
        have : k = 1 := by omega
        rw [this] at hn
        simp at hn
        omega
      have hdiv : n / 10 < 10 ^ (k - 1) := by
        rw [Nat.div_lt_iff_lt_mul (by norm_num)]
        calc n < 10 ^ k := hn
          _ = 10 ^ (k - 1) * 10 := by
            rw [← pow_succ]
            congr 1
            omega
      have := ih (n / 10) (k - 1) (by omega) hdiv
      rw [List.length_append]
      simp only [List.length_singleton]
      omega

theorem natToDigits_length_le {n k : Nat} (hk : 1 ≤ k) (h : n < 10 ^ k) :
    (natToDigits n).length ≤ k :=
  natToDigitsGo_length n n k hk h

theorem natToDigits_length_ge (n k : Nat) (h : 10 ^ k ≤ n) :
    k + 1 ≤ (natToDigits n).length := by
  obtain ⟨hd, _, hval⟩ := natToDigits_spec n
  have hlt : n < 10 ^ (natToDigits n).length := by
    have h := digitsToNat_lt (natToDigits n) hd
    rwa [hval] at h
  have := lt_of_le_of_lt h hlt
  have hklt : k < (natToDigits n).length :=
    (Nat.pow_lt_pow_iff_right (by norm_num)).mp this
  omega

theorem pad2_spec (b : Nat) (hb : b < 100) :
    (∀ c ∈ pad2 b, isDigitCh c = true) ∧ (pad2 b).length = 2 ∧
    digitsToNat (pad2 b) = b := by
  unfold pad2
  by_cases h10 : b < 10
  · rw [if_pos h10]
    refine ⟨?_, rfl, ?_⟩
    · intro c hc
      simp only [List.mem_cons, List.mem_singleton, List.not_mem_nil, or_false] at hc
      rcases hc with rfl | rfl
      · decide
      · exact digitCh_digit h10
    · rw [show digitsToNat ['0', digitCh b] =
        digitsToNatGo (10 * (10 * 0 + ('0'.toNat - 48)) + ((digitCh b).toNat - 48)) [] from rfl]
      rw [show ∀ a, digitsToNatGo a ([] : List Char) = a from fun a => rfl]
      rw [digitCh_toNat h10]
      rw [show '0'.toNat = 48 from rfl]
      omega
  · rw [if_neg h10]
    obtain ⟨hd, hne, hval⟩ := natToDigits_spec b
    refine ⟨hd, ?_, hval⟩
    have hle : (natToDigits b).length ≤ 2 := natToDigits_length_le (by norm_num) (by simpa using hb)
    have hge : 2 ≤ (natToDigits b).length := by
      have := natToDigits_length_ge b 1 (by simpa using (by omega : 10 ≤ b))
      omega
    omega

theorem group3Go_short (l : List Char) (h : l.length ≤ 3) : group3Go l = l := by
  match l with
  | [] => rfl
  | [a] => rfl
  | [a, b] => rfl
  | [a, b, c] => rfl
  | a :: b :: c :: d :: rest => simp at h

theorem group3Go_comma (l : List Char) (h : 4 ≤ l.length) : ',' ∈ group3Go l := by
  match l with
  | [] => simp at h
  | [a] => simp at h
  | [a, b] => simp at h
  | [a, b, c] => simp at h
  | a :: b :: c :: d :: rest =>
    rw [show group3Go (a :: b :: c :: d :: rest) =
      a :: b :: c :: ',' :: group3Go (d :: rest) from rfl]
    simp

theorem group3_short {n : Nat} (h : n < 1000) : group3 n = natToDigits n := by
  unfold group3
  rw [group3Go_short _ (by
    rw [List.length_reverse]
    exact natToDigits_length_le (by norm_num) (by simpa using h))]
  exact List.reverse_reverse _

theorem group3_comma {n : Nat} (h : 1000 ≤ n) : ',' ∈ group3 n := by
  unfold group3
  rw [List.mem_reverse]
  apply group3Go_comma
  rw [List.length_reverse]
  have := natToDigits_length_ge n 3 (by simpa using h)
  omega

theorem rheD_pow0 (m : Nat) : rheD ⟨m, 0⟩ = m := by
  unfold rheD
  simp [Nat.mod_one, Nat.div_one]

theorem fix2_struct (v : Dec) : fix2 v =
    natToDigits (rheD ⟨v.num * 100, v.pow⟩ / 100) ++
      '.' :: pad2 (rheD ⟨v.num * 100, v.pow⟩ % 100) := rfl

theorem fix2_exact (a b : Nat) (hb : b < 100) :
    fix2 ⟨a * 100 + b, 2⟩ = natToDigits a ++ '.' :: pad2 b := by
  unfold fix2
  have hn : rheD ⟨(a * 100 + b) * 100, 2⟩ = a * 100 + b := by
    unfold rheD
    have hf : (a * 100 + b) * 100 / 10 ^ 2 = a * 100 + b := by
      norm_num [Nat.mul_div_cancel]
    have hr : (a * 100 + b) * 100 % 10 ^ 2 = 0 := by
      norm_num [Nat.mul_mod_left]
    rw [show (10:Nat) ^ 2 = 100 from rfl] at hf hr ⊢
    simp only [hf, hr]
    norm_num
  simp only [hn]
  have h1 : (a * 100 + b) / 100 = a := by omega
  have h2 : (a * 100 + b) % 100 = b := by omega
  rw [h1, h2]

/-! ### Claim C4 infrastructure, part 2: normalisation identity on canonical
output shapes -/

/-- Characters that can occur between the rupee sign and the unit word in a
formatted price: digits, the decimal point, spaces and the range dash. -/
def priceBodyCh (c : Char) : Bool := isDigitCh c || c = '.' || c = ' ' || c = '-'

theorem body_lowCh {c : Char} (h : priceBodyCh c = true) : lowCh c = c := by
  simp only [priceBodyCh, Bool.or_eq_true, decide_eq_true_eq] at h
  rcases h with ((hd | rfl) | rfl) | rfl
  · exact digit_lowCh hd
  · rfl
  · rfl
  · rfl

theorem body_not_ws {c : Char} (hd : isDigitCh c = true ∨ c = '.') :
    isWsCh c = false := by
  rcases hd with hd | rfl
  · exact digit_not_ws hd
  · rfl

theorem lowStr_body : ∀ (l : List Char), (∀ c ∈ l, priceBodyCh c = true) →
    lowStr l = l := by
  intro l
  induction l with
  | nil => intro _; rfl
  | cons c t ih =>
    intro h
    show lowCh c :: lowStr t = c :: t
    rw [body_lowCh (h c (by simp)), ih (fun d hd => h d (by simp [hd]))]

theorem containsL_cons_ne {w0 c : Char} {ws t : List Char} (h : w0 ≠ c) :
    containsL (w0 :: ws) (c :: t) = containsL (w0 :: ws) t := by
  rw [containsL]
  simp [startsWithL, h]

theorem containsL_skip {w0 : Char} {ws : List Char} (hw : priceBodyCh w0 = false) :
    ∀ (pre : List Char), (∀ c ∈ pre, priceBodyCh c = true) → ∀ (rest : List Char),
    containsL (w0 :: ws) (pre ++ rest) = containsL (w0 :: ws) rest := by
  intro pre
  induction pre with
  | nil => intro _ rest; rfl
  | cons p pt ih =>
    intro h rest
    rw [List.cons_append, containsL_cons_ne, ih (fun d hd => h d (by simp [hd]))]
    intro heq
    rw [heq] at hw
    rw [h p (by simp)] at hw
    cases hw

theorem containsL_word_shape (w0 : Char) (ws pre tail2 : List Char)
    (hw : priceBodyCh w0 = false) (hpre : ∀ c ∈ pre, priceBodyCh c = true)
    (hne : w0 ≠ '₹') (htl : containsL (w0 :: ws) tail2 = false) :
    containsL (w0 :: ws) ('₹' :: (pre ++ tail2)) = false := by
  rw [containsL_cons_ne hne, containsL_skip hw pre hpre]
  exact htl

theorem callFree_shape (pre tail : List Char) (hpre : ∀ c ∈ pre, priceBodyCh c = true)
    (htail : containsAnyLow callWords tail = false) :
    containsAnyLow callWords ('₹' :: (pre ++ tail)) = false := by
  unfold containsAnyLow at htail ⊢
  rw [List.any_eq_false] at htail ⊢
  intro w hw
  rw [Bool.not_eq_true]
  have htl := htail w hw
  rw [Bool.not_eq_true] at htl
  have hls : lowStr ('₹' :: (pre ++ tail)) = '₹' :: (pre ++ lowStr tail) := by
    show lowCh '₹' :: lowStr (pre ++ tail) = _
    rw [show lowCh '₹' = '₹' from rfl]
    unfold lowStr
    rw [List.map_append, show List.map lowCh pre = pre from lowStr_body pre hpre]
  rw [hls]
  simp only [callWords, List.mem_cons, List.not_mem_nil, or_false] at hw
  rcases hw with rfl | rfl | rfl | rfl
  · exact containsL_word_shape 'c' (cs "all") pre (lowStr tail) (by decide) hpre
      (by decide) htl
  · exact containsL_word_shape 'r' (cs "equest") pre (lowStr tail) (by decide) hpre
      (by decide) htl
  · exact containsL_word_shape 'e' (cs "nquire") pre (lowStr tail) (by decide) hpre
      (by decide) htl
  · exact containsL_word_shape 'c' (cs "ontact") pre (lowStr tail) (by decide) hpre
      (by decide) htl

/-- Every suffix of the list fails the noise-phrase match. -/
def suffClean (l : List Char) : Bool :=
  match l with
  | [] => true
  | c :: t => (phraseAt noisePhrases (c :: t)).isNone && suffClean t

theorem removePhrasesGo_id : ∀ (l : List Char) (n : Nat), suffClean l = true →
    removePhrasesGo noisePhrases n l = l := by
  intro l
  induction l with
  | nil => intro n _; cases n with | zero => rfl | succ m => rfl
  | cons c t ih =>
    intro n h
    cases n with
    | zero => rfl
    | succ m =>
      rw [suffClean, Bool.and_eq_true] at h
      have hp : phraseAt noisePhrases (c :: t) = none := by
        cases hph : phraseAt noisePhrases (c :: t)
        · rfl
        · rw [hph] at h; simp at h
      rw [removePhrasesGo, hp]
      dsimp only
      rw [ih m h.2]

theorem ciStarts_head_ne (p0 : Char) {c : Char} {ps t : List Char} (h : lowCh c ≠ lowCh p0) :
    ciStarts (p0 :: ps) (c :: t) = none := by
  rw [ciStarts, if_neg h]

theorem phraseAt_cons_none {p : List Char} {ps : List (List Char)} {l : List Char}
    (h : ciStarts p l = none) : phraseAt (p :: ps) l = phraseAt ps l := by
  rw [phraseAt, h]

theorem phraseAt_safe {c : Char} (t : List Char) (h1 : lowCh c ≠ 'o')
    (h2 : lowCh c ≠ 'n') (h3 : lowCh c ≠ 'c') (h4 : lowCh c ≠ 'p') :
    phraseAt noisePhrases (c :: t) = none := by
  unfold noisePhrases
  rw [show ([cs "onwards", cs "negotiable", cs "call for price",
      cs "price on request"] : List (List Char)) =
    [('o' :: cs "nwards"), ('n' :: cs "egotiable"), ('c' :: cs "all for price"),
     ('p' :: cs "rice on request")] from rfl]
  rw [phraseAt_cons_none (ciStarts_head_ne 'o'
        (fun hh => h1 (hh.trans (by decide)))),
      phraseAt_cons_none (ciStarts_head_ne 'n'
        (fun hh => h2 (hh.trans (by decide)))),
      phraseAt_cons_none (ciStarts_head_ne 'c'
        (fun hh => h3 (hh.trans (by decide)))),
      phraseAt_cons_none (ciStarts_head_ne 'p'
        (fun hh => h4 (hh.trans (by decide))))]
  rfl

theorem suffClean_cons {c : Char} {t : List Char}
    (hp : phraseAt noisePhrases (c :: t) = none) (ht : suffClean t = true) :
    suffClean (c :: t) = true := by
  rw [suffClean, hp, ht]
  rfl

theorem body_phrase_safe {c : Char} (hc : priceBodyCh c = true) (t : List Char) :
    phraseAt noisePhrases (c :: t) = none := by
  apply phraseAt_safe t <;> rw [body_lowCh hc] <;> intro heq <;>
    rw [heq] at hc <;> exact absurd hc (by decide)

theorem suffClean_body : ∀ (ds : List Char), (∀ c ∈ ds, priceBodyCh c = true) →
    ∀ {rest : List Char}, suffClean rest = true → suffClean (ds ++ rest) = true := by
  intro ds
  induction ds with
  | nil => intro _ rest h; exact h
  | cons d dt ih =>
    intro h rest hrest
    rw [List.cons_append]
    exact suffClean_cons (body_phrase_safe (h d (by simp)) _)
      (ih (fun c hc => h c (by simp [hc])) hrest)

/-- The whitespace structure preserved verbatim by `collapseWs`: only single
spaces, never at a position the run flag is set. -/
def noWsRun : Bool → List Char → Bool
  | _, [] => true
  | prevWs, c :: t =>
    if isWsCh c then (!prevWs && (c == ' ')) && noWsRun true t else noWsRun false t

theorem collapseWsGo_id : ∀ (l : List Char) (b : Bool), noWsRun b l = true →
    collapseWsGo b l = l := by
  intro l
  induction l with
  | nil => intro b _; cases b <;> rfl
  | cons c t ih =>
    intro b h
    by_cases hw : isWsCh c = true
    · rw [noWsRun, if_pos hw] at h
      simp only [Bool.and_eq_true, Bool.not_eq_true', beq_iff_eq] at h
      obtain ⟨⟨hb, hc⟩, ht⟩ := h
      subst hb
      subst hc
      rw [collapseWsGo, if_pos hw]
      rw [if_neg (by simp)]
      rw [ih true ht]
    · rw [noWsRun, if_neg hw] at h
      rw [collapseWsGo, if_neg hw]
      rw [ih false h]

theorem collapseWs_id {l : List Char} (h : noWsRun false l = true) :
    collapseWs l = l :=
  collapseWsGo_id l false h

theorem noWsRun_nonws_cons {c : Char} {t : List Char} (b : Bool)
    (hc : isWsCh c = false) (ht : noWsRun false t = true) :
    noWsRun b (c :: t) = true := by
  rw [noWsRun, if_neg (by simp [hc])]
  exact ht

theorem noWsRun_append : ∀ (pre : List Char), (∀ c ∈ pre, isWsCh c = false) →
    ∀ {rest : List Char}, noWsRun false rest = true →
    noWsRun false (pre ++ rest) = true := by
  intro pre
  induction pre with
  | nil => intro _ rest h; exact h
  | cons p pt ih =>
    intro h rest hrest
    rw [List.cons_append]
    exact noWsRun_nonws_cons false (h p (by simp))
      (ih (fun c hc => h c (by simp [hc])) hrest)

theorem noWsRun_space {c : Char} {t : List Char} (hc : isWsCh c = false)
    (h : noWsRun false (c :: t) = true) : noWsRun false (' ' :: c :: t) = true := by
  rw [noWsRun, if_pos (by decide)]
  rw [noWsRun, if_neg (by simp [hc])] at h
  rw [noWsRun, if_neg (by simp [hc])]
  simp [h]

theorem dropWsLead_nonws {c : Char} {t : List Char} (hc : isWsCh c = false) :
    dropWsLead (c :: t) = c :: t := by
  rw [dropWsLead, if_neg (by simp [hc])]

theorem pyStrip_id {l : List Char} {c1 : Char} {t1 : List Char}
    (c2 : Char) (t2 : List Char)
    (h1 : l = c1 :: t1) (hw1 : isWsCh c1 = false)
    (h2 : l.reverse = c2 :: t2) (hw2 : isWsCh c2 = false) : pyStrip l = l := by
  unfold pyStrip
  rw [h1, dropWsLead_nonws hw1, ← h1, h2, dropWsLead_nonws hw2, ← h2,
    List.reverse_reverse]

theorem priceNormalize_id {l : List Char} (h1 : collapseWs l = l)
    (h2 : pyStrip l = l) (h3 : suffClean l = true) : priceNormalize l = l := by
  unfold priceNormalize removePhrases
  rw [h1, h2]
  exact removePhrasesGo_id l _ h3


/-! ### Claim C4 infrastructure, part 3: symbolic evaluation of the matchers
on canonical output shapes -/

theorem matchNum_nondigit {c : Char} {t : List Char} (h : isDigitCh c = false) :
    matchNum (c :: t) = none := by
  unfold matchNum
  dsimp only
  rw [List.takeWhile_cons_of_neg (by simp [h])]
  rfl

theorem p1At_nondigit {c : Char} {t : List Char} (h : isDigitCh c = false) :
    p1At (c :: t) = none := by
  unfold p1At
  rw [matchNum_nondigit h]

theorem p2At_nondigit {c : Char} {t : List Char} (h : isDigitCh c = false) :
    p2At (c :: t) = none := by
  unfold p2At
  rw [matchNum_nondigit h]

theorem matchNum_sp (ip : List Char) (hne : ip ≠ [])
    (hd : ∀ c ∈ ip, isDigitCh c = true) (r : List Char) :
    matchNum (ip ++ ' ' :: r) = some (⟨ip, false, []⟩, ' ' :: r) := by
  obtain ⟨ht, hdr⟩ := takeWhile_digits_append ip (' ' :: r) hd rfl
  unfold matchNum
  dsimp only
  rw [ht, hdr, if_neg (by simp [hne])]
  split
  · rename_i r2 heq
    injection heq with h1 h2
    exact absurd h1 (by decide)
  · rfl

theorem matchNum_dot_sp (ip fp : List Char) (hne : ip ≠ [])
    (hd : ∀ c ∈ ip, isDigitCh c = true) (hf : ∀ c ∈ fp, isDigitCh c = true)
    (r : List Char) :
    matchNum (ip ++ '.' :: (fp ++ ' ' :: r)) = some (⟨ip, true, fp⟩, ' ' :: r) := by
  obtain ⟨ht, hdr⟩ := takeWhile_digits_append ip ('.' :: (fp ++ ' ' :: r)) hd rfl
  obtain ⟨ht2, hdr2⟩ := takeWhile_digits_append fp (' ' :: r) hf rfl
  unfold matchNum
  dsimp only
  rw [ht, hdr, if_neg (by simp [hne])]
  split
  · rename_i r2 heq
    injection heq with h1 h2
    rw [← h2, ht2, hdr2]
  · rename_i hdef
    exact ((hdef (fp ++ ' ' :: r) rfl)).elim

theorem matchNum_all (ip : List Char) (hne : ip ≠ [])
    (hd : ∀ c ∈ ip, isDigitCh c = true) :
    matchNum ip = some (⟨ip, false, []⟩, []) := by
  obtain ⟨ht, hdr⟩ := takeWhile_digits_append ip [] hd rfl
  rw [List.append_nil] at ht hdr
  unfold matchNum
  dsimp only
  rw [ht, hdr, if_neg (by simp [hne])]

/-- The shape invariant of every `\d+\.?\d*` capture. -/
def numShape (x : NumLit) : Prop :=
  x.intPart ≠ [] ∧ (∀ c ∈ x.intPart, isDigitCh c = true) ∧
  (∀ c ∈ x.fracPart, isDigitCh c = true) ∧ (x.hasDot = false → x.fracPart = [])

theorem matchNum_shape {l : List Char} {x : NumLit} {r : List Char}
    (h : matchNum l = some (x, r)) : numShape x := by
  unfold matchNum at h
  dsimp only at h
  by_cases he : (l.takeWhile isDigitCh).isEmpty = true
  · rw [if_pos he] at h; cases h
  · rw [if_neg he] at h
    have hne : l.takeWhile isDigitCh ≠ [] := fun hh => he (by rw [hh]; rfl)
    split at h
    · injection h with h1
      rw [Prod.mk.injEq] at h1
      obtain ⟨hx, -⟩ := h1
      rw [← hx]
      exact ⟨hne, fun c hc => mem_takeWhile_digit l c hc,
        fun c hc => mem_takeWhile_digit _ c hc, by intro hh; cases hh⟩
    · injection h with h1
      rw [Prod.mk.injEq] at h1
      obtain ⟨hx, -⟩ := h1
      rw [← hx]
      exact ⟨hne, fun c hc => mem_takeWhile_digit l c hc, by simp, fun _ => rfl⟩

theorem matchNum_text (x : NumLit) (hx : numShape x) (r : List Char) :
    matchNum (x.text ++ ' ' :: r) = some (x, ' ' :: r) := by
  obtain ⟨hne, hipd, hfpd, hnof⟩ := hx
  obtain ⟨ip0, dt0, fp0⟩ := x
  cases dt0 with
  | false =>
    have hfp : fp0 = [] := hnof rfl
    subst hfp
    have htext : NumLit.text ⟨ip0, false, []⟩ = ip0 := by
      unfold NumLit.text
      simp
    rw [htext]
    exact matchNum_sp ip0 hne hipd r
  | true =>
    have htext : NumLit.text ⟨ip0, true, fp0⟩ = ip0 ++ '.' :: fp0 := by
      unfold NumLit.text
      simp
    rw [htext, List.append_assoc]
    rw [show (('.' :: fp0 : List Char) ++ ' ' :: r) = '.' :: (fp0 ++ ' ' :: r) from rfl]
    exact matchNum_dot_sp ip0 fp0 hne hipd hfpd r

theorem numText_body (x : NumLit) (hx : numShape x) :
    ∀ c ∈ x.text, priceBodyCh c = true := by
  obtain ⟨-, hipd, hfpd, -⟩ := hx
  intro c hc
  unfold NumLit.text at hc
  rcases List.mem_append.mp hc with hc2 | hc2
  · simp [priceBodyCh, hipd c hc2]
  · by_cases hd : x.hasDot = true
    · rw [if_pos hd] at hc2
      rcases List.mem_cons.mp hc2 with rfl | hc3
      · simp [priceBodyCh]
      · simp [priceBodyCh, hfpd c hc3]
    · rw [if_neg hd] at hc2
      simp at hc2

/-! Scan-driver helper lemmas. -/

theorem scanFirst_cons_none {α : Type} {f : List Char → Option α} {c : Char}
    {t : List Char} (hc : f (c :: t) = none) :
    scanFirst f (c :: t) = scanFirst f t := by
  rw [scanFirst, hc]

theorem scanFirst_cons_some {α : Type} {f : List Char → Option α} {c : Char}
    {t : List Char} {v : α} (hc : f (c :: t) = some v) :
    scanFirst f (c :: t) = some v := by
  rw [scanFirst, hc]

theorem scanFirst_digits_skip {α : Type} {f : List Char → Option α} :
    ∀ (ds : List Char), (∀ c ∈ ds, isDigitCh c = true) → ∀ (rest : List Char),
    (∀ ds2, ds2 ≠ [] → (∀ c ∈ ds2, isDigitCh c = true) → f (ds2 ++ rest) = none) →
    scanFirst f (ds ++ rest) = scanFirst f rest := by
  intro ds
  induction ds with
  | nil => intro _ rest _; rfl
  | cons d dt ih =>
    intro h rest hpos
    rw [List.cons_append,
      scanFirst_cons_none (by
        have := hpos (d :: dt) (by simp) h
        rwa [List.cons_append] at this)]
    exact ih (fun c hc => h c (by simp [hc])) rest hpos

theorem tryAlts_none_of {α : Type} {k : List Char → List Char → Option α} :
    ∀ (alts : List (List Char)) (l : List Char),
    (∀ a ∈ alts, ciStarts a l = none) → tryAlts alts k l = none := by
  intro alts
  induction alts with
  | nil => intro l _; rfl
  | cons a rest ih =>
    intro l h
    rw [tryAlts, h a (by simp)]
    exact ih l (fun b hb => h b (by simp [hb]))

theorem tryAlts_head_some {α : Type} {a : List Char} {rest : List (List Char)}
    {k : List Char → List Char → Option α} {l : List Char} (m r : List Char) {v : α}
    (hc : ciStarts a l = some (m, r)) (hk : k m r = some v) :
    tryAlts (a :: rest) k l = some v := by
  rw [tryAlts, hc]
  dsimp only
  rw [hk]

theorem skipWs_cons {c : Char} {t : List Char} (h : isWsCh c = false) :
    skipWs (c :: t) = c :: t := by
  unfold skipWs
  rw [List.dropWhile_cons_of_neg (by simp [h])]

theorem skipWs_space {c : Char} {t : List Char} (h : isWsCh c = false) :
    skipWs (' ' :: c :: t) = c :: t := by
  unfold skipWs
  rw [List.dropWhile_cons_of_pos (by decide), List.dropWhile_cons_of_neg (by simp [h])]

theorem ciStarts_append_some : ∀ (p q l : List Char) {m r : List Char},
    ciStarts (p ++ q) l = some (m, r) → ∃ m1 r1, ciStarts p l = some (m1, r1) := by
  intro p
  induction p with
  | nil => intro q l m r _; exact ⟨[], l, rfl⟩
  | cons pc pt ih =>
    intro q l m r h
    cases l with
    | nil => rw [List.cons_append] at h; simp [ciStarts] at h
    | cons c t =>
      rw [List.cons_append, ciStarts] at h
      by_cases hc : lowCh c = lowCh pc
      · rw [if_pos hc] at h
        cases hin : ciStarts (pt ++ q) t with
        | none => rw [hin] at h; cases h
        | some mr =>
          obtain ⟨m0, r0⟩ := mr
          obtain ⟨m1, r1, hp⟩ := ih q t hin
          refine ⟨c :: m1, r1, ?_⟩
          rw [ciStarts, if_pos hc, hp]
          rfl
      · rw [if_neg hc] at h; cases h

/-- Dissection of the unit alternation under an always-succeeding continuation:
the captured text is case-insensitively one of the first five alternatives
("lakhs" is shadowed by its prefix "lakh"). -/
theorem tryAlts_units {β : Type} (g : List Char → β) (l : List Char) (v : β)
    (h : tryAlts unitAlts (fun u _ => some (g u)) l = some v) :
    ∃ u, v = g u ∧ (lowStr u = cs "crore" ∨ lowStr u = cs "cr" ∨
      lowStr u = cs "lakh" ∨ lowStr u = cs "lac" ∨ lowStr u = cs "l") := by
  unfold unitAlts at h
  rw [tryAlts] at h
  cases hc1 : ciStarts (cs "crore") l with
  | some mr =>
    obtain ⟨m, r⟩ := mr
    rw [hc1] at h
    dsimp only at h
    injection h with hv
    exact ⟨m, hv.symm, Or.inl ((ciStarts_spec _ _ _ _ hc1).1.trans (by decide))⟩
  | none =>
    rw [hc1] at h
    rw [tryAlts] at h
    cases hc2 : ciStarts (cs "cr") l with
    | some mr =>
      obtain ⟨m, r⟩ := mr
      rw [hc2] at h
      dsimp only at h
      injection h with hv
      exact ⟨m, hv.symm, Or.inr (Or.inl ((ciStarts_spec _ _ _ _ hc2).1.trans (by decide)))⟩
    | none =>
      rw [hc2] at h
      rw [tryAlts] at h
      cases hc3 : ciStarts (cs "lakh") l with
      | some mr =>
        obtain ⟨m, r⟩ := mr
        rw [hc3] at h
        dsimp only at h
        injection h with hv
        exact ⟨m, hv.symm,
          Or.inr (Or.inr (Or.inl ((ciStarts_spec _ _ _ _ hc3).1.trans (by decide))))⟩
      | none =>
        rw [hc3] at h
        rw [tryAlts] at h
        cases hc4 : ciStarts (cs "lac") l with
        | some mr =>
          obtain ⟨m, r⟩ := mr
          rw [hc4] at h
          dsimp only at h
          injection h with hv
          exact ⟨m, hv.symm, Or.inr (Or.inr (Or.inr (Or.inl
            ((ciStarts_spec _ _ _ _ hc4).1.trans (by decide)))))⟩
        | none =>
          rw [hc4] at h
          rw [tryAlts] at h
          cases hc5 : ciStarts (cs "l") l with
          | some mr =>
            obtain ⟨m, r⟩ := mr
            rw [hc5] at h
            dsimp only at h
            injection h with hv
            exact ⟨m, hv.symm, Or.inr (Or.inr (Or.inr (Or.inr
              ((ciStarts_spec _ _ _ _ hc5).1.trans (by decide)))))⟩
          | none =>
            rw [hc5] at h
            rw [tryAlts] at h
            cases hc6 : ciStarts (cs "lakhs") l with
            | some mr =>
              obtain ⟨m, r⟩ := mr
              obtain ⟨m1, r1, hp⟩ := ciStarts_append_some (cs "lakh") (cs "s") l
                (by rw [show cs "lakh" ++ cs "s" = cs "lakhs" from rfl]; exact hc6)
              rw [hc3] at hp
              cases hp
            | none =>
              rw [hc6] at h
              rw [tryAlts] at h
              cases h

/-! ### Claim C4 infrastructure, part 4: branch-evaluation lemmas for
`cleanPriceCore` and capture dissection -/

theorem cleanPriceCore_por (l : List Char)
    (hcall : containsAnyLow callWords (priceNormalize l) = true) :
    cleanPriceCore l = cs "Price on request" := by
  unfold cleanPriceCore
  dsimp only
  rw [hcall, if_pos rfl]

theorem cleanPriceCore_p1 (l : List Char)
    (hcall : containsAnyLow callWords (priceNormalize l) = false)
    {x y : NumLit} {u : List Char}
    (hp1 : scanFirst p1At (priceNormalize l) = some (x, y, u)) :
    cleanPriceCore l = rupee :: (x.text ++ cs " - " ++ y.text ++ ' ' :: pyTitle u) := by
  unfold cleanPriceCore
  dsimp only
  rw [hcall, hp1]
  simp only [Bool.false_eq_true, if_false]

theorem cleanPriceCore_p3 (l : List Char)
    (hcall : containsAnyLow callWords (priceNormalize l) = false)
    (hp1 : scanFirst p1At (priceNormalize l) = none)
    (hp2 : (scanFirst p2At (priceNormalize l)).bind
      (fun r => unitFormat r.1.toVal r.2) = none)
    {r3 : NumLit × Option (List Char)}
    (hp3 : scanFirst p3At (priceNormalize l) = some r3)
    {out : List Char} (hout : p3Out r3 = some out) :
    cleanPriceCore l = out := by
  unfold cleanPriceCore
  dsimp only
  rw [hcall, hp1, hp2, hp3]
  simp only [Bool.false_eq_true, if_false, Option.none_bind, Option.some_bind, hout]

theorem cleanPriceCore_p4 (l : List Char)
    (hcall : containsAnyLow callWords (priceNormalize l) = false)
    (hp1 : scanFirst p1At (priceNormalize l) = none)
    (hp2 : (scanFirst p2At (priceNormalize l)).bind
      (fun r => unitFormat r.1.toVal r.2) = none)
    (hp3 : (scanFirst p3At (priceNormalize l)).bind p3Out = none)
    {ds : List Char} (hp4 : scanFirst p4At (priceNormalize l) = some ds) :
    cleanPriceCore l = magnitudeFormat ⟨digitsToNat ds, 0⟩ := by
  unfold cleanPriceCore
  dsimp only
  rw [hcall, hp1, hp2, hp3, hp4]
  simp only [Bool.false_eq_true, if_false, Option.none_bind]

theorem cleanPriceCore_p5 (l : List Char)
    (hcall : containsAnyLow callWords (priceNormalize l) = false)
    (hp1 : scanFirst p1At (priceNormalize l) = none)
    (hp2 : (scanFirst p2At (priceNormalize l)).bind
      (fun r => unitFormat r.1.toVal r.2) = none)
    (hp3 : (scanFirst p3At (priceNormalize l)).bind p3Out = none)
    (hp4 : scanFirst p4At (priceNormalize l) = none)
    {capt : List Char} (hp5 : scanFirst p5At (priceNormalize l) = some capt) :
    cleanPriceCore l =
      magnitudeFormat ⟨digitsToNat (capt.filter (fun c => c != ',')), 0⟩ := by
  unfold cleanPriceCore
  dsimp only
  rw [hcall, hp1, hp2, hp3, hp4, hp5]
  simp only [Bool.false_eq_true, if_false, Option.none_bind]

theorem cleanPriceCore_p6 (l : List Char)
    (hcall : containsAnyLow callWords (priceNormalize l) = false)
    (hp1 : scanFirst p1At (priceNormalize l) = none)
    (hp2 : (scanFirst p2At (priceNormalize l)).bind
      (fun r => unitFormat r.1.toVal r.2) = none)
    (hp3 : (scanFirst p3At (priceNormalize l)).bind p3Out = none)
    (hp4 : scanFirst p4At (priceNormalize l) = none)
    (hp5 : scanFirst p5At (priceNormalize l) = none)
    {x : NumLit} (hp6 : scanFirst p6At (priceNormalize l) = some x) :
    cleanPriceCore l = rupee :: (fix2 (x.toVal.divPow 1) ++ cs " Lakh") := by
  unfold cleanPriceCore
  dsimp only
  rw [hcall, hp1, hp2, hp3, hp4, hp5, hp6]
  simp only [Bool.false_eq_true, if_false, Option.none_bind]

theorem cleanPriceCore_pnone (l : List Char)
    (hcall : containsAnyLow callWords (priceNormalize l) = false)
    (hp1 : scanFirst p1At (priceNormalize l) = none)
    (hp2 : (scanFirst p2At (priceNormalize l)).bind
      (fun r => unitFormat r.1.toVal r.2) = none)
    (hp3 : (scanFirst p3At (priceNormalize l)).bind p3Out = none)
    (hp4 : scanFirst p4At (priceNormalize l) = none)
    (hp5 : scanFirst p5At (priceNormalize l) = none)
    (hp6 : scanFirst p6At (priceNormalize l) = none) :
    cleanPriceCore l = cs "Price not available" := by
  unfold cleanPriceCore
  dsimp only
  rw [hcall, hp1, hp2, hp3, hp4, hp5, hp6]
  simp only [Bool.false_eq_true, if_false, Option.none_bind]

/-- Dissection of a range-pattern hit: both numerals are well-shaped captures
and the unit is one of the five reachable alternatives. -/
theorem p1_scan_shapes {l : List Char} {x y : NumLit} {u : List Char}
    (h : scanFirst p1At l = some (x, y, u)) :
    numShape x ∧ numShape y ∧
    (lowStr u = cs "crore" ∨ lowStr u = cs "cr" ∨ lowStr u = cs "lakh" ∨
      lowStr u = cs "lac" ∨ lowStr u = cs "l") := by
  obtain ⟨t0, ht⟩ := scanFirst_some h
  unfold p1At at ht
  cases hm : matchNum t0 with
  | none => rw [hm] at ht; cases ht
  | some xr =>
    obtain ⟨x0, r1⟩ := xr
    rw [hm] at ht
    dsimp only at ht
    obtain ⟨a, ha, m, r, hci, hk⟩ := tryAlts_some ht
    cases hm2 : matchNum (skipWs r) with
    | none => rw [hm2] at hk; cases hk
    | some yr =>
      obtain ⟨y0, r3⟩ := yr
      rw [hm2] at hk
      dsimp only at hk
      obtain ⟨u0, hv, hu5⟩ :=
        tryAlts_units (fun u2 => (x0, y0, u2)) (skipWs r3) (x, y, u) hk
      rw [Prod.mk.injEq, Prod.mk.injEq] at hv
      obtain ⟨hx0, hy0, hu0⟩ := hv
      rw [hx0, hy0]
      refine ⟨matchNum_shape hm, matchNum_shape hm2, ?_⟩
      rw [hu0]
      exact hu5

theorem pyTitle_crore {u : List Char} (h : lowStr u = cs "crore") :
    pyTitle u = cs "Crore" := by
  rw [show cs "crore" = ['c', 'r', 'o', 'r', 'e'] from rfl] at h
  match u, h with
  | [], h => simp [lowStr] at h
  | [a1], h => simp [lowStr, List.cons.injEq] at h
  | [a1, a2], h => simp [lowStr, List.cons.injEq] at h
  | [a1, a2, a3], h => simp [lowStr, List.cons.injEq] at h
  | [a1, a2, a3, a4], h => simp [lowStr, List.cons.injEq] at h
  | a1 :: a2 :: a3 :: a4 :: a5 :: a6 :: t, h => simp [lowStr, List.cons.injEq] at h
  | [a1, a2, a3, a4, a5], h =>
    simp only [lowStr, List.map_cons, List.map_nil, List.cons.injEq, and_true] at h
    obtain ⟨h1, h2, h3, h4, h5⟩ := h
    rcases lowCh_inv (by decide) (by decide) h1 with rfl | rfl <;>
    rcases lowCh_inv (by decide) (by decide) h2 with rfl | rfl <;>
    rcases lowCh_inv (by decide) (by decide) h3 with rfl | rfl <;>
    rcases lowCh_inv (by decide) (by decide) h4 with rfl | rfl <;>
    rcases lowCh_inv (by decide) (by decide) h5 with rfl | rfl <;> decide

theorem pyTitle_cr {u : List Char} (h : lowStr u = cs "cr") :
    pyTitle u = cs "Cr" := by
  rw [show cs "cr" = ['c', 'r'] from rfl] at h
  match u, h with
  | [], h => simp [lowStr] at h
  | [a1], h => simp [lowStr, List.cons.injEq] at h
  | a1 :: a2 :: a3 :: t, h => simp [lowStr, List.cons.injEq] at h
  | [a1, a2], h =>
    simp only [lowStr, List.map_cons, List.map_nil, List.cons.injEq, and_true] at h
    obtain ⟨h1, h2⟩ := h
    rcases lowCh_inv (by decide) (by decide) h1 with rfl | rfl <;>
    rcases lowCh_inv (by decide) (by decide) h2 with rfl | rfl <;> decide

theorem pyTitle_lakh {u : List Char} (h : lowStr u = cs "lakh") :
    pyTitle u = cs "Lakh" := by
  rw [show cs "lakh" = ['l', 'a', 'k', 'h'] from rfl] at h
  match u, h with
  | [], h => simp [lowStr] at h
  | [a1], h => simp [lowStr, List.cons.injEq] at h
  | [a1, a2], h => simp [lowStr, List.cons.injEq] at h
  | [a1, a2, a3], h => simp [lowStr, List.cons.injEq] at h
  | a1 :: a2 :: a3 :: a4 :: a5 :: t, h => simp [lowStr, List.cons.injEq] at h
  | [a1, a2, a3, a4], h =>
    simp only [lowStr, List.map_cons, List.map_nil, List.cons.injEq, and_true] at h
    obtain ⟨h1, h2, h3, h4⟩ := h
    rcases lowCh_inv (by decide) (by decide) h1 with rfl | rfl <;>
    rcases lowCh_inv (by decide) (by decide) h2 with rfl | rfl <;>
    rcases lowCh_inv (by decide) (by decide) h3 with rfl | rfl <;>
    rcases lowCh_inv (by decide) (by decide) h4 with rfl | rfl <;> decide

theorem pyTitle_lac {u : List Char} (h : lowStr u = cs "lac") :
    pyTitle u = cs "Lac" := by
  rw [show cs "lac" = ['l', 'a', 'c'] from rfl] at h
  match u, h with
  | [], h => simp [lowStr] at h
  | [a1], h => simp [lowStr, List.cons.injEq] at h
  | [a1, a2], h => simp [lowStr, List.cons.injEq] at h
  | a1 :: a2 :: a3 :: a4 :: t, h => simp [lowStr, List.cons.injEq] at h
  | [a1, a2, a3], h =>
    simp only [lowStr, List.map_cons, List.map_nil, List.cons.injEq, and_true] at h
    obtain ⟨h1, h2, h3⟩ := h
    rcases lowCh_inv (by decide) (by decide) h1 with rfl | rfl <;>
    rcases lowCh_inv (by decide) (by decide) h2 with rfl | rfl <;>
    rcases lowCh_inv (by decide) (by decide) h3 with rfl | rfl <;> decide

theorem pyTitle_l {u : List Char} (h : lowStr u = cs "l") :
    pyTitle u = cs "L" := by
  rw [show cs "l" = ['l'] from rfl] at h
  match u, h with
  | [], h => simp [lowStr] at h
  | a1 :: a2 :: t, h => simp [lowStr, List.cons.injEq] at h
  | [a1], h =>
    simp only [lowStr, List.map_cons, List.map_nil, List.cons.injEq, and_true] at h
    rcases lowCh_inv (by decide) (by decide) h with rfl | rfl <;> decide

theorem unitFormat_cases {v : Dec} {u out : List Char}
    (h : unitFormat v u = some out) :
    out = rupee :: (fix2 v ++ cs " Cr") ∨ out = rupee :: (fix2 v ++ cs " Lakh") := by
  unfold unitFormat at h
  split_ifs at h
  · injection h with hv
    exact Or.inl hv.symm
  · injection h with hv
    exact Or.inr hv.symm

theorem magnitudeFormat_cases (v : Dec) :
    magnitudeFormat v = rupee :: (fix2 (v.divPow 7) ++ cs " Cr") ∨
    magnitudeFormat v = rupee :: (fix2 (v.divPow 5) ++ cs " Lakh") ∨
    magnitudeFormat v = rupee :: fmtComma0 v := by
  unfold magnitudeFormat
  split_ifs with h1 h2
  · exact Or.inl rfl
  · exact Or.inr (Or.inl rfl)
  · exact Or.inr (Or.inr rfl)

/-! ### Claim C4 infrastructure, part 5: the canonical outputs are fixed
points of the normalizer -/

theorem ciStarts_rupee (t : List Char) :
    ciStarts (cs "₹") ('₹' :: t) = some (['₹'], t) := by
  rw [show cs "₹" = ['₹'] from rfl, ciStarts, if_pos rfl]
  rfl

theorem sepAlts_nil : ∀ a ∈ sepAlts, ciStarts a ([] : List Char) = none := by
  intro a ha
  simp only [sepAlts, List.mem_cons, List.not_mem_nil, or_false] at ha
  rcases ha with rfl | rfl | rfl <;> decide

theorem unitAlts_nil : ∀ a ∈ unitAlts, ciStarts a ([] : List Char) = none := by
  intro a ha
  simp only [unitAlts, List.mem_cons, List.not_mem_nil, or_false] at ha
  rcases ha with rfl | rfl | rfl | rfl | rfl | rfl <;> decide

/-- A plain rupee amount below 1000 (no thousands separator) is reproduced
verbatim by the normalizer. -/
theorem fpRaw (m : Nat) (hm : m < 1000) :
    cleanPriceCore (rupee :: natToDigits m) = rupee :: natToDigits m := by
  obtain ⟨hD, hDne, hDval⟩ := natToDigits_spec m
  have hbody : ∀ c ∈ natToDigits m, priceBodyCh c = true := by
    intro c hc
    simp [priceBodyCh, hD c hc]
  have hnonws : ∀ c ∈ natToDigits m, isWsCh c = false := by
    intro c hc
    exact digit_not_ws (hD c hc)
  -- normalisation identity
  have hnorm : priceNormalize (rupee :: natToDigits m) = rupee :: natToDigits m := by
    apply priceNormalize_id
    · apply collapseWs_id
      apply noWsRun_nonws_cons false (by decide)
      have := noWsRun_append (natToDigits m) hnonws (show noWsRun false [] = true from rfl)
      rwa [List.append_nil] at this
    · cases hrev : (natToDigits m).reverse with
      | nil => exact absurd (List.reverse_eq_nil_iff.mp hrev) hDne
      | cons e es =>
        have he : e ∈ natToDigits m := by
          rw [← List.mem_reverse, hrev]
          simp
        refine pyStrip_id e (es ++ ['₹']) rfl (by decide) ?_
          (digit_not_ws (hD e he))
        rw [show (rupee :: natToDigits m : List Char).reverse =
          (natToDigits m).reverse ++ ['₹'] from by rw [List.reverse_cons]; rfl, hrev]
        rfl
    · apply suffClean_cons (phraseAt_safe _ (by decide) (by decide) (by decide) (by decide))
      have := suffClean_body (natToDigits m) hbody (show suffClean [] = true from rfl)
      rwa [List.append_nil] at this
  -- call check fails
  have hcall : containsAnyLow callWords (rupee :: natToDigits m) = false := by
    have := callFree_shape (natToDigits m) [] hbody (by decide)
    rwa [List.append_nil] at this
  -- patterns 1 and 2 find nothing
  have hp1 : scanFirst p1At (rupee :: natToDigits m) = none := by
    rw [show (rupee :: natToDigits m : List Char) = '₹' :: natToDigits m from rfl,
      scanFirst_cons_none (p1At_nondigit (by decide))]
    rw [show (natToDigits m : List Char) = natToDigits m ++ [] from (List.append_nil _).symm,
      scanFirst_digits_skip (natToDigits m) hD [] ?hpos]
    · rfl
    case hpos =>
      intro ds2 hne2 hd2
      rw [List.append_nil]
      unfold p1At
      rw [matchNum_all ds2 hne2 hd2]
      dsimp only
      exact tryAlts_none_of sepAlts _ sepAlts_nil
  have hp2 : scanFirst p2At (rupee :: natToDigits m) = none := by
    rw [show (rupee :: natToDigits m : List Char) = '₹' :: natToDigits m from rfl,
      scanFirst_cons_none (p2At_nondigit (by decide))]
    rw [show (natToDigits m : List Char) = natToDigits m ++ [] from (List.append_nil _).symm,
      scanFirst_digits_skip (natToDigits m) hD [] ?hpos]
    · rfl
    case hpos =>
      intro ds2 hne2 hd2
      rw [List.append_nil]
      unfold p2At
      rw [matchNum_all ds2 hne2 hd2]
      dsimp only
      exact tryAlts_none_of unitAlts _ unitAlts_nil
  -- pattern 3 hits at position zero
  have hp3 : scanFirst p3At (rupee :: natToDigits m) =
      some (⟨natToDigits m, false, []⟩, none) := by
    apply scanFirst_cons_some
    unfold p3At
    apply tryAlts_head_some ['₹'] (natToDigits m) (ciStarts_rupee (natToDigits m))
    obtain ⟨d, dt, hDeq⟩ : ∃ d dt, natToDigits m = d :: dt := by
      cases hD2 : natToDigits m with
      | nil => exact absurd hD2 hDne
      | cons d dt => exact ⟨d, dt, rfl⟩
    have hskip : skipWs (natToDigits m) = natToDigits m := by
      rw [hDeq]
      exact skipWs_cons (digit_not_ws (hD d (by rw [hDeq]; simp)))
    rw [hskip, matchNum_all (natToDigits m) hDne hD]
    dsimp only
    rw [show skipWs ([] : List Char) = [] from rfl,
      tryAlts_none_of unitAlts _ unitAlts_nil]
  have hout : p3Out (⟨natToDigits m, false, []⟩, none) =
      some (rupee :: natToDigits m) := by
    unfold p3Out
    dsimp only
    have hval : (⟨natToDigits m, false, []⟩ : NumLit).toVal = ⟨m, 0⟩ := by
      unfold NumLit.toVal
      dsimp only
      rw [show digitsToNat ([] : List Char) = 0 from rfl, hDval]
      norm_num
    rw [hval]
    unfold magnitudeFormat
    rw [if_neg (by simp [Dec.leN]; omega), if_neg (by simp [Dec.leN]; omega)]
    unfold fmtComma0
    rw [rheD_pow0, group3_short hm]
  have hres := cleanPriceCore_p3 (rupee :: natToDigits m) (by rwa [hnorm])
    (by rwa [hnorm]) (by rw [hnorm, hp2]; rfl) (by rwa [hnorm]) hout
  exact hres

/-- A "₹D.dd Cr" output is reproduced verbatim by the normalizer. -/
theorem fpCr (a b : Nat) (hb : b < 100) :
    cleanPriceCore (rupee :: ((natToDigits a ++ '.' :: pad2 b) ++ cs " Cr")) =
      rupee :: ((natToDigits a ++ '.' :: pad2 b) ++ cs " Cr") := by
  obtain ⟨hD, hDne, hDval⟩ := natToDigits_spec a
  obtain ⟨hP, hPlen, hPval⟩ := pad2_spec b hb
  have hbody : ∀ c ∈ natToDigits a ++ '.' :: pad2 b, priceBodyCh c = true := by
    intro c hc
    rcases List.mem_append.mp hc with hc | hc
    · simp [priceBodyCh, hD c hc]
    · rcases List.mem_cons.mp hc with rfl | hc
      · decide
      · simp [priceBodyCh, hP c hc]
  have hnonws : ∀ c ∈ natToDigits a ++ '.' :: pad2 b, isWsCh c = false := by
    intro c hc
    rcases List.mem_append.mp hc with hc | hc
    · exact digit_not_ws (hD c hc)
    · rcases List.mem_cons.mp hc with rfl | hc
      · decide
      · exact digit_not_ws (hP c hc)
  have hassoc : (natToDigits a ++ '.' :: pad2 b) ++ cs " Cr" =
      natToDigits a ++ '.' :: (pad2 b ++ ' ' :: cs "Cr") := by
    rw [List.append_assoc]
    rfl
  have hnorm : priceNormalize (rupee :: ((natToDigits a ++ '.' :: pad2 b) ++ cs " Cr")) =
      rupee :: ((natToDigits a ++ '.' :: pad2 b) ++ cs " Cr") := by
    apply priceNormalize_id
    · apply collapseWs_id
      apply noWsRun_nonws_cons false (by decide)
      exact noWsRun_append _ hnonws (by decide)
    · refine pyStrip_id 'r'
        ('C' :: ' ' :: ((natToDigits a ++ '.' :: pad2 b).reverse ++ ['₹']))
        rfl (by decide) ?_ (by decide)
      rw [show (rupee :: ((natToDigits a ++ '.' :: pad2 b) ++ cs " Cr") :
          List Char).reverse =
        ((natToDigits a ++ '.' :: pad2 b) ++ cs " Cr").reverse ++ ['₹'] from by
          rw [List.reverse_cons]; rfl]
      rw [List.reverse_append, List.append_assoc]
      rfl
    · apply suffClean_cons (phraseAt_safe _ (by decide) (by decide) (by decide) (by decide))
      exact suffClean_body _ hbody (by decide)
  have hcall : containsAnyLow callWords
      (rupee :: ((natToDigits a ++ '.' :: pad2 b) ++ cs " Cr")) = false :=
    callFree_shape _ _ hbody (by decide)
  have hp1 : scanFirst p1At
      (rupee :: ((natToDigits a ++ '.' :: pad2 b) ++ cs " Cr")) = none := by
    rw [show (rupee :: ((natToDigits a ++ '.' :: pad2 b) ++ cs " Cr") : List Char) =
      '₹' :: ((natToDigits a ++ '.' :: pad2 b) ++ cs " Cr") from rfl,
      scanFirst_cons_none (p1At_nondigit (by decide)), hassoc]
    rw [scanFirst_digits_skip (natToDigits a) hD ('.' :: (pad2 b ++ ' ' :: cs "Cr"))
      (by
        intro ds2 hne2 hd2
        unfold p1At
        rw [matchNum_dot_sp ds2 (pad2 b) hne2 hd2 hP (cs "Cr")]
        dsimp only
        rw [show skipWs (' ' :: cs "Cr") = cs "Cr" from by decide]
        apply tryAlts_none_of sepAlts
        intro a2 ha2
        simp only [sepAlts, List.mem_cons, List.not_mem_nil, or_false] at ha2
        rcases ha2 with rfl | rfl | rfl <;> decide)]
    rw [scanFirst_cons_none (p1At_nondigit (by decide))]
    rw [scanFirst_digits_skip (pad2 b) hP (' ' :: cs "Cr")
      (by
        intro ds2 hne2 hd2
        unfold p1At
        rw [matchNum_sp ds2 hne2 hd2 (cs "Cr")]
        dsimp only
        rw [show skipWs (' ' :: cs "Cr") = cs "Cr" from by decide]
        apply tryAlts_none_of sepAlts
        intro a2 ha2
        simp only [sepAlts, List.mem_cons, List.not_mem_nil, or_false] at ha2
        rcases ha2 with rfl | rfl | rfl <;> decide)]
    decide
  have hp2core : p2At ((natToDigits a ++ '.' :: pad2 b) ++ cs " Cr") =
      some (⟨natToDigits a, true, pad2 b⟩, cs "Cr") := by
    rw [hassoc]
    unfold p2At
    rw [matchNum_dot_sp (natToDigits a) (pad2 b) hDne hD hP (cs "Cr")]
    dsimp only
    rw [show skipWs (' ' :: cs "Cr") = cs "Cr" from by decide]
    rfl
  have hp2 : scanFirst p2At
      (rupee :: ((natToDigits a ++ '.' :: pad2 b) ++ cs " Cr")) =
      some (⟨natToDigits a, true, pad2 b⟩, cs "Cr") := by
    rw [show (rupee :: ((natToDigits a ++ '.' :: pad2 b) ++ cs " Cr") : List Char) =
      '₹' :: ((natToDigits a ++ '.' :: pad2 b) ++ cs " Cr") from rfl,
      scanFirst_cons_none (p2At_nondigit (by decide))]
    obtain ⟨d, dt, hDeq⟩ : ∃ d dt, natToDigits a = d :: dt := by
      cases hD2 : natToDigits a with
      | nil => exact absurd hD2 hDne
      | cons d dt => exact ⟨d, dt, rfl⟩
    rw [hDeq, List.cons_append, List.cons_append]
    apply scanFirst_cons_some
    rw [← List.cons_append, ← List.cons_append, ← hDeq]
    exact hp2core
  have hval : (⟨natToDigits a, true, pad2 b⟩ : NumLit).toVal = ⟨a * 100 + b, 2⟩ := by
    unfold NumLit.toVal
    dsimp only
    rw [hPlen, hDval, hPval]
    norm_num
  have hout : unitFormat (⟨natToDigits a, true, pad2 b⟩ : NumLit).toVal (cs "Cr") =
      some (rupee :: ((natToDigits a ++ '.' :: pad2 b) ++ cs " Cr")) := by
    rw [hval]
    unfold unitFormat
    rw [if_pos (by decide)]
    rw [fix2_exact a b hb]
  exact cleanPriceCore_p2 _ (by rwa [hnorm]) (by rwa [hnorm]) _ _ (by rwa [hnorm]) hout

/-- A "₹D.dd Lakh" output is reproduced verbatim by the normalizer. -/
theorem fpLakh (a b : Nat) (hb : b < 100) :
    cleanPriceCore (rupee :: ((natToDigits a ++ '.' :: pad2 b) ++ cs " Lakh")) =
      rupee :: ((natToDigits a ++ '.' :: pad2 b) ++ cs " Lakh") := by
  obtain ⟨hD, hDne, hDval⟩ := natToDigits_spec a
  obtain ⟨hP, hPlen, hPval⟩ := pad2_spec b hb
  have hbody : ∀ c ∈ natToDigits a ++ '.' :: pad2 b, priceBodyCh c = true := by
    intro c hc
    rcases List.mem_append.mp hc with hc | hc
    · simp [priceBodyCh, hD c hc]
    · rcases List.mem_cons.mp hc with rfl | hc
      · decide
      · simp [priceBodyCh, hP c hc]
  have hnonws : ∀ c ∈ natToDigits a ++ '.' :: pad2 b, isWsCh c = false := by
    intro c hc
    rcases List.mem_append.mp hc with hc | hc
    · exact digit_not_ws (hD c hc)
    · rcases List.mem_cons.mp hc with rfl | hc
      · decide
      · exact digit_not_ws (hP c hc)
  have hassoc : (natToDigits a ++ '.' :: pad2 b) ++ cs " Lakh" =
      natToDigits a ++ '.' :: (pad2 b ++ ' ' :: cs "Lakh") := by
    rw [List.append_assoc]
    rfl
  have hnorm : priceNormalize (rupee :: ((natToDigits a ++ '.' :: pad2 b) ++ cs " Lakh")) =
      rupee :: ((natToDigits a ++ '.' :: pad2 b) ++ cs " Lakh") := by
    apply priceNormalize_id
    · apply collapseWs_id
      apply noWsRun_nonws_cons false (by decide)
      exact noWsRun_append _ hnonws (by decide)
    · refine pyStrip_id 'h'
        ('k' :: 'a' :: 'L' :: ' ' :: ((natToDigits a ++ '.' :: pad2 b).reverse ++ ['₹']))
        rfl (by decide) ?_ (by decide)
      rw [show (rupee :: ((natToDigits a ++ '.' :: pad2 b) ++ cs " Lakh") :
          List Char).reverse =
        ((natToDigits a ++ '.' :: pad2 b) ++ cs " Lakh").reverse ++ ['₹'] from by
          rw [List.reverse_cons]; rfl]
      rw [List.reverse_append, List.append_assoc]
      rfl
    · apply suffClean_cons (phraseAt_safe _ (by decide) (by decide) (by decide) (by decide))
      exact suffClean_body _ hbody (by decide)
  have hcall : containsAnyLow callWords
      (rupee :: ((natToDigits a ++ '.' :: pad2 b) ++ cs " Lakh")) = false :=
    callFree_shape _ _ hbody (by decide)
  have hp1 : scanFirst p1At
      (rupee :: ((natToDigits a ++ '.' :: pad2 b) ++ cs " Lakh")) = none := by
    rw [show (rupee :: ((natToDigits a ++ '.' :: pad2 b) ++ cs " Lakh") : List Char) =
      '₹' :: ((natToDigits a ++ '.' :: pad2 b) ++ cs " Lakh") from rfl,
      scanFirst_cons_none (p1At_nondigit (by decide)), hassoc]
    rw [scanFirst_digits_skip (natToDigits a) hD ('.' :: (pad2 b ++ ' ' :: cs "Lakh"))
      (by
        intro ds2 hne2 hd2
        unfold p1At
        rw [matchNum_dot_sp ds2 (pad2 b) hne2 hd2 hP (cs "Lakh")]
        dsimp only
        rw [show skipWs (' ' :: cs "Lakh") = cs "Lakh" from by decide]
        apply tryAlts_none_of sepAlts
        intro a2 ha2
        simp only [sepAlts, List.mem_cons, List.not_mem_nil, or_false] at ha2
        rcases ha2 with rfl | rfl | rfl <;> decide)]
    rw [scanFirst_cons_none (p1At_nondigit (by decide))]
    rw [scanFirst_digits_skip (pad2 b) hP (' ' :: cs "Lakh")
      (by
        intro ds2 hne2 hd2
        unfold p1At
        rw [matchNum_sp ds2 hne2 hd2 (cs "Lakh")]
        dsimp only
        rw [show skipWs (' ' :: cs "Lakh") = cs "Lakh" from by decide]
        apply tryAlts_none_of sepAlts
        intro a2 ha2
        simp only [sepAlts, List.mem_cons, List.not_mem_nil, or_false] at ha2
        rcases ha2 with rfl | rfl | rfl <;> decide)]
    decide
  have hp2core : p2At ((natToDigits a ++ '.' :: pad2 b) ++ cs " Lakh") =
      some (⟨natToDigits a, true, pad2 b⟩, cs "Lakh") := by
    rw [hassoc]
    unfold p2At
    rw [matchNum_dot_sp (natToDigits a) (pad2 b) hDne hD hP (cs "Lakh")]
    dsimp only
    rw [show skipWs (' ' :: cs "Lakh") = cs "Lakh" from by decide]
    rfl
  have hp2 : scanFirst p2At
      (rupee :: ((natToDigits a ++ '.' :: pad2 b) ++ cs " Lakh")) =
      some (⟨natToDigits a, true, pad2 b⟩, cs "Lakh") := by
    rw [show (rupee :: ((natToDigits a ++ '.' :: pad2 b) ++ cs " Lakh") : List Char) =
      '₹' :: ((natToDigits a ++ '.' :: pad2 b) ++ cs " Lakh") from rfl,
      scanFirst_cons_none (p2At_nondigit (by decide))]
    obtain ⟨d, dt, hDeq⟩ : ∃ d dt, natToDigits a = d :: dt := by
      cases hD2 : natToDigits a with
      | nil => exact absurd hD2 hDne
      | cons d dt => exact ⟨d, dt, rfl⟩
    rw [hDeq, List.cons_append, List.cons_append]
    apply scanFirst_cons_some
    rw [← List.cons_append, ← List.cons_append, ← hDeq]
    exact hp2core
  have hval : (⟨natToDigits a, true, pad2 b⟩ : NumLit).toVal = ⟨a * 100 + b, 2⟩ := by
    unfold NumLit.toVal
    dsimp only
    rw [hPlen, hDval, hPval]
    norm_num
  have hout : unitFormat (⟨natToDigits a, true, pad2 b⟩ : NumLit).toVal (cs "Lakh") =
      some (rupee :: ((natToDigits a ++ '.' :: pad2 b) ++ cs " Lakh")) := by
    rw [hval]
    unfold unitFormat
    rw [if_neg (by decide), if_pos (by decide)]
    rw [fix2_exact a b hb]
  exact cleanPriceCore_p2 _ (by rwa [hnorm]) (by rwa [hnorm]) _ _ (by rwa [hnorm]) hout


theorem numText_chars (x : NumLit) (hx : numShape x) :
    ∀ c ∈ x.text, isDigitCh c = true ∨ c = '.' := by
  obtain ⟨-, hipd, hfpd, -⟩ := hx
  intro c hc
  unfold NumLit.text at hc
  rcases List.mem_append.mp hc with hc2 | hc2
  · exact Or.inl (hipd c hc2)
  · by_cases hd : x.hasDot = true
    · rw [if_pos hd] at hc2
      rcases List.mem_cons.mp hc2 with rfl | hc3
      · exact Or.inr rfl
      · exact Or.inl (hfpd c hc3)
    · rw [if_neg hd] at hc2
      simp at hc2

theorem numText_head (x : NumLit) (hx : numShape x) :
    ∃ j t, x.text = j :: t ∧ isDigitCh j = true := by
  obtain ⟨hne, hd, -, -⟩ := hx
  cases hip : x.intPart with
  | nil => exact absurd hip hne
  | cons j it =>
    refine ⟨j, it ++ (if x.hasDot then '.' :: x.fracPart else []), ?_, ?_⟩
    · unfold NumLit.text
      rw [hip, List.cons_append]
    · exact hd j (by rw [hip]; simp)

theorem pyStrip_rupee (pre tail : List Char) (c0 : Char) (t0 : List Char)
    (hrt : tail.reverse = c0 :: t0) (hc0 : isWsCh c0 = false) :
    pyStrip ('₹' :: (pre ++ tail)) = '₹' :: (pre ++ tail) := by
  apply pyStrip_id c0 (t0 ++ (pre.reverse ++ ['₹'])) rfl (by decide)
  · rw [show ('₹' :: (pre ++ tail) : List Char).reverse =
      (pre ++ tail).reverse ++ ['₹'] from by rw [List.reverse_cons]]
    rw [List.reverse_append, hrt]
    simp [List.append_assoc]
  · exact hc0

/-- A range output "₹X - Y Crore" is reproduced verbatim by the normalizer. -/
theorem fpRangeCrore (x y : NumLit) (hx : numShape x) (hy : numShape y) :
    cleanPriceCore (rupee :: (x.text ++ cs " - " ++ y.text ++ ' ' :: cs "Crore")) =
      rupee :: (x.text ++ cs " - " ++ y.text ++ ' ' :: cs "Crore") := by
  have hxc := numText_chars x hx
  have hyc := numText_chars y hy
  have hxb : ∀ c ∈ x.text, priceBodyCh c = true := by
    intro c hc
    rcases hxc c hc with hd | rfl
    · simp [priceBodyCh, hd]
    · decide
  have hyb : ∀ c ∈ y.text, priceBodyCh c = true := by
    intro c hc
    rcases hyc c hc with hd | rfl
    · simp [priceBodyCh, hd]
    · decide
  have hxnws : ∀ c ∈ x.text, isWsCh c = false := fun c hc => body_not_ws (hxc c hc)
  have hynws : ∀ c ∈ y.text, isWsCh c = false := fun c hc => body_not_ws (hyc c hc)
  have hpre : ∀ c ∈ x.text ++ (cs " - " ++ y.text), priceBodyCh c = true := by
    intro c hc
    rcases List.mem_append.mp hc with hc2 | hc2
    · exact hxb c hc2
    · rcases List.mem_append.mp hc2 with hc3 | hc3
      · rcases List.mem_cons.mp hc3 with rfl | hc4
        · decide
        · rcases List.mem_cons.mp hc4 with rfl | hc5
          · decide
          · rcases List.mem_cons.mp hc5 with rfl | hc6
            · decide
            · simp at hc6
      · exact hyb c hc3
  have hshape : (x.text ++ (cs " - " ++ y.text)) ++ (' ' :: cs "Crore") =
      x.text ++ cs " - " ++ y.text ++ ' ' :: cs "Crore" := by
    simp only [List.append_assoc]
  have hT : (x.text ++ cs " - " ++ y.text ++ ' ' :: cs "Crore" : List Char) =
      x.text ++ (' ' :: '-' :: ' ' :: (y.text ++ (' ' :: cs "Crore"))) := by
    simp only [List.append_assoc]
    rfl
  have hnorm : priceNormalize
      (rupee :: (x.text ++ cs " - " ++ y.text ++ ' ' :: cs "Crore")) =
      rupee :: (x.text ++ cs " - " ++ y.text ++ ' ' :: cs "Crore") := by
    apply priceNormalize_id
    · apply collapseWs_id
      apply noWsRun_nonws_cons false (by decide)
      rw [hT]
      have h5 : noWsRun false (y.text ++ (' ' :: cs "Crore")) = true :=
        noWsRun_append _ hynws (by decide)
      have h4 : noWsRun false (' ' :: (y.text ++ (' ' :: cs "Crore"))) = true := by
        obtain ⟨j, yt, hyeq, hjd⟩ := numText_head y hy
        rw [hyeq, List.cons_append] at h5 ⊢
        exact noWsRun_space (digit_not_ws hjd) h5
      have h3 : noWsRun false ('-' :: ' ' :: (y.text ++ (' ' :: cs "Crore"))) = true :=
        noWsRun_nonws_cons false (by decide) h4
      have h2 : noWsRun false (' ' :: '-' :: ' ' :: (y.text ++ (' ' :: cs "Crore"))) = true :=
        noWsRun_space (by decide) h3
      exact noWsRun_append _ hxnws h2
    · have h := pyStrip_rupee (x.text ++ (cs " - " ++ y.text)) (' ' :: cs "Crore")
        'e' ['r', 'o', 'r', 'C', ' '] (by decide) (by decide)
      rwa [hshape] at h
    · apply suffClean_cons (phraseAt_safe _ (by decide) (by decide) (by decide) (by decide))
      rw [hT]
      have h5 : suffClean (y.text ++ (' ' :: cs "Crore")) = true :=
        suffClean_body y.text hyb (by decide)
      have h4 : suffClean (' ' :: (y.text ++ (' ' :: cs "Crore"))) = true :=
        suffClean_cons (phraseAt_safe _ (by decide) (by decide) (by decide) (by decide)) h5
      have h3 : suffClean ('-' :: ' ' :: (y.text ++ (' ' :: cs "Crore"))) = true :=
        suffClean_cons (phraseAt_safe _ (by decide) (by decide) (by decide) (by decide)) h4
      have h2 : suffClean (' ' :: '-' :: ' ' :: (y.text ++ (' ' :: cs "Crore"))) = true :=
        suffClean_cons (phraseAt_safe _ (by decide) (by decide) (by decide) (by decide)) h3
      exact suffClean_body x.text hxb h2
  have hcall : containsAnyLow callWords
      (rupee :: (x.text ++ cs " - " ++ y.text ++ ' ' :: cs "Crore")) = false := by
    have h := callFree_shape (x.text ++ (cs " - " ++ y.text)) (' ' :: cs "Crore")
      hpre (by decide)
    rwa [hshape] at h
  have hp1core : p1At (x.text ++ (' ' :: '-' :: ' ' :: (y.text ++ (' ' :: cs "Crore")))) =
      some (x, y, cs "Crore") := by
    unfold p1At
    rw [matchNum_text x hx ('-' :: ' ' :: (y.text ++ (' ' :: cs "Crore")))]
    dsimp only
    rw [show skipWs (' ' :: '-' :: ' ' :: (y.text ++ (' ' :: cs "Crore"))) =
      '-' :: ' ' :: (y.text ++ (' ' :: cs "Crore")) from skipWs_space (by decide)]
    apply tryAlts_head_some ['-'] (' ' :: (y.text ++ (' ' :: cs "Crore")))
    · rw [show (cs "-" : List Char) = ['-'] from rfl, ciStarts, if_pos rfl]
      rfl
    · dsimp only
      obtain ⟨j2, yt2, hyeq, hjd2⟩ := numText_head y hy
      rw [show skipWs (' ' :: (y.text ++ (' ' :: cs "Crore"))) =
        y.text ++ (' ' :: cs "Crore") from by
          rw [hyeq, List.cons_append]
          exact skipWs_space (digit_not_ws hjd2)]
      rw [matchNum_text y hy (cs "Crore")]
      dsimp only
      rw [show skipWs (' ' :: cs "Crore") = cs "Crore" from by decide]
      rfl
  have hp1 : scanFirst p1At
      (rupee :: (x.text ++ cs " - " ++ y.text ++ ' ' :: cs "Crore")) =
      some (x, y, cs "Crore") := by
    rw [show (rupee :: (x.text ++ cs " - " ++ y.text ++ ' ' :: cs "Crore") : List Char) =
      '₹' :: (x.text ++ cs " - " ++ y.text ++ ' ' :: cs "Crore") from rfl,
      scanFirst_cons_none (p1At_nondigit (by decide)), hT]
    obtain ⟨j, xt, hxeq, hjd⟩ := numText_head x hx
    rw [hxeq, List.cons_append]
    apply scanFirst_cons_some
    rw [← List.cons_append, ← hxeq]
    exact hp1core
  have h := cleanPriceCore_p1 _ (by rwa [hnorm]) (by rwa [hnorm] : scanFirst p1At
    (priceNormalize (rupee :: (x.text ++ cs " - " ++ y.text ++ ' ' :: cs "Crore"))) =
    some (x, y, cs "Crore"))
  rwa [show pyTitle (cs "Crore") = cs "Crore" from by decide] at h

/-- A range output "₹X - Y Cr" is reproduced verbatim by the normalizer. -/
theorem fpRangeCr (x y : NumLit) (hx : numShape x) (hy : numShape y) :
    cleanPriceCore (rupee :: (x.text ++ cs " - " ++ y.text ++ ' ' :: cs "Cr")) =
      rupee :: (x.text ++ cs " - " ++ y.text ++ ' ' :: cs "Cr") := by
  have hxc := numText_chars x hx
  have hyc := numText_chars y hy
  have hxb : ∀ c ∈ x.text, priceBodyCh c = true := by
    intro c hc
    rcases hxc c hc with hd | rfl
    · simp [priceBodyCh, hd]
    · decide
  have hyb : ∀ c ∈ y.text, priceBodyCh c = true := by
    intro c hc
    rcases hyc c hc with hd | rfl
    · simp [priceBodyCh, hd]
    · decide
  have hxnws : ∀ c ∈ x.text, isWsCh c = false := fun c hc => body_not_ws (hxc c hc)
  have hynws : ∀ c ∈ y.text, isWsCh c = false := fun c hc => body_not_ws (hyc c hc)
  have hpre : ∀ c ∈ x.text ++ (cs " - " ++ y.text), priceBodyCh c = true := by
    intro c hc
    rcases List.mem_append.mp hc with hc2 | hc2
    · exact hxb c hc2
    · rcases List.mem_append.mp hc2 with hc3 | hc3
      · rcases List.mem_cons.mp hc3 with rfl | hc4
        · decide
        · rcases List.mem_cons.mp hc4 with rfl | hc5
          · decide
          · rcases List.mem_cons.mp hc5 with rfl | hc6
            · decide
            · simp at hc6
      · exact hyb c hc3
  have hshape : (x.text ++ (cs " - " ++ y.text)) ++ (' ' :: cs "Cr") =
      x.text ++ cs " - " ++ y.text ++ ' ' :: cs "Cr" := by
    simp only [List.append_assoc]
  have hT : (x.text ++ cs " - " ++ y.text ++ ' ' :: cs "Cr" : List Char) =
      x.text ++ (' ' :: '-' :: ' ' :: (y.text ++ (' ' :: cs "Cr"))) := by
    simp only [List.append_assoc]
    rfl
  have hnorm : priceNormalize
      (rupee :: (x.text ++ cs " - " ++ y.text ++ ' ' :: cs "Cr")) =
      rupee :: (x.text ++ cs " - " ++ y.text ++ ' ' :: cs "Cr") := by
    apply priceNormalize_id
    · apply collapseWs_id
      apply noWsRun_nonws_cons false (by decide)
      rw [hT]
      have h5 : noWsRun false (y.text ++ (' ' :: cs "Cr")) = true :=
        noWsRun_append _ hynws (by decide)
      have h4 : noWsRun false (' ' :: (y.text ++ (' ' :: cs "Cr"))) = true := by
        obtain ⟨j, yt, hyeq, hjd⟩ := numText_head y hy
        rw [hyeq, List.cons_append] at h5 ⊢
        exact noWsRun_space (digit_not_ws hjd) h5
      have h3 : noWsRun false ('-' :: ' ' :: (y.text ++ (' ' :: cs "Cr"))) = true :=
        noWsRun_nonws_cons false (by decide) h4
      have h2 : noWsRun false (' ' :: '-' :: ' ' :: (y.text ++ (' ' :: cs "Cr"))) = true :=
        noWsRun_space (by decide) h3
      exact noWsRun_append _ hxnws h2
    · have h := pyStrip_rupee (x.text ++ (cs " - " ++ y.text)) (' ' :: cs "Cr")
        'r' ['C', ' '] (by decide) (by decide)
      rwa [hshape] at h
    · apply suffClean_cons (phraseAt_safe _ (by decide) (by decide) (by decide) (by decide))
      rw [hT]
      have h5 : suffClean (y.text ++ (' ' :: cs "Cr")) = true :=
        suffClean_body y.text hyb (by decide)
      have h4 : suffClean (' ' :: (y.text ++ (' ' :: cs "Cr"))) = true :=
        suffClean_cons (phraseAt_safe _ (by decide) (by decide) (by decide) (by decide)) h5
      have h3 : suffClean ('-' :: ' ' :: (y.text ++ (' ' :: cs "Cr"))) = true :=
        suffClean_cons (phraseAt_safe _ (by decide) (by decide) (by decide) (by decide)) h4
      have h2 : suffClean (' ' :: '-' :: ' ' :: (y.text ++ (' ' :: cs "Cr"))) = true :=
        suffClean_cons (phraseAt_safe _ (by decide) (by decide) (by decide) (by decide)) h3
      exact suffClean_body x.text hxb h2
  have hcall : containsAnyLow callWords
      (rupee :: (x.text ++ cs " - " ++ y.text ++ ' ' :: cs "Cr")) = false := by
    have h := callFree_shape (x.text ++ (cs " - " ++ y.text)) (' ' :: cs "Cr")
      hpre (by decide)
    rwa [hshape] at h
  have hp1core : p1At (x.text ++ (' ' :: '-' :: ' ' :: (y.text ++ (' ' :: cs "Cr")))) =
      some (x, y, cs "Cr") := by
    unfold p1At
    rw [matchNum_text x hx ('-' :: ' ' :: (y.text ++ (' ' :: cs "Cr")))]
    dsimp only
    rw [show skipWs (' ' :: '-' :: ' ' :: (y.text ++ (' ' :: cs "Cr"))) =
      '-' :: ' ' :: (y.text ++ (' ' :: cs "Cr")) from skipWs_space (by decide)]
    apply tryAlts_head_some ['-'] (' ' :: (y.text ++ (' ' :: cs "Cr")))
    · rw [show (cs "-" : List Char) = ['-'] from rfl, ciStarts, if_pos rfl]
      rfl
    · dsimp only
      obtain ⟨j2, yt2, hyeq, hjd2⟩ := numText_head y hy
      rw [show skipWs (' ' :: (y.text ++ (' ' :: cs "Cr"))) =
        y.text ++ (' ' :: cs "Cr") from by
          rw [hyeq, List.cons_append]
          exact skipWs_space (digit_not_ws hjd2)]
      rw [matchNum_text y hy (cs "Cr")]
      dsimp only
      rw [show skipWs (' ' :: cs "Cr") = cs "Cr" from by decide]
      rfl
  have hp1 : scanFirst p1At
      (rupee :: (x.text ++ cs " - " ++ y.text ++ ' ' :: cs "Cr")) =
      some (x, y, cs "Cr") := by
    rw [show (rupee :: (x.text ++ cs " - " ++ y.text ++ ' ' :: cs "Cr") : List Char) =
      '₹' :: (x.text ++ cs " - " ++ y.text ++ ' ' :: cs "Cr") from rfl,
      scanFirst_cons_none (p1At_nondigit (by decide)), hT]
    obtain ⟨j, xt, hxeq, hjd⟩ := numText_head x hx
    rw [hxeq, List.cons_append]
    apply scanFirst_cons_some
    rw [← List.cons_append, ← hxeq]
    exact hp1core
  have h := cleanPriceCore_p1 _ (by rwa [hnorm]) (by rwa [hnorm] : scanFirst p1At
    (priceNormalize (rupee :: (x.text ++ cs " - " ++ y.text ++ ' ' :: cs "Cr"))) =
    some (x, y, cs "Cr"))
  rwa [show pyTitle (cs "Cr") = cs "Cr" from by decide] at h

/-- A range output "₹X - Y Lakh" is reproduced verbatim by the normalizer. -/
theorem fpRangeLakh (x y : NumLit) (hx : numShape x) (hy : numShape y) :
    cleanPriceCore (rupee :: (x.text ++ cs " - " ++ y.text ++ ' ' :: cs "Lakh")) =
      rupee :: (x.text ++ cs " - " ++ y.text ++ ' ' :: cs "Lakh") := by
  have hxc := numText_chars x hx
  have hyc := numText_chars y hy
  have hxb : ∀ c ∈ x.text, priceBodyCh c = true := by
    intro c hc
    rcases hxc c hc with hd | rfl
    · simp [priceBodyCh, hd]
    · decide
  have hyb : ∀ c ∈ y.text, priceBodyCh c = true := by
    intro c hc
    rcases hyc c hc with hd | rfl
    · simp [priceBodyCh, hd]
    · decide
  have hxnws : ∀ c ∈ x.text, isWsCh c = false := fun c hc => body_not_ws (hxc c hc)
  have hynws : ∀ c ∈ y.text, isWsCh c = false := fun c hc => body_not_ws (hyc c hc)
  have hpre : ∀ c ∈ x.text ++ (cs " - " ++ y.text), priceBodyCh c = true := by
    intro c hc
    rcases List.mem_append.mp hc with hc2 | hc2
    · exact hxb c hc2
    · rcases List.mem_append.mp hc2 with hc3 | hc3
      · rcases List.mem_cons.mp hc3 with rfl | hc4
        · decide
        · rcases List.mem_cons.mp hc4 with rfl | hc5
          · decide
          · rcases List.mem_cons.mp hc5 with rfl | hc6
            · decide
            · simp at hc6
      · exact hyb c hc3
  have hshape : (x.text ++ (cs " - " ++ y.text)) ++ (' ' :: cs "Lakh") =
      x.text ++ cs " - " ++ y.text ++ ' ' :: cs "Lakh" := by
    simp only [List.append_assoc]
  have hT : (x.text ++ cs " - " ++ y.text ++ ' ' :: cs "Lakh" : List Char) =
      x.text ++ (' ' :: '-' :: ' ' :: (y.text ++ (' ' :: cs "Lakh"))) := by
    simp only [List.append_assoc]
    rfl
  have hnorm : priceNormalize
      (rupee :: (x.text ++ cs " - " ++ y.text ++ ' ' :: cs "Lakh")) =
      rupee :: (x.text ++ cs " - " ++ y.text ++ ' ' :: cs "Lakh") := by
    apply priceNormalize_id
    · apply collapseWs_id
      apply noWsRun_nonws_cons false (by decide)
      rw [hT]
      have h5 : noWsRun false (y.text ++ (' ' :: cs "Lakh")) = true :=
        noWsRun_append _ hynws (by decide)
      have h4 : noWsRun false (' ' :: (y.text ++ (' ' :: cs "Lakh"))) = true := by
        obtain ⟨j, yt, hyeq, hjd⟩ := numText_head y hy
        rw [hyeq, List.cons_append] at h5 ⊢
        exact noWsRun_space (digit_not_ws hjd) h5
      have h3 : noWsRun false ('-' :: ' ' :: (y.text ++ (' ' :: cs "Lakh"))) = true :=
        noWsRun_nonws_cons false (by decide) h4
      have h2 : noWsRun false (' ' :: '-' :: ' ' :: (y.text ++ (' ' :: cs "Lakh"))) = true :=
        noWsRun_space (by decide) h3
      exact noWsRun_append _ hxnws h2
    · have h := pyStrip_rupee (x.text ++ (cs " - " ++ y.text)) (' ' :: cs "Lakh")
        'h' ['k', 'a', 'L', ' '] (by decide) (by decide)
      rwa [hshape] at h
    · apply suffClean_cons (phraseAt_safe _ (by decide) (by decide) (by decide) (by decide))
      rw [hT]
      have h5 : suffClean (y.text ++ (' ' :: cs "Lakh")) = true :=
        suffClean_body y.text hyb (by decide)
      have h4 : suffClean (' ' :: (y.text ++ (' ' :: cs "Lakh"))) = true :=
        suffClean_cons (phraseAt_safe _ (by decide) (by decide) (by decide) (by decide)) h5
      have h3 : suffClean ('-' :: ' ' :: (y.text ++ (' ' :: cs "Lakh"))) = true :=
        suffClean_cons (phraseAt_safe _ (by decide) (by decide) (by decide) (by decide)) h4
      have h2 : suffClean (' ' :: '-' :: ' ' :: (y.text ++ (' ' :: cs "Lakh"))) = true :=
        suffClean_cons (phraseAt_safe _ (by decide) (by decide) (by decide) (by decide)) h3
      exact suffClean_body x.text hxb h2
  have hcall : containsAnyLow callWords
      (rupee :: (x.text ++ cs " - " ++ y.text ++ ' ' :: cs "Lakh")) = false := by
    have h := callFree_shape (x.text ++ (cs " - " ++ y.text)) (' ' :: cs "Lakh")
      hpre (by decide)
    rwa [hshape] at h
  have hp1core : p1At (x.text ++ (' ' :: '-' :: ' ' :: (y.text ++ (' ' :: cs "Lakh")))) =
      some (x, y, cs "Lakh") := by
    unfold p1At
    rw [matchNum_text x hx ('-' :: ' ' :: (y.text ++ (' ' :: cs "Lakh")))]
    dsimp only
    rw [show skipWs (' ' :: '-' :: ' ' :: (y.text ++ (' ' :: cs "Lakh"))) =
      '-' :: ' ' :: (y.text ++ (' ' :: cs "Lakh")) from skipWs_space (by decide)]
    apply tryAlts_head_some ['-'] (' ' :: (y.text ++ (' ' :: cs "Lakh")))
    · rw [show (cs "-" : List Char) = ['-'] from rfl, ciStarts, if_pos rfl]
      rfl
    · dsimp only
      obtain ⟨j2, yt2, hyeq, hjd2⟩ := numText_head y hy
      rw [show skipWs (' ' :: (y.text ++ (' ' :: cs "Lakh"))) =
        y.text ++ (' ' :: cs "Lakh") from by
          rw [hyeq, List.cons_append]
          exact skipWs_space (digit_not_ws hjd2)]
      rw [matchNum_text y hy (cs "Lakh")]
      dsimp only
      rw [show skipWs (' ' :: cs "Lakh") = cs "Lakh" from by decide]
      rfl
  have hp1 : scanFirst p1At
      (rupee :: (x.text ++ cs " - " ++ y.text ++ ' ' :: cs "Lakh")) =
      some (x, y, cs "Lakh") := by
    rw [show (rupee :: (x.text ++ cs " - " ++ y.text ++ ' ' :: cs "Lakh") : List Char) =
      '₹' :: (x.text ++ cs " - " ++ y.text ++ ' ' :: cs "Lakh") from rfl,
      scanFirst_cons_none (p1At_nondigit (by decide)), hT]
    obtain ⟨j, xt, hxeq, hjd⟩ := numText_head x hx
    rw [hxeq, List.cons_append]
    apply scanFirst_cons_some
    rw [← List.cons_append, ← hxeq]
    exact hp1core
  have h := cleanPriceCore_p1 _ (by rwa [hnorm]) (by rwa [hnorm] : scanFirst p1At
    (priceNormalize (rupee :: (x.text ++ cs " - " ++ y.text ++ ' ' :: cs "Lakh"))) =
    some (x, y, cs "Lakh"))
  rwa [show pyTitle (cs "Lakh") = cs "Lakh" from by decide] at h

/-- A range output "₹X - Y Lac" is reproduced verbatim by the normalizer. -/
theorem fpRangeLac (x y : NumLit) (hx : numShape x) (hy : numShape y) :
    cleanPriceCore (rupee :: (x.text ++ cs " - " ++ y.text ++ ' ' :: cs "Lac")) =
      rupee :: (x.text ++ cs " - " ++ y.text ++ ' ' :: cs "Lac") := by
  have hxc := numText_chars x hx
  have hyc := numText_chars y hy
  have hxb : ∀ c ∈ x.text, priceBodyCh c = true := by
    intro c hc
    rcases hxc c hc with hd | rfl
    · simp [priceBodyCh, hd]
    · decide
  have hyb : ∀ c ∈ y.text, priceBodyCh c = true := by
    intro c hc
    rcases hyc c hc with hd | rfl
    · simp [priceBodyCh, hd]
    · decide
  have hxnws : ∀ c ∈ x.text, isWsCh c = false := fun c hc => body_not_ws (hxc c hc)
  have hynws : ∀ c ∈ y.text, isWsCh c = false := fun c hc => body_not_ws (hyc c hc)
  have hpre : ∀ c ∈ x.text ++ (cs " - " ++ y.text), priceBodyCh c = true := by
    intro c hc
    rcases List.mem_append.mp hc with hc2 | hc2
    · exact hxb c hc2
    · rcases List.mem_append.mp hc2 with hc3 | hc3
      · rcases List.mem_cons.mp hc3 with rfl | hc4
        · decide
        · rcases List.mem_cons.mp hc4 with rfl | hc5
          · decide
          · rcases List.mem_cons.mp hc5 with rfl | hc6
            · decide
            · simp at hc6
      · exact hyb c hc3
  have hshape : (x.text ++ (cs " - " ++ y.text)) ++ (' ' :: cs "Lac") =
      x.text ++ cs " - " ++ y.text ++ ' ' :: cs "Lac" := by
    simp only [List.append_assoc]
  have hT : (x.text ++ cs " - " ++ y.text ++ ' ' :: cs "Lac" : List Char) =
      x.text ++ (' ' :: '-' :: ' ' :: (y.text ++ (' ' :: cs "Lac"))) := by
    simp only [List.append_assoc]
    rfl
  have hnorm : priceNormalize
      (rupee :: (x.text ++ cs " - " ++ y.text ++ ' ' :: cs "Lac")) =
      rupee :: (x.text ++ cs " - " ++ y.text ++ ' ' :: cs "Lac") := by
    apply priceNormalize_id
    · apply collapseWs_id
      apply noWsRun_nonws_cons false (by decide)
      rw [hT]
      have h5 : noWsRun false (y.text ++ (' ' :: cs "Lac")) = true :=
        noWsRun_append _ hynws (by decide)
      have h4 : noWsRun false (' ' :: (y.text ++ (' ' :: cs "Lac"))) = true := by
        obtain ⟨j, yt, hyeq, hjd⟩ := numText_head y hy
        rw [hyeq, List.cons_append] at h5 ⊢
        exact noWsRun_space (digit_not_ws hjd) h5
      have h3 : noWsRun false ('-' :: ' ' :: (y.text ++ (' ' :: cs "Lac"))) = true :=
        noWsRun_nonws_cons false (by decide) h4
      have h2 : noWsRun false (' ' :: '-' :: ' ' :: (y.text ++ (' ' :: cs "Lac"))) = true :=
        noWsRun_space (by decide) h3
      exact noWsRun_append _ hxnws h2
    · have h := pyStrip_rupee (x.text ++ (cs " - " ++ y.text)) (' ' :: cs "Lac")
        'c' ['a', 'L', ' '] (by decide) (by decide)
      rwa [hshape] at h
    · apply suffClean_cons (phraseAt_safe _ (by decide) (by decide) (by decide) (by decide))
      rw [hT]
      have h5 : suffClean (y.text ++ (' ' :: cs "Lac")) = true :=
        suffClean_body y.text hyb (by decide)
      have h4 : suffClean (' ' :: (y.text ++ (' ' :: cs "Lac"))) = true :=
        suffClean_cons (phraseAt_safe _ (by decide) (by decide) (by decide) (by decide)) h5
      have h3 : suffClean ('-' :: ' ' :: (y.text ++ (' ' :: cs "Lac"))) = true :=
        suffClean_cons (phraseAt_safe _ (by decide) (by decide) (by decide) (by decide)) h4
      have h2 : suffClean (' ' :: '-' :: ' ' :: (y.text ++ (' ' :: cs "Lac"))) = true :=
        suffClean_cons (phraseAt_safe _ (by decide) (by decide) (by decide) (by decide)) h3
      exact suffClean_body x.text hxb h2
  have hcall : containsAnyLow callWords
      (rupee :: (x.text ++ cs " - " ++ y.text ++ ' ' :: cs "Lac")) = false := by
    have h := callFree_shape (x.text ++ (cs " - " ++ y.text)) (' ' :: cs "Lac")
      hpre (by decide)
    rwa [hshape] at h
  have hp1core : p1At (x.text ++ (' ' :: '-' :: ' ' :: (y.text ++ (' ' :: cs "Lac")))) =
      some (x, y, cs "Lac") := by
    unfold p1At
    rw [matchNum_text x hx ('-' :: ' ' :: (y.text ++ (' ' :: cs "Lac")))]
    dsimp only
    rw [show skipWs (' ' :: '-' :: ' ' :: (y.text ++ (' ' :: cs "Lac"))) =
      '-' :: ' ' :: (y.text ++ (' ' :: cs "Lac")) from skipWs_space (by decide)]
    apply tryAlts_head_some ['-'] (' ' :: (y.text ++ (' ' :: cs "Lac")))
    · rw [show (cs "-" : List Char) = ['-'] from rfl, ciStarts, if_pos rfl]
      rfl
    · dsimp only
      obtain ⟨j2, yt2, hyeq, hjd2⟩ := numText_head y hy
      rw [show skipWs (' ' :: (y.text ++ (' ' :: cs "Lac"))) =
        y.text ++ (' ' :: cs "Lac") from by
          rw [hyeq, List.cons_append]
          exact skipWs_space (digit_not_ws hjd2)]
      rw [matchNum_text y hy (cs "Lac")]
      dsimp only
      rw [show skipWs (' ' :: cs "Lac") = cs "Lac" from by decide]
      rfl
  have hp1 : scanFirst p1At
      (rupee :: (x.text ++ cs " - " ++ y.text ++ ' ' :: cs "Lac")) =
      some (x, y, cs "Lac") := by
    rw [show (rupee :: (x.text ++ cs " - " ++ y.text ++ ' ' :: cs "Lac") : List Char) =
      '₹' :: (x.text ++ cs " - " ++ y.text ++ ' ' :: cs "Lac") from rfl,
      scanFirst_cons_none (p1At_nondigit (by decide)), hT]
    obtain ⟨j, xt, hxeq, hjd⟩ := numText_head x hx
    rw [hxeq, List.cons_append]
    apply scanFirst_cons_some
    rw [← List.cons_append, ← hxeq]
    exact hp1core
  have h := cleanPriceCore_p1 _ (by rwa [hnorm]) (by rwa [hnorm] : scanFirst p1At
    (priceNormalize (rupee :: (x.text ++ cs " - " ++ y.text ++ ' ' :: cs "Lac"))) =
    some (x, y, cs "Lac"))
  rwa [show pyTitle (cs "Lac") = cs "Lac" from by decide] at h

/-- A range output "₹X - Y L" is reproduced verbatim by the normalizer. -/
theorem fpRangeL (x y : NumLit) (hx : numShape x) (hy : numShape y) :
    cleanPriceCore (rupee :: (x.text ++ cs " - " ++ y.text ++ ' ' :: cs "L")) =
      rupee :: (x.text ++ cs " - " ++ y.text ++ ' ' :: cs "L") := by
  have hxc := numText_chars x hx
  have hyc := numText_chars y hy
  have hxb : ∀ c ∈ x.text, priceBodyCh c = true := by
    intro c hc
    rcases hxc c hc with hd | rfl
    · simp [priceBodyCh, hd]
    · decide
  have hyb : ∀ c ∈ y.text, priceBodyCh c = true := by
    intro c hc
    rcases hyc c hc with hd | rfl
    · simp [priceBodyCh, hd]
    · decide
  have hxnws : ∀ c ∈ x.text, isWsCh c = false := fun c hc => body_not_ws (hxc c hc)
  have hynws : ∀ c ∈ y.text, isWsCh c = false := fun c hc => body_not_ws (hyc c hc)
  have hpre : ∀ c ∈ x.text ++ (cs " - " ++ y.text), priceBodyCh c = true := by
    intro c hc
    rcases List.mem_append.mp hc with hc2 | hc2
    · exact hxb c hc2
    · rcases List.mem_append.mp hc2 with hc3 | hc3
      · rcases List.mem_cons.mp hc3 with rfl | hc4
        · decide
        · rcases List.mem_cons.mp hc4 with rfl | hc5
          · decide
          · rcases List.mem_cons.mp hc5 with rfl | hc6
            · decide
            · simp at hc6
      · exact hyb c hc3
  have hshape : (x.text ++ (cs " - " ++ y.text)) ++ (' ' :: cs "L") =
      x.text ++ cs " - " ++ y.text ++ ' ' :: cs "L" := by
    simp only [List.append_assoc]
  have hT : (x.text ++ cs " - " ++ y.text ++ ' ' :: cs "L" : List Char) =
      x.text ++ (' ' :: '-' :: ' ' :: (y.text ++ (' ' :: cs "L"))) := by
    simp only [List.append_assoc]
    rfl
  have hnorm : priceNormalize
      (rupee :: (x.text ++ cs " - " ++ y.text ++ ' ' :: cs "L")) =
      rupee :: (x.text ++ cs " - " ++ y.text ++ ' ' :: cs "L") := by
    apply priceNormalize_id
    · apply collapseWs_id
      apply noWsRun_nonws_cons false (by decide)
      rw [hT]
      have h5 : noWsRun false (y.text ++ (' ' :: cs "L")) = true :=
        noWsRun_append _ hynws (by decide)
      have h4 : noWsRun false (' ' :: (y.text ++ (' ' :: cs "L"))) = true := by
        obtain ⟨j, yt, hyeq, hjd⟩ := numText_head y hy
        rw [hyeq, List.cons_append] at h5 ⊢
        exact noWsRun_space (digit_not_ws hjd) h5
      have h3 : noWsRun false ('-' :: ' ' :: (y.text ++ (' ' :: cs "L"))) = true :=
        noWsRun_nonws_cons false (by decide) h4
      have h2 : noWsRun false (' ' :: '-' :: ' ' :: (y.text ++ (' ' :: cs "L"))) = true :=
        noWsRun_space (by decide) h3
      exact noWsRun_append _ hxnws h2
    · have h := pyStrip_rupee (x.text ++ (cs " - " ++ y.text)) (' ' :: cs "L")
        'L' [' '] (by decide) (by decide)
      rwa [hshape] at h
    · apply suffClean_cons (phraseAt_safe _ (by decide) (by decide) (by decide) (by decide))
      rw [hT]
      have h5 : suffClean (y.text ++ (' ' :: cs "L")) = true :=
        suffClean_body y.text hyb (by decide)
      have h4 : suffClean (' ' :: (y.text ++ (' ' :: cs "L"))) = true :=
        suffClean_cons (phraseAt_safe _ (by decide) (by decide) (by decide) (by decide)) h5
      have h3 : suffClean ('-' :: ' ' :: (y.text ++ (' ' :: cs "L"))) = true :=
        suffClean_cons (phraseAt_safe _ (by decide) (by decide) (by decide) (by decide)) h4
      have h2 : suffClean (' ' :: '-' :: ' ' :: (y.text ++ (' ' :: cs "L"))) = true :=
        suffClean_cons (phraseAt_safe _ (by decide) (by decide) (by decide) (by decide)) h3
      exact suffClean_body x.text hxb h2
  have hcall : containsAnyLow callWords
      (rupee :: (x.text ++ cs " - " ++ y.text ++ ' ' :: cs "L")) = false := by
    have h := callFree_shape (x.text ++ (cs " - " ++ y.text)) (' ' :: cs "L")
      hpre (by decide)
    rwa [hshape] at h
  have hp1core : p1At (x.text ++ (' ' :: '-' :: ' ' :: (y.text ++ (' ' :: cs "L")))) =
      some (x, y, cs "L") := by
    unfold p1At
    rw [matchNum_text x hx ('-' :: ' ' :: (y.text ++ (' ' :: cs "L")))]
    dsimp only
    rw [show skipWs (' ' :: '-' :: ' ' :: (y.text ++ (' ' :: cs "L"))) =
      '-' :: ' ' :: (y.text ++ (' ' :: cs "L")) from skipWs_space (by decide)]
    apply tryAlts_head_some ['-'] (' ' :: (y.text ++ (' ' :: cs "L")))
    · rw [show (cs "-" : List Char) = ['-'] from rfl, ciStarts, if_pos rfl]
      rfl
    · dsimp only
      obtain ⟨j2, yt2, hyeq, hjd2⟩ := numText_head y hy
      rw [show skipWs (' ' :: (y.text ++ (' ' :: cs "L"))) =
        y.text ++ (' ' :: cs "L") from by
          rw [hyeq, List.cons_append]
          exact skipWs_space (digit_not_ws hjd2)]
      rw [matchNum_text y hy (cs "L")]
      dsimp only
      rw [show skipWs (' ' :: cs "L") = cs "L" from by decide]
      rfl
  have hp1 : scanFirst p1At
      (rupee :: (x.text ++ cs " - " ++ y.text ++ ' ' :: cs "L")) =
      some (x, y, cs "L") := by
    rw [show (rupee :: (x.text ++ cs " - " ++ y.text ++ ' ' :: cs "L") : List Char) =
      '₹' :: (x.text ++ cs " - " ++ y.text ++ ' ' :: cs "L") from rfl,
      scanFirst_cons_none (p1At_nondigit (by decide)), hT]
    obtain ⟨j, xt, hxeq, hjd⟩ := numText_head x hx
    rw [hxeq, List.cons_append]
    apply scanFirst_cons_some
    rw [← List.cons_append, ← hxeq]
    exact hp1core
  have h := cleanPriceCore_p1 _ (by rwa [hnorm]) (by rwa [hnorm] : scanFirst p1At
    (priceNormalize (rupee :: (x.text ++ cs " - " ++ y.text ++ ' ' :: cs "L"))) =
    some (x, y, cs "L"))
  rwa [show pyTitle (cs "L") = cs "L" from by decide] at h

/-- The failure literal is a fixed point of the normalizer. -/
theorem fpPNA : cleanPriceCore (cs "Price not available") = cs "Price not available" := by
  decide

/-- Any "₹n.dd Cr" output of the fixed-point formatter is reproduced. -/
theorem fpCrOut (v : Dec) :
    cleanPriceCore (rupee :: (fix2 v ++ cs " Cr")) = rupee :: (fix2 v ++ cs " Cr") := by
  rw [fix2_struct v]
  exact fpCr _ _ (Nat.mod_lt _ (by norm_num))

/-- Any "₹n.dd Lakh" output of the fixed-point formatter is reproduced. -/
theorem fpLakhOut (v : Dec) :
    cleanPriceCore (rupee :: (fix2 v ++ cs " Lakh")) = rupee :: (fix2 v ++ cs " Lakh") := by
  rw [fix2_struct v]
  exact fpLakh _ _ (Nat.mod_lt _ (by norm_num))

/-- Every comma-free output of the magnitude dispatch is a fixed point. -/
theorem fpMagnitude (v : Dec) (hcomma : ',' ∉ magnitudeFormat v) :
    cleanPriceCore (magnitudeFormat v) = magnitudeFormat v := by
  rcases magnitudeFormat_cases v with hm | hm | hm <;> rw [hm]
  · exact fpCrOut _
  · exact fpLakhOut _
  · rw [hm] at hcomma
    have hcm : ',' ∉ group3 (rheD v) := by
      intro hmem
      exact hcomma (List.mem_cons_of_mem _ hmem)
    have hlt : rheD v < 1000 := by
      by_contra hge
      exact hcm (group3_comma (by omega))
    unfold fmtComma0
    rw [group3_short hlt]
    exact fpRaw _ hlt

/-- C4 counterexample: the claim asserts idempotence on every canonical output,
including the literal "Price on request".  That literal is an output (the input
"contact" produces it), yet normalising it again yields "Price not available":
the noise-phrase deletion erases the whole string before the call-word check
can see it. -/
theorem C4_counterexample :
    clean_and_format_price "contact" = "Price on request" ∧
    clean_and_format_price "Price on request" = "Price not available" ∧
    clean_and_format_price "Price on request" ≠ "Price on request" :=
  ⟨by decide, by decide, by decide⟩

/-- C4 (amended): the price normalizer is idempotent on every output except
the literal "Price on request" (which renormalises to "Price not available")
and the thousands-separated plain-rupee amounts (whose comma stops the second
parse at the leading digit group): for every input string whose normal form is
not "Price on request" and contains no comma, normalising twice equals
normalising once. -/
theorem C4_idempotent_amended (s : String)
    (h1 : clean_and_format_price s ≠ "Price on request")
    (h2 : ',' ∉ (clean_and_format_price s).data) :
    clean_and_format_price (clean_and_format_price s) = clean_and_format_price s := by
  by_cases hs : s = ""
  · subst hs
    rw [show clean_and_format_price "" = "Price not available" from rfl]
    decide
  · have hdata : clean_and_format_price s = ⟨cleanPriceCore s.data⟩ := by
      unfold clean_and_format_price
      rw [if_neg hs]
    rw [hdata] at h1 h2 ⊢
    have hne2 : (⟨cleanPriceCore s.data⟩ : String) ≠ "" :=
      strNeOfDataNe _ (cleanPriceCore_ne s.data)
    have hstep : clean_and_format_price ⟨cleanPriceCore s.data⟩ =
        ⟨cleanPriceCore (cleanPriceCore s.data)⟩ := by
      unfold clean_and_format_price
      rw [if_neg hne2]
    rw [hstep]
    apply congrArg String.mk
    have h2c : ',' ∉ cleanPriceCore s.data := h2
    cases hcall : containsAnyLow callWords (priceNormalize s.data) with
    | true =>
      exfalso
      apply h1
      rw [cleanPriceCore_por s.data hcall]
      rfl
    | false =>
      cases hp1 : scanFirst p1At (priceNormalize s.data) with
      | some r =>
        obtain ⟨x, y, u⟩ := r
        obtain ⟨hxs, hys, hu5⟩ := p1_scan_shapes hp1
        rw [cleanPriceCore_p1 s.data hcall hp1]
        rcases hu5 with hu | hu | hu | hu | hu
        · rw [pyTitle_crore hu]; exact fpRangeCrore x y hxs hys
        · rw [pyTitle_cr hu]; exact fpRangeCr x y hxs hys
        · rw [pyTitle_lakh hu]; exact fpRangeLakh x y hxs hys
        · rw [pyTitle_lac hu]; exact fpRangeLac x y hxs hys
        · rw [pyTitle_l hu]; exact fpRangeL x y hxs hys
      | none =>
        cases hp2 : (scanFirst p2At (priceNormalize s.data)).bind
            (fun r => unitFormat r.1.toVal r.2) with
        | some out =>
          obtain ⟨⟨x, u⟩, hp2s, hout⟩ := Option.bind_eq_some.mp hp2
          rw [cleanPriceCore_p2 s.data hcall hp1 x u hp2s hout]
          rcases unitFormat_cases hout with rfl | rfl
          · exact fpCrOut _
          · exact fpLakhOut _
        | none =>
          cases hp3 : (scanFirst p3At (priceNormalize s.data)).bind p3Out with
          | some out =>
            obtain ⟨⟨x, uo⟩, hp3s, hout⟩ := Option.bind_eq_some.mp hp3
            have hcore := cleanPriceCore_p3 s.data hcall hp1 hp2 hp3s hout
            rw [hcore]
            cases uo with
            | some u2 =>
              have hout2 : unitFormat x.toVal u2 = some out := hout
              rcases unitFormat_cases hout2 with rfl | rfl
              · exact fpCrOut _
              · exact fpLakhOut _
            | none =>
              have hout2 : out = magnitudeFormat x.toVal := by
                unfold p3Out at hout
                dsimp only at hout
                injection hout with hv
                exact hv.symm
              rw [hcore] at h2c
              rw [hout2] at h2c ⊢
              exact fpMagnitude _ h2c
          | none =>
            cases hp4 : scanFirst p4At (priceNormalize s.data) with
            | some ds =>
              have hcore := cleanPriceCore_p4 s.data hcall hp1 hp2 hp3 hp4
              rw [hcore]
              rw [hcore] at h2c
              exact fpMagnitude _ h2c
            | none =>
              cases hp5 : scanFirst p5At (priceNormalize s.data) with
              | some capt =>
                have hcore := cleanPriceCore_p5 s.data hcall hp1 hp2 hp3 hp4 hp5
                rw [hcore]
                rw [hcore] at h2c
                exact fpMagnitude _ h2c
              | none =>
                cases hp6 : scanFirst p6At (priceNormalize s.data) with
                | some x =>
                  rw [cleanPriceCore_p6 s.data hcall hp1 hp2 hp3 hp4 hp5 hp6]
                  exact fpLakhOut _
                | none =>
                  rw [cleanPriceCore_pnone s.data hcall hp1 hp2 hp3 hp4 hp5 hp6]
                  exact fpPNA

/-- Witness for C4's amended theorem on the input "2 cr". -/
theorem C4_idempotent_amended_witness :
    clean_and_format_price "2 cr" ≠ "Price on request" ∧
    ',' ∉ (clean_and_format_price "2 cr").data ∧
    clean_and_format_price (clean_and_format_price "2 cr") =
      clean_and_format_price "2 cr" :=
  ⟨by decide, by decide, C4_idempotent_amended "2 cr" (by decide) (by decide)⟩

end RealEstate
